import Mathlib

/-!
# Verification of the chipchune Furnace codec against its specification

This development shallowly embeds the decoding routines of the `chipchune`
library (a Python codec for the Furnace tracker's binary module format) and
proves or refutes a list of claims made by its natural-language specification.

Conventions used throughout:

* A byte stream is a `List Nat` (each element a byte value `0 ≤ b ≤ 255`).
  Python's `BytesIO`-backed sequential reads become functions
  `List Nat → Except Err (α × List Nat)` (or `Option (α × List Nat)` for the
  instrument/wavetable codecs): the returned list is the unread remainder.
* `struct.unpack`-based reads (`read_byte`, `read_short`, `read_int`,
  `read_float`) raise `struct.error` when fewer bytes remain than required;
  this is the `Err.truncated` error.  Plain `stream.read(n)` never raises and
  simply returns at most `n` bytes; it is modelled by `List.drop`/`List.take`.
* Python `Enum` constructors raise `ValueError` on a value outside the closed
  member set; enum-valued fields are modelled as `Nat` codes guarded by a
  decidable validity test, failing with `Err.badValue`.
* Strings are kept as raw byte lists (`read_str` collects bytes up to a NUL
  terminator and decodes UTF-8; UTF-8 (de)coding is a bijection on valid byte
  sequences, so identifying a string field with its byte sequence is faithful).
-/

namespace Chipchune

/-- Decode error kinds, mirroring the exception kinds the Python code can
raise while decoding: `truncated` is `struct.error` from a fixed-width read
hitting end-of-stream, `badValue` is `ValueError` (bad enum member, bad
field value) or `KeyError`/`IndexError`, `badMagic` is a signature mismatch,
`assertFail` is a failed `assert`. -/
inductive Err where
  | truncated
  | badValue
  | badMagic
  | assertFail
  deriving DecidableEq, Repr

/-- `_util.read_byte`: one byte, unsigned.  Fails (`struct.error`) when the
stream is exhausted. -/
def readByte : List Nat → Except Err (Nat × List Nat)
  | [] => .error .truncated
  | b :: rest => .ok (b, rest)

/-- `_util.read_short`: two bytes, little-endian unsigned. -/
def readShort : List Nat → Except Err (Nat × List Nat)
  | b0 :: b1 :: rest => .ok (b0 + 256 * b1, rest)
  | _ => .error .truncated

/-- `_util.read_int`: four bytes, little-endian unsigned. -/
def readInt : List Nat → Except Err (Nat × List Nat)
  | b0 :: b1 :: b2 :: b3 :: rest =>
      .ok (b0 + 256 * b1 + 65536 * b2 + 16777216 * b3, rest)
  | _ => .error .truncated

theorem readByte_cons (b : Nat) (s : List Nat) : readByte (b :: s) = .ok (b, s) := rfl

theorem readByte_length {s s' : List Nat} {b : Nat} (h : readByte s = .ok (b, s')) :
    s.length = s'.length + 1 := by
  cases s with
  | nil => simp [readByte] at h
  | cons a t => simp [readByte] at h; simp [h.2]

/-- `_util.read_str`, modelled with explicit fuel counting loop iterations.
The Python loop reads single bytes until it sees a zero byte.  At
end-of-stream `file.read(1)` returns the *empty* byte string `b''`, which is
not equal to `b'\x00'`, so the loop appends nothing to the buffer and reads
again: once the stream is exhausted the loop can never exit.  `none` means
the loop has not produced a result within `fuel` iterations. -/
def readStrLoop (fuel : Nat) (buffer : List Nat) (s : List Nat) :
    Option (List Nat × List Nat) :=
  match fuel with
  | 0 => none
  | fuel + 1 =>
    match s with
    | [] => readStrLoop fuel buffer []
    | c :: rest =>
        if c = 0 then some (buffer, rest)
        else readStrLoop fuel (buffer ++ [c]) rest

/-- Terminating abstraction of `_util.read_str` used by the block decoders:
collect bytes up to the first zero byte.  When no zero byte remains, the
Python loop diverges (see `readStrLoop`); that case is modelled as
`Err.truncated`.  Both mean: no value is ever produced for such an input,
so the two models define the same partial function. -/
def readStr : List Nat → Except Err (List Nat × List Nat)
  | [] => .error .truncated
  | c :: rest =>
      if c = 0 then .ok ([], rest)
      else
        match readStr rest with
        | .ok (buf, r) => .ok (c :: buf, r)
        | .error e => .error e

theorem readStrLoop_eof (fuel : Nat) (buffer : List Nat) :
    readStrLoop fuel buffer [] = none := by
  induction fuel with
  | zero => rfl
  | succ n ih => simpa [readStrLoop] using ih

/-! ## C5: legacy macro loop/release double insertion

`instrument.py`, `add_to_macro_data` (nested inside `__load_format_0_embed`):
the Python helper appends the freshly-read values to the macro's data list,
then inserts the loop marker at position `loop` (when `loop` is not `None`
and differs from the 4-byte sentinel `0xFFFFFFFF`), then inserts the
release marker at position `release` (same conditions) — the release
position is *not* adjusted for the just-inserted loop marker. -/

/-- One element of a macro data sequence: either an integer value or one of
the two synthetic markers (`MacroItem.LOOP` / `MacroItem.RELEASE` in
`enums.py`). -/
inductive MEntry where
  | val (v : Int)
  | loop
  | release
  deriving DecidableEq, Repr

/-- Python's `list.insert(i, x)`: inserts before position `i`, clamping `i`
to the list length (an index past the end appends at the end). -/
def pyInsert (i : Nat) (x : α) : List α → List α
  | [] => [x]
  | a :: l =>
    match i with
    | 0 => x :: a :: l
    | i + 1 => a :: pyInsert i x l

/-- `instrument.py`, `add_to_macro_data(macro, loop, release, data)`. -/
def addToMacroData (macroData : List MEntry) (loop : Option Nat) (release : Option Nat)
    (data : Option (List Int)) : List MEntry :=
  let m := match data with
    | some d => macroData ++ d.map MEntry.val
    | none => macroData
  let m := match loop with
    | some l => if l ≠ 0xffffffff then pyInsert l MEntry.loop m else m
    | none => m
  match release with
  | some r => if r ≠ 0xffffffff then pyInsert r MEntry.release m else m
  | none => m

theorem pyInsert_of_le (x : α) : ∀ (l : List α) (k : Nat), k ≤ l.length →
    pyInsert k x l = l.take k ++ x :: l.drop k := by
  intro l
  induction l with
  | nil =>
      intro k hk
      simp only [List.length_nil, Nat.le_zero] at hk
      subst hk; rfl
  | cons a t ih =>
      intro k hk
      cases k with
      | zero => rfl
      | succ k => simp [pyInsert, ih k (by simpa using hk)]

theorem pyInsert_of_ge (x : α) : ∀ (l : List α) (k : Nat), l.length ≤ k →
    pyInsert k x l = l ++ [x] := by
  intro l
  induction l with
  | nil => intro k _; cases k <;> rfl
  | cons a t ih =>
      intro k hk
      cases k with
      | zero => simp at hk
      | succ k => simp [pyInsert, ih k (by simpa using hk)]

/-- The clamped Python insert agrees with Mathlib's (unclamped) `insertIdx`
whenever the index is in bounds. -/
theorem pyInsert_eq_insertIdx (x : α) : ∀ (l : List α) (k : Nat), k ≤ l.length →
    pyInsert k x l = List.insertIdx k x l := by
  intro l
  induction l with
  | nil =>
      intro k hk
      simp only [List.length_nil, Nat.le_zero] at hk
      subst hk; rfl
  | cons a t ih =>
      intro k hk
      cases k with
      | zero => rfl
      | succ k =>
          simp [pyInsert, List.insertIdx_succ_cons, ih k (by simpa using hk)]

/-- **C3.** The claim states that every primitive read terminates on every
input and fails with a typed truncated-input error when too few bytes remain.
The fixed-width reads do fail fast (third conjunct: `read_int` on a 1-byte
stream raises `struct.error`), but `read_str` contradicts the claim: on a
stream that ends before any zero byte, `file.read(1)` keeps returning `b''`
(which differs from `b'\x00'`), so the loop never exits.  The first two
conjuncts show the loop produces no result after *any* number of iterations,
both from an exhausted stream and from the concrete failing input
`b'\x41'`. -/
theorem read_str_loops_forever_on_unterminated_input :
    (∀ fuel buffer, readStrLoop fuel buffer [] = none) ∧
    (∀ fuel, readStrLoop fuel [] [0x41] = none) ∧
    readInt [0x41] = Except.error Err.truncated := by
  refine ⟨readStrLoop_eof, ?_, rfl⟩
  intro fuel
  cases fuel with
  | zero => rfl
  | succ n => simpa [readStrLoop] using readStrLoop_eof n [0x41]

/-- **C5.** In the legacy instrument macro decoder, when a macro has both a
loop position `L` and a release position `R` (each differing from the
sentinel `0xFFFFFFFF`), `add_to_macro_data` inserts the loop marker first at
index `L` of the value sequence and then the release marker at index `R` of
the *resulting* sequence, without adjusting `R` for the already-inserted
loop marker.  Conjunct 1 exhibits the two clamped insertions in that order;
conjunct 2 shows the module's two-phase pattern (loop inserted when the data
is read, release inserted later by a second call, cf. lines 1127–1144) gives
the same result; conjunct 3 pins the unadjusted-position consequence: for
equal in-range positions `L = R = k` the release marker lands *before* the
loop marker. -/
theorem legacy_macro_loop_then_release_insertion
    (vals : List Int) (L R : Nat) (hL : L ≠ 0xffffffff) (hR : R ≠ 0xffffffff) :
    addToMacroData [] (some L) (some R) (some vals)
        = pyInsert R MEntry.release (pyInsert L MEntry.loop (vals.map MEntry.val)) ∧
    addToMacroData (addToMacroData [] (some L) none (some vals)) none (some R) none
        = addToMacroData [] (some L) (some R) (some vals) ∧
    (∀ k, k ≤ vals.length → k ≠ 0xffffffff →
      addToMacroData [] (some k) (some k) (some vals)
        = (vals.map MEntry.val).take k
            ++ MEntry.release :: MEntry.loop :: (vals.map MEntry.val).drop k) := by
  refine ⟨by simp [addToMacroData, hL, hR], by simp [addToMacroData, hL, hR], ?_⟩
  intro k hk hk'
  have hlen : k ≤ (vals.map MEntry.val).length := by simpa using hk
  have h1 : pyInsert k MEntry.loop (vals.map MEntry.val)
      = (vals.map MEntry.val).take k ++ MEntry.loop :: (vals.map MEntry.val).drop k :=
    pyInsert_of_le _ _ _ hlen
  have hlen2 : k ≤ ((vals.map MEntry.val).take k
      ++ MEntry.loop :: (vals.map MEntry.val).drop k).length := by
    simp; omega
  have htake : k ≤ ((vals.map MEntry.val).take k).length := by simp; omega
  simp only [addToMacroData, hk', if_pos, List.nil_append, ne_eq,
    not_false_iff, if_true, h1]
  rw [pyInsert_of_le _ _ _ hlen2]
  rw [List.take_append_of_le_length htake, List.drop_append_of_le_length htake]
  have : ((vals.map MEntry.val).take k).length = k := by simp; omega
  simp [List.take_take, this, List.drop_take]

/-- Witness for `legacy_macro_loop_then_release_insertion` at concrete input
`vals = [7, 8, 9]`, `L = R = 1`. -/
theorem legacy_macro_loop_then_release_insertion_witness :
    addToMacroData [] (some 1) (some 1) (some [7, 8, 9])
      = [MEntry.val 7, MEntry.release, MEntry.loop, MEntry.val 8, MEntry.val 9] := by
  have h := (legacy_macro_loop_then_release_insertion [7, 8, 9] 1 1
    (by decide) (by decide)).2.2 1 (by decide) (by decide)
  simpa using h

/-! ## Little-endian byte encodings (the write side of `_util`)

The repository has no encoder (`serialize` in `data_types.py` is commented
out), but §4.1 of the spec fixes the write side as the byte-exact inverse of
the reader: fixed-width little-endian integers and NUL-terminated strings. -/

/-- Two little-endian bytes of `v` (inverse of `read_short` for `v < 2^16`). -/
def u16le (v : Nat) : List Nat := [v % 256, v / 256 % 256]

/-- Four little-endian bytes of `v` (inverse of `read_int` for `v < 2^32`). -/
def u32le (v : Nat) : List Nat :=
  [v % 256, v / 256 % 256, v / 65536 % 256, v / 16777216 % 256]

theorem readShort_u16le (v : Nat) (hv : v < 65536) (r : List Nat) :
    readShort (u16le v ++ r) = .ok (v, r) := by
  simp only [u16le, List.cons_append, List.nil_append, readShort, Except.ok.injEq,
    Prod.mk.injEq, and_true]
  omega

theorem readInt_u32le (v : Nat) (hv : v < 4294967296) (r : List Nat) :
    readInt (u32le v ++ r) = .ok (v, r) := by
  simp only [u32le, List.cons_append, List.nil_append, readInt, Except.ok.injEq,
    Prod.mk.injEq, and_true]
  omega

theorem readStr_append (nm : List Nat) (hnm : 0 ∉ nm) (r : List Nat) :
    readStr (nm ++ 0 :: r) = .ok (nm, r) := by
  induction nm with
  | nil => simp [readStr]
  | cons c t ih =>
      have hc : c ≠ 0 := fun h => hnm (h ▸ List.mem_cons_self c t)
      have ht : 0 ∉ t := fun h => hnm (List.mem_cons_of_mem c h)
      simp [readStr, hc, ih ht]

/-- Read `n` 4-byte little-endian unsigned integers (a Python list
comprehension `[read_int(f) for _ in range(n)]`). -/
def readInts (n : Nat) (s : List Nat) : Except Err (List Nat × List Nat) :=
  match n with
  | 0 => .ok ([], s)
  | n + 1 => do
    let (v, s) ← readInt s
    let (vs, s) ← readInts n s
    .ok (v :: vs, s)

theorem readInts_append (vals : List Nat) (hb : ∀ v ∈ vals, v < 4294967296)
    (r : List Nat) :
    readInts vals.length ((vals.map u32le).flatten ++ r) = .ok (vals, r) := by
  induction vals with
  | nil => simp [readInts]
  | cons v t ih =>
      have hv : v < 4294967296 := hb v (List.mem_cons_self v t)
      have ht : ∀ w ∈ t, w < 4294967296 := fun w hw => hb w (List.mem_cons_of_mem v hw)
      simp only [List.length_cons, List.map_cons, List.flatten_cons, List.append_assoc,
        readInts, bind, Except.bind, readInt_u32le v hv, ih ht]

/-! ## C7: the wavetable codec (`wavetable.py`) -/

/-- A decoded wavetable: `WavetableMeta` fields plus the amplitude data
(`FurnaceWavetable.meta` / `FurnaceWavetable.data`). -/
structure Wavetable where
  name : List Nat
  width : Nat
  height : Nat
  data : List Nat
  deriving DecidableEq, Repr

/-- Body of `FurnaceWavetable.__load_embed` after the signature and block
size: name, width (u32), 4 reserved bytes, height (u32 plus one — the
serialized height is 1 lower than the actual value), then `width` u32
samples. -/
def loadWavetableBody (s : List Nat) : Except Err (Wavetable × List Nat) := do
  let (name, s) ← readStr s
  let (width, s) ← readInt s
  let (_, s) ← readInt s
  let (hfield, s) ← readInt s
  let (data, s) ← readInts width s
  .ok ({ name := name, width := width, height := hfield + 1, data := data }, s)

/-- `FurnaceWavetable.__load_embed`: check the 4-byte `WAVE` signature, read
the block size, then decode the body (from a fresh substream of that many
bytes when the size is positive, else from the stream itself). -/
def loadWavetableEmbed (s : List Nat) : Except Err (Wavetable × List Nat) :=
  match s with
  | 0x57 :: 0x41 :: 0x56 :: 0x45 :: rest =>
    match readInt rest with
    | .error e => .error e
    | .ok (blkSize, rest) =>
      if blkSize > 0 then
        match loadWavetableBody (rest.take blkSize) with
        | .error e => .error e
        | .ok (wt, _) => .ok (wt, rest.drop blkSize)
      else loadWavetableBody rest
  | _ => .error .badMagic

/-- Modelled from the spec: the repository contains no wavetable encoder
(`serialize` is commented out in `data_types.py`).  §4.5: "name, width
(u32), 4 reserved bytes, height (u32, on-disk value is actual height minus
one — must add one on decode, subtract one on encode), then `width` u32
amplitude samples." -/
def encodeWavetableBody (w : Wavetable) : List Nat :=
  w.name ++ [0] ++ u32le w.width ++ u32le 0 ++ u32le (w.height - 1)
    ++ (w.data.map u32le).flatten

/-- Modelled from the spec: the embedded wavetable block is the `WAVE`
signature, a u32 byte length, then the body. -/
def encodeWavetableEmbed (w : Wavetable) : List Nat :=
  [0x57, 0x41, 0x56, 0x45] ++ u32le (encodeWavetableBody w).length
    ++ encodeWavetableBody w

/-- **C7.** Decoding a wavetable block whose on-disk height field is `hf`
produces `height = hf + 1` (first conjunct, for an arbitrary well-formed
block; instantiating `hf := 31` gives `height = 32`), and encoding a
wavetable writes `height - 1` as the on-disk height field (second conjunct:
the encoded body carries `u32le hf` where the height is `hf + 1`;
instantiating `hf := 31` shows `meta.height == 32` is written as `31`).
The encoder is modelled from the spec, since the repository has none. -/
theorem wavetable_height_off_by_one
    (nm : List Nat) (hnm : 0 ∉ nm) (wd rv hf : Nat)
    (hwd : wd < 4294967296) (hrv : rv < 4294967296) (hhf : hf < 4294967296)
    (vals : List Nat) (hlen : vals.length = wd) (hb : ∀ v ∈ vals, v < 4294967296)
    (hsz : (nm ++ 0 :: (u32le wd ++ u32le rv ++ u32le hf
        ++ (vals.map u32le).flatten)).length < 4294967296) :
    loadWavetableEmbed ([0x57, 0x41, 0x56, 0x45]
        ++ u32le (nm ++ 0 :: (u32le wd ++ u32le rv ++ u32le hf
            ++ (vals.map u32le).flatten)).length
        ++ (nm ++ 0 :: (u32le wd ++ u32le rv ++ u32le hf
            ++ (vals.map u32le).flatten)))
      = .ok ({ name := nm, width := wd, height := hf + 1, data := vals }, []) ∧
    encodeWavetableBody { name := nm, width := wd, height := hf + 1, data := vals }
      = nm ++ 0 :: (u32le wd ++ u32le 0 ++ u32le hf ++ (vals.map u32le).flatten) := by
  subst hlen
  have hbody : loadWavetableBody (nm ++ 0 :: (u32le vals.length ++ u32le rv
      ++ u32le hf ++ (vals.map u32le).flatten))
      = .ok ({ name := nm, width := vals.length, height := hf + 1, data := vals },
          []) := by
    have hr := readInts_append vals hb []
    rw [List.append_nil] at hr
    simp only [loadWavetableBody, bind, Except.bind, readStr_append nm hnm,
      List.append_assoc, readInt_u32le _ hwd, readInt_u32le _ hrv,
      readInt_u32le _ hhf, hr]
  constructor
  · have hpos : 0 < (nm ++ 0 :: (u32le vals.length ++ u32le rv ++ u32le hf
        ++ (vals.map u32le).flatten)).length := by simp
    simp only [loadWavetableEmbed, List.cons_append, List.nil_append]
    rw [readInt_u32le _ hsz]
    simp only [gt_iff_lt, hpos, if_true, List.take_length, List.drop_length, hbody]
  · simp [encodeWavetableBody]

/-- Witness for `wavetable_height_off_by_one`: the concrete block named
`"A"`, width 1, on-disk height field 31, one sample, decodes to
`height = 32`; encoding the height-32 wavetable writes the field 31. -/
theorem wavetable_height_off_by_one_witness :
    loadWavetableEmbed ([0x57, 0x41, 0x56, 0x45]
        ++ u32le ([0x41] ++ 0 :: (u32le 1 ++ u32le 0 ++ u32le 31
            ++ ([5].map u32le).flatten)).length
        ++ ([0x41] ++ 0 :: (u32le 1 ++ u32le 0 ++ u32le 31
            ++ ([5].map u32le).flatten)))
      = .ok ({ name := [0x41], width := 1, height := 32, data := [5] }, []) ∧
    encodeWavetableBody { name := [0x41], width := 1, height := 32, data := [5] }
      = [0x41] ++ 0 :: (u32le 1 ++ u32le 0 ++ u32le 31 ++ ([5].map u32le).flatten) := by
  exact wavetable_height_off_by_one [0x41] (by decide) 1 0 31 (by decide) (by decide)
    (by decide) [5] rfl (by decide) (by decide)

/-! ## C8: legacy per-chip flag unpacking (`module.py`,
`FurnaceModule.__convert_old_chip_flags`)

Chips are identified by their `ChipType` id byte (`enums.py`); the flag
word is the pre-v119 32-bit value read by `__read_info`.  A flag-map value
is either a boolean or an integer. -/

namespace ChipId

def GENESIS : Nat := 0x02
def SMS : Nat := 0x03
def GB : Nat := 0x04
def PCE : Nat := 0x05
def NES : Nat := 0x06
def C64_8580 : Nat := 0x07
def SEGA_ARCADE : Nat := 0x08
def NEO_GEO_CD : Nat := 0x09
def GENESIS_EX : Nat := 0x42
def C64_6581 : Nat := 0x47
def NEO_GEO_CD_EX : Nat := 0x49
def AY38910 : Nat := 0x80
def AMIGA : Nat := 0x81
def YM2151 : Nat := 0x82
def YM2612 : Nat := 0x83
def TIA : Nat := 0x84
def VIC20 : Nat := 0x85
def SNES : Nat := 0x87
def VRC6 : Nat := 0x88
def OPLL : Nat := 0x89
def FDS : Nat := 0x8a
def MMC5 : Nat := 0x8b
def N163 : Nat := 0x8c
def OPN : Nat := 0x8d
def OPL : Nat := 0x8f
def OPL2 : Nat := 0x90
def OPL3 : Nat := 0x91
def PC_SPEAKER : Nat := 0x93
def RF5C68 : Nat := 0x95
def SAA1099 : Nat := 0x97
def OPZ : Nat := 0x98
def AY8930 : Nat := 0x9a
def VRC7 : Nat := 0x9d
def YM2610B : Nat := 0x9e
def ZX_BEEPER : Nat := 0x9f
def YM2612_EX : Nat := 0xa0
def SCC : Nat := 0xa1
def OPL_DRUMS : Nat := 0xa2
def OPL2_DRUMS : Nat := 0xa3
def OPL3_DRUMS : Nat := 0xa4
def NEO_GEO : Nat := 0xa5
def NEO_GEO_EX : Nat := 0xa6
def OPLL_DRUMS : Nat := 0xa7
def MSM6295 : Nat := 0xaa
def MSM6258 : Nat := 0xab
def OPL4 : Nat := 0xae
def OPL4_DRUMS : Nat := 0xaf
def SETA : Nat := 0xb0
def ES5506 : Nat := 0xb1
def Y8950 : Nat := 0xb2
def Y8950_DRUMS : Nat := 0xb3
def SCC_PLUS : Nat := 0xb4
def TSU : Nat := 0xb5
def YM2203_EX : Nat := 0xb6
def YMZ280B : Nat := 0xb8
def YM2612_PLUS_EX : Nat := 0xbd
def YM2612_PLUS : Nat := 0xbe
def PCM_DAC : Nat := 0xc0
def YM2610B_EX : Nat := 0xde
def QSOUND : Nat := 0xe0

end ChipId

/-- A chip flag-map value (`Dict[str, Union[bool, int]]` on the Python
side). -/
inductive FlagVal where
  | b (v : Bool)
  | n (v : Nat)
  deriving DecidableEq, Repr

/-- `FurnaceModule.__convert_old_chip_flags(chip, flag)`: a pure function
from a chip type and a pre-v119 32-bit flag word to the newer keyed flag
map (insertion order preserved).  Unknown chip types yield an empty map. -/
def convertOldChipFlags (chip : Nat) (flag : Nat) : List (String × FlagVal) :=
  open ChipId in
  if chip = GENESIS ∨ chip = GENESIS_EX then
    [("clockSel", .n (flag &&& 2147483647)),
     ("ladderEffect", .b (decide ((flag >>> 31) &&& 1 = 1)))]
  else if chip = SMS then
    let cs0 := flag &&& 0xff03
    let cs := if cs0 > 0x100 then cs0 - 252 else cs0
    let ct0 := (flag &&& 0xcc) / 4
    let ct := if ct0 ≥ 32 then ct0 - 24 else if ct0 ≥ 16 then ct0 - 12 else ct0
    [("clockSel", .n cs), ("chipType", .n ct), ("noPhaseReset", .n (flag >>> 4))]
  else if chip = GB then
    [("chipType", .n (flag &&& 0b11)),
     ("noAntiClick", .b (decide ((flag >>> 3) &&& 1 = 1)))]
  else if chip = PCE then
    [("clockSel", .n (flag &&& 1)), ("chipType", .n ((flag >>> 2) &&& 1)),
     ("noAntiClick", .b (decide ((flag >>> 3) &&& 1 = 1)))]
  else if chip = NES ∨ chip = VRC6 ∨ chip = FDS ∨ chip = MMC5 then
    [("clockSel", .n (flag &&& 0b11))]
  else if chip = C64_8580 ∨ chip = C64_6581 then
    [("clockSel", .n (flag &&& 0b1111))]
  else if chip = SEGA_ARCADE then
    [("clockSel", .n (flag &&& 0b11111111))]
  else if chip = NEO_GEO_CD ∨ chip = NEO_GEO ∨ chip = NEO_GEO_EX
      ∨ chip = NEO_GEO_CD_EX ∨ chip = YM2610B ∨ chip = YM2610B_EX then
    [("clockSel", .n (flag &&& 0b11111111))]
  else if chip = AY38910 then
    [("clockSel", .n (flag &&& 0b1111)), ("chipType", .n ((flag >>> 4) &&& 0b11)),
     ("stereo", .b (decide ((flag >>> 6) &&& 1 = 1))),
     ("halfClock", .b (decide ((flag >>> 7) &&& 1 = 1))),
     ("stereoSep", .n ((flag >>> 8) &&& 0b11111111))]
  else if chip = AMIGA then
    [("clockSel", .n (flag &&& 1)), ("chipType", .n ((flag >>> 1) &&& 1)),
     ("bypassLimits", .b (decide ((flag >>> 2) &&& 1 = 1))),
     ("stereoSep", .n ((flag >>> 8) &&& 0b1111111))]
  else if chip = YM2151 then
    [("clockSel", .n (flag &&& 0b11111111))]
  else if chip = YM2612 ∨ chip = YM2612_EX ∨ chip = YM2612_PLUS
      ∨ chip = YM2612_PLUS_EX then
    [("clockSel", .n (flag &&& 2147483647)),
     ("ladderEffect", .b (decide ((flag >>> 31) &&& 1 = 1)))]
  else if chip = TIA then
    [("clockSel", .n (flag &&& 1)), ("mixingType", .n ((flag >>> 1) &&& 0b11))]
  else if chip = VIC20 then
    [("clockSel", .n (flag &&& 1))]
  else if chip = SNES then
    [("volScaleL", .n (flag &&& 0b1111111)),
     ("volScaleR", .n ((flag >>> 8) &&& 0b1111111))]
  else if chip = OPLL ∨ chip = OPLL_DRUMS then
    [("clockSel", .n (flag &&& 0b1111)), ("patchSet", .n (flag >>> 4))]
  else if chip = N163 then
    [("clockSel", .n (flag &&& 0b1111)), ("channels", .n ((flag >>> 4) &&& 0b111)),
     ("multiplex", .b (decide ((flag >>> 7) &&& 1 = 1)))]
  else if chip = OPN ∨ chip = YM2203_EX then
    [("clockSel", .n (flag &&& 0b11111)), ("prescale", .n ((flag >>> 5) &&& 0b11))]
  else if chip = OPL ∨ chip = OPL_DRUMS ∨ chip = OPL2 ∨ chip = OPL2_DRUMS
      ∨ chip = Y8950 ∨ chip = Y8950_DRUMS then
    [("clockSel", .n (flag &&& 0b11111111))]
  else if chip = OPL3 ∨ chip = OPL3_DRUMS then
    [("clockSel", .n (flag &&& 0b11111111))]
  else if chip = PC_SPEAKER then
    [("speakerType", .n (flag &&& 0b11))]
  else if chip = RF5C68 then
    [("clockSel", .n (flag &&& 0b1111)), ("chipType", .n (flag >>> 4))]
  else if chip = SAA1099 ∨ chip = OPZ then
    [("clockSel", .n (flag &&& 0b11))]
  else if chip = AY8930 then
    [("clockSel", .n (flag &&& 0b1111)),
     ("stereo", .b (decide ((flag >>> 6) &&& 1 = 1))),
     ("halfClock", .b (decide ((flag >>> 7) &&& 1 = 1))),
     ("stereoSep", .n ((flag >>> 8) &&& 0b11111111))]
  else if chip = VRC7 then
    [("clockSel", .n (flag &&& 0b11))]
  else if chip = ZX_BEEPER then
    [("clockSel", .n (flag &&& 1))]
  else if chip = SCC ∨ chip = SCC_PLUS then
    [("clockSel", .n (flag &&& 0b11))]
  else if chip = MSM6295 then
    [("clockSel", .n (flag &&& 0b1111111)),
     ("rateSel", .b (decide ((flag >>> 7) &&& 1 = 1)))]
  else if chip = MSM6258 then
    [("clockSel", .n (flag &&& 0b11))]
  else if chip = OPL4 ∨ chip = OPL4_DRUMS then
    [("clockSel", .n (flag &&& 0b11111111))]
  else if chip = SETA then
    [("clockSel", .n (flag &&& 0b1111)),
     ("stereo", .b (decide ((flag >>> 4) &&& 1 = 1)))]
  else if chip = ES5506 then
    [("channels", .n (flag &&& 0b11111))]
  else if chip = TSU then
    [("clockSel", .n (flag &&& 1)),
     ("echo", .b (decide ((flag >>> 2) &&& 1 = 1))),
     ("swapEcho", .b (decide ((flag >>> 3) &&& 1 = 1))),
     ("sampleMemSize", .n ((flag >>> 4) &&& 1)),
     ("pdm", .b (decide ((flag >>> 5) &&& 1 = 1))),
     ("echoDelay", .n ((flag >>> 8) &&& 0b111111)),
     ("echoFeedback", .n ((flag >>> 16) &&& 0b1111)),
     ("echoResolution", .n ((flag >>> 20) &&& 0b1111)),
     ("echoVol", .n ((flag >>> 24) &&& 0b11111111))]
  else if chip = YMZ280B then
    [("clockSel", .n (flag &&& 0b11111111))]
  else if chip = PCM_DAC then
    [("rate", .n ((flag &&& 0b1111111111111111) + 1)),
     ("outDepth", .n ((flag >>> 16) &&& 0b1111)),
     ("stereo", .b (decide ((flag >>> 20) &&& 1 = 1)))]
  else if chip = QSOUND then
    [("echoDelay", .n (flag &&& 0b1111111111111)),
     ("echoFeedback", .n ((flag >>> 16) &&& 0b11111111))]
  else []

/-- **C8.** For every chip type whose legacy flag layout reserves bit 31 as
a boolean and bits 0–30 as a clock selector (the Genesis/YM2612 families),
converting the pre-v119 flag word `0x80000003` yields a flag map with
`clockSel = 3` and `ladderEffect = True`. -/
theorem genesis_family_flag_word_0x80000003 (c : Nat)
    (hc : c ∈ [ChipId.GENESIS, ChipId.GENESIS_EX, ChipId.YM2612,
        ChipId.YM2612_EX, ChipId.YM2612_PLUS, ChipId.YM2612_PLUS_EX]) :
    (convertOldChipFlags c 0x80000003).lookup "clockSel" = some (.n 3) ∧
    (convertOldChipFlags c 0x80000003).lookup "ladderEffect" = some (.b true) := by
  fin_cases hc <;> exact ⟨by decide, by decide⟩

/-- Witness for `genesis_family_flag_word_0x80000003` at the Genesis chip
type. -/
theorem genesis_family_flag_word_0x80000003_witness :
    (convertOldChipFlags ChipId.GENESIS 0x80000003).lookup "clockSel"
        = some (.n 3) ∧
    (convertOldChipFlags ChipId.GENESIS 0x80000003).lookup "ladderEffect"
        = some (.b true) :=
  genesis_family_flag_word_0x80000003 ChipId.GENESIS (by decide)

/-! ## C9: pointer tables stop at the first zero pointer

`module.py`, `__read_instruments` / `__read_wavetables` / `__read_samples` /
`__read_patterns`: each runs `for i in table: if i == 0: break;
stream.seek(i); <decode one entity>; <append>`. `readPointerTable f` is that
loop with `f p` standing for "seek to offset `p` and decode one entity"
(which may fail, aborting the whole decode). -/

def readPointerTable (f : Nat → Except Err α) : List Nat → Except Err (List α)
  | [] => .ok []
  | p :: rest =>
    if p = 0 then .ok []
    else do
      let a ← f p
      let as ← readPointerTable f rest
      .ok (a :: as)

/-- Plain sequential decoding of a whole pointer list: seek to and decode
every entry, with no zero check.  (`readPointerTable` restricted to a table
with no zero entries.) -/
def mapExcept (f : Nat → Except Err α) : List Nat → Except Err (List α)
  | [] => .ok []
  | p :: rest => do
      let a ← f p
      let as ← mapExcept f rest
      .ok (a :: as)

theorem mapExcept_ok_length {f : Nat → Except Err α} :
    ∀ {l : List Nat} {out : List α}, mapExcept f l = .ok out →
      out.length = l.length := by
  intro l
  induction l with
  | nil =>
      intro out h
      simp only [mapExcept, Except.ok.injEq] at h
      simp [← h]
  | cons p rest ih =>
      intro out h
      simp only [mapExcept, bind, Except.bind] at h
      cases hf : f p with
      | error e => simp [hf] at h
      | ok a =>
          simp only [hf] at h
          cases hr : mapExcept f rest with
          | error e => simp [hr] at h
          | ok as =>
              simp only [hr, Except.ok.injEq] at h
              simp [← h, ih hr]

theorem readPointerTable_eq_mapExcept (f : Nat → Except Err α) (ptrs : List Nat) :
    readPointerTable f ptrs = mapExcept f (ptrs.takeWhile (fun p => p != 0)) := by
  induction ptrs with
  | nil => rfl
  | cons p rest ih =>
      by_cases hp : p = 0
      · subst hp
        simp [readPointerTable, List.takeWhile, mapExcept]
      · simp only [readPointerTable, hp, if_false, List.takeWhile]
        have hb : (p != 0) = true := by simpa using hp
        rw [hb]
        simp only [mapExcept, ih]

/-- **C9.** For every pointer table followed during module decode, exactly
the prefix of entries before the first zero pointer is processed: the loop
equals `mapM` over that prefix (first conjunct), so the number of decoded
entities equals the prefix length, which may be smaller than the declared
count (second conjunct), and the entity decoder is never invoked on a zero
pointer — any two decoders agreeing on nonzero pointers give the same
result (third conjunct). -/
theorem pointer_table_stops_at_first_zero (f : Nat → Except Err α)
    (ptrs : List Nat) :
    readPointerTable f ptrs = mapExcept f (ptrs.takeWhile (fun p => p != 0)) ∧
    (∀ out, readPointerTable f ptrs = .ok out →
        out.length = (ptrs.takeWhile (fun p => p != 0)).length) ∧
    (∀ g : Nat → Except Err α, (∀ p, p ≠ 0 → f p = g p) →
        readPointerTable f ptrs = readPointerTable g ptrs) := by
  refine ⟨readPointerTable_eq_mapExcept f ptrs, ?_, ?_⟩
  · intro out h
    rw [readPointerTable_eq_mapExcept f ptrs] at h
    exact mapExcept_ok_length h
  · intro g hfg
    induction ptrs with
    | nil => rfl
    | cons p rest ih =>
        by_cases hp : p = 0
        · subst hp; rfl
        · simp only [readPointerTable, hp, if_false, hfg p hp, ih]

/-- Witness for `pointer_table_stops_at_first_zero`: with the table
`[5, 0, 7]` the loop decodes exactly one entity (the prefix before the
zero pointer has length 1, though the declared count is 3). -/
theorem pointer_table_stops_at_first_zero_witness :
    ([6] : List Nat).length
      = (([5, 0, 7] : List Nat).takeWhile (fun p => p != 0)).length :=
  (pointer_table_stops_at_first_zero (fun p => Except.ok (p + 1)) [5, 0, 7]).2.1
    [6] rfl

/-! ## C2 / C6: the pattern codec (`module.py`, `__read_patterns`)

Per-pattern decoding for both on-disk row encodings: fixed-width rows for
module version < 157 (`PATR` blocks) and bit-packed sparse rows for
version ≥ 157 (`PATN` blocks). -/

/-- The slice of a decoded `SubSong` that the pattern codec consults:
`pattern_length` (rows per pattern) and the per-channel `effect_columns`
list. -/
structure SubsongCfg where
  pattern_length : Nat
  effect_columns : List Nat
  deriving DecidableEq, Repr

/-- `FurnaceRow`: note (a `Note` enum code), octave, instrument and volume
(with `0xFFFF` as the unset sentinel), and one `(command, value)` pair per
effect column (each side `0xFFFF` when unset). -/
structure Row where
  note : Nat
  octave : Int
  instrument : Nat
  volume : Nat
  effects : List (Nat × Nat)
  deriving DecidableEq, Repr

/-- `FurnacePattern` (the fields set by `__read_patterns`). -/
structure Pattern where
  channel : Nat
  index : Nat
  subsong : Nat
  data : List Row
  name : List Nat
  deriving DecidableEq, Repr

/-- Valid `Note` enum codes (`enums.py`): `0` (`__` none) through `12`
(`C_`), plus `OFF = 100`, `OFF_REL = 101`, `REL = 102`. -/
def noteValid (n : Nat) : Bool := n ≤ 12 || n == 100 || n == 101 || n == 102

/-- `[(read_short(f), read_short(f)) for _ in range(n)]`. -/
def readShortPairs : Nat → List Nat → Except Err (List (Nat × Nat) × List Nat)
  | 0, s => .ok ([], s)
  | n + 1, s => do
      let (a, s) ← readShort s
      let (b, s) ← readShort s
      let (tl, s) ← readShortPairs n s
      .ok ((a, b) :: tl, s)

/-- The fixed-width (version < 157) row loop of `__read_patterns`: each row
is note/octave/instrument/volume as u16, then `effect_columns` u16 pairs;
a decoded note equal to `C_` (code 12) increments the octave by one.  The
`effect_columns[channel]` lookup happens inside the loop in the source; the
enclosing-subsong lookup (for `num_rows`) has already succeeded. -/
def readOldRows (cfg : SubsongCfg) (channel : Nat) :
    Nat → List Nat → Except Err (List Row × List Nat)
  | 0, s => .ok ([], s)
  | n + 1, s => do
      let (noteRaw, s) ← readShort s
      if noteValid noteRaw then
        let (octave, s) ← readShort s
        let (instrument, s) ← readShort s
        let (volume, s) ← readShort s
        let octave : Int := (octave : Int) + (if noteRaw = 12 then 1 else 0)
        match cfg.effect_columns.get? channel with
        | none => .error .badValue
        | some ec => do
            let (effects, s) ← readShortPairs ec s
            let (rows, s) ← readOldRows cfg channel n s
            .ok ({ note := noteRaw, octave := octave, instrument := instrument,
                   volume := volume, effects := effects } :: rows, s)
      else .error .badValue

/-- The version-gated pattern-name read at the end of a `PATR` block
(`if self.meta.version >= 51: new_patr.name = read_str(patr_blk)`). -/
def readOldPatternName (version : Nat) (s : List Nat) :
    Except Err (List Nat × List Nat) :=
  if 51 ≤ version then readStr s else .ok ([], s)

/-- Body of a `PATR` (fixed-width) pattern block, after signature and block
size: channel/index/subsong (u16 each; pre-v95 files assert `subsong == 0`),
a reserved u16, `pattern_length` rows, and (version ≥ 51) the pattern
name. -/
def readPatternOldBody (subsongs : List SubsongCfg) (version : Nat)
    (s : List Nat) : Except Err (Pattern × List Nat) := do
  let (channel, s) ← readShort s
  let (index, s) ← readShort s
  let (subsong, s) ← readShort s
  if version < 95 ∧ subsong ≠ 0 then .error .assertFail
  else do
    let (_, s) ← readShort s
    match subsongs.get? subsong with
    | none => .error .badValue
    | some cfg => do
        let (rows, s) ← readOldRows cfg channel cfg.pattern_length s
        let (name, s) ← readOldPatternName version s
        .ok ({ channel := channel, index := index, subsong := subsong,
               data := rows, name := name }, s)

/-- A fully-empty sparse-format row: note absent (`Note.__`, code 0),
instrument and volume at the `0xFFFF` unset sentinel, every effect pair
`(0xFFFF, 0xFFFF)` (the `empty_row` lambda in `__read_patterns`). -/
def emptyRow (ec : Nat) : Row :=
  { note := 0, octave := 0, instrument := 0xffff, volume := 0xffff,
    effects := List.replicate ec (0xffff, 0xffff) }

/-- Decode the second/third presence-flag bytes of a sparse content record
into the 8-entry `(effect-present, effect-value-present)` lists. -/
def readPresence (char : Nat) (s : List Nat) :
    Except Err (List (Bool × Bool) × List Nat) := do
  let p0 := char &&& 0x08 != 0
  let v0 := char &&& 0x10 != 0
  let ((p1, v1, p2, v2, p3, v3), s) ←
    if char &&& 0x20 != 0 then do
      let (c2, s) ← readByte s
      -- `assert effect_present_list[0] == bool(char & 0x01)` etc.
      if (c2 &&& 0x01 != 0) = p0 ∧ (c2 &&& 0x02 != 0) = v0 then
        .ok ((c2 &&& 0x04 != 0, c2 &&& 0x08 != 0, c2 &&& 0x10 != 0,
              c2 &&& 0x20 != 0, c2 &&& 0x40 != 0, c2 &&& 0x80 != 0), s)
      else .error .assertFail
    else .ok ((false, false, false, false, false, false), s)
  let ((p4, v4, p5, v5, p6, v6, p7, v7), s) ←
    if char &&& 0x40 != 0 then do
      let (c3, s) ← readByte s
      .ok ((c3 &&& 0x01 != 0, c3 &&& 0x02 != 0, c3 &&& 0x04 != 0,
            c3 &&& 0x08 != 0, c3 &&& 0x10 != 0, c3 &&& 0x20 != 0,
            c3 &&& 0x40 != 0, c3 &&& 0x80 != 0), s)
    else .ok ((false, false, false, false, false, false, false, false), s)
  .ok ([(p0, v0), (p1, v1), (p2, v2), (p3, v3),
        (p4, v4), (p5, v5), (p6, v6), (p7, v7)], s)

/-- Read the first `min 8 ec` effect pairs per their presence flags (absent
sides stay `0xFFFF`), padding columns beyond the 8 flagged ones with fully
unset pairs (the `row.effects` array is pre-filled with `(0xFFFF, 0xFFFF)`
and the loop overwrites at most 8 entries, breaking at `ec`). -/
def readEffectPairs : List (Bool × Bool) → Nat → List Nat →
    Except Err (List (Nat × Nat) × List Nat)
  | _, 0, s => .ok ([], s)
  | [], ec, s => .ok (List.replicate ec (0xffff, 0xffff), s)
  | (p, vp) :: rest, ec + 1, s => do
      let (cmd, s) ← if p then readByte s else .ok (0xffff, s)
      let (val, s) ← if vp then readByte s else .ok (0xffff, s)
      let (tl, s) ← readEffectPairs rest ec s
      .ok ((cmd, val) :: tl, s)

/-- Decode one sparse content record (the flag byte `char` has already been
read and has neither the terminator value `0xFF` nor the skip bit set). -/
def readContentRow (ec : Nat) (char : Nat) (s : List Nat) :
    Except Err (Row × List Nat) := do
  let (pres, s) ← readPresence char s
  let ((note, octave), s) ←
    if char &&& 0x01 != 0 then do
      let (raw, s) ← readByte s
      if raw = 180 then .ok (((100 : Nat), (0 : Int)), s)
      else if raw = 181 then .ok ((101, 0), s)
      else if raw = 182 then .ok ((102, 0), s)
      else
        let note := raw % 12
        let note := if note = 0 then 12 else note
        .ok ((note, (-5 : Int) + (raw / 12 : Nat)), s)
    else .ok ((0, 0), s)
  let (ins, s) ← if char &&& 0x02 != 0 then readByte s else .ok (0xffff, s)
  let (vol, s) ← if char &&& 0x04 != 0 then readByte s else .ok (0xffff, s)
  let (effects, s) ← readEffectPairs pres ec s
  .ok ({ note := note, octave := octave, instrument := ins, volume := vol,
         effects := effects }, s)

/-- The sparse (version ≥ 157) row loop of `__read_patterns`: while fewer
than `numRows` rows are accounted for, read a record byte; `0xFF` ends the
pattern (producing no row), a byte with the high bit set contributes
`(byte & 0x7F) + 2` fully-empty rows, and any other byte begins an explicit
content record contributing one row. -/
def readNewRowsLoop (ec numRows : Nat) (idx : Nat) (acc : List Row)
    (s : List Nat) : Except Err (List Row × Nat × List Nat) :=
  if _h : idx < numRows then
    match s with
    | [] => .error .truncated
    | char :: s =>
      if char = 0xff then .ok (acc, idx, s)
      else if _hskip : char &&& 0x80 ≠ 0 then
        readNewRowsLoop ec numRows (idx + ((char &&& 0x7f) + 2))
          (acc ++ List.replicate ((char &&& 0x7f) + 2) (emptyRow ec)) s
      else
        match readContentRow ec char s with
        | .error e => .error e
        | .ok (row, s) => readNewRowsLoop ec numRows (idx + 1) (acc ++ [row]) s
  else .ok (acc, idx, s)
  termination_by numRows - idx
  decreasing_by
  · omega
  · omega

/-- Body of a `PATN` (sparse) pattern block, after signature and block size:
subsong/channel bytes, index u16, name, then the row loop followed by
filling the remainder of the pattern with fully-empty rows. -/
def readPatternNewBody (subsongs : List SubsongCfg) (s : List Nat) :
    Except Err (Pattern × List Nat) := do
  let (subsong, s) ← readByte s
  let (channel, s) ← readByte s
  let (index, s) ← readShort s
  let (name, s) ← readStr s
  match subsongs.get? subsong with
  | none => .error .badValue
  | some cfg =>
    match cfg.effect_columns.get? channel with
    | none => .error .badValue
    | some ec => do
        let (data, idx, s) ← readNewRowsLoop ec cfg.pattern_length 0 [] s
        let data := data ++ List.replicate (cfg.pattern_length - idx) (emptyRow ec)
        .ok ({ channel := channel, index := index, subsong := subsong,
               data := data, name := name }, s)

/-- `stream.read(4) != MAGIC` signature check: read up to four bytes and
compare against the expected block signature. -/
def readMagic4 (magic : List Nat) (s : List Nat) : Except Err (List Nat) :=
  if s.take 4 = magic then .ok (s.drop 4) else .error .badMagic

/-- One iteration of the pattern pointer loop of `__read_patterns`, after
the seek: check the version-appropriate magic (`PATR` below version 157,
`PATN` from 157 on), read the block size (a size of zero means the block
continues on the stream itself, otherwise the body is decoded from a fresh
substream of that many bytes), decode the block body. -/
def readOnePattern (subsongs : List SubsongCfg) (version : Nat)
    (s : List Nat) : Except Err (Pattern × List Nat) :=
  if version < 157 then do
    let rest ← readMagic4 [0x50, 0x41, 0x54, 0x52] s   -- 'PATR'
    let (sz, rest) ← readInt rest
    if sz = 0 then readPatternOldBody subsongs version rest
    else
      match readPatternOldBody subsongs version (rest.take sz) with
      | .error e => .error e
      | .ok (pat, _) => .ok (pat, rest.drop sz)
  else do
    let rest ← readMagic4 [0x50, 0x41, 0x54, 0x4e] s   -- 'PATN'
    let (sz, rest) ← readInt rest
    if sz = 0 then readPatternNewBody subsongs rest
    else
      match readPatternNewBody subsongs (rest.take sz) with
      | .error e => .error e
      | .ok (pat, _) => .ok (pat, rest.drop sz)

theorem bind_eq_ok {ε α β : Type} {p : Except ε α} {f : α → Except ε β} {b : β} :
    (p >>= f) = .ok b ↔ ∃ a, p = .ok a ∧ f a = .ok b := by
  cases p <;> simp [Bind.bind, Except.bind]

theorem readOldRows_length (cfg : SubsongCfg) (channel : Nat) :
    ∀ n s rows s', readOldRows cfg channel n s = .ok (rows, s') →
      rows.length = n := by
  intro n
  induction n with
  | zero =>
      intro s rows s' h
      simp only [readOldRows, Except.ok.injEq, Prod.mk.injEq] at h
      simp [← h.1]
  | succ n ih =>
      intro s rows s' h
      simp only [readOldRows, bind_eq_ok] at h
      obtain ⟨⟨noteRaw, s1⟩, _, h⟩ := h
      split at h
      · simp only [bind_eq_ok] at h
        obtain ⟨⟨octave, s2⟩, _, h⟩ := h
        obtain ⟨⟨instrument, s3⟩, _, h⟩ := h
        obtain ⟨⟨volume, s4⟩, _, h⟩ := h
        split at h
        · cases h
        · simp only [bind_eq_ok] at h
          obtain ⟨⟨effects, s5⟩, _, h⟩ := h
          obtain ⟨⟨tl, s6⟩, htl, h⟩ := h
          simp only [Except.ok.injEq, Prod.mk.injEq] at h
          have := ih _ _ _ htl
          simp [← h.1, this]
      · cases h

theorem readNewRowsLoop_invariant (ec numRows : Nat) :
    ∀ idx acc s, ∀ acc' idx' s',
      readNewRowsLoop ec numRows idx acc s = .ok (acc', idx', s') →
      acc'.length + idx = acc.length + idx' ∧ idx ≤ idx' := by
  intro idx acc s
  induction idx, acc, s using readNewRowsLoop.induct ec numRows with
  | case1 idx acc hlt =>
      intro acc' idx' s' h
      rw [readNewRowsLoop.eq_def] at h
      simp [hlt] at h
  | case2 idx acc hlt s =>
      intro acc' idx' s' h
      rw [readNewRowsLoop.eq_def] at h
      simp [hlt] at h
      obtain ⟨h1, h2, _⟩ := h
      cases h1; cases h2
      exact ⟨rfl, Nat.le_refl idx⟩
  | case3 idx acc hlt char s hff hskip ih =>
      intro acc' idx' s' h
      rw [readNewRowsLoop.eq_def] at h
      simp only [hlt, dite_true, hff, if_false, dite_eq_ite, if_true] at h
      rw [if_pos hskip] at h
      have hrec := ih acc' idx' s' h
      simp only [List.length_append, List.length_replicate] at hrec
      constructor <;> omega
  | case4 idx acc hlt char s hff hskip e herr =>
      intro acc' idx' s' h
      rw [readNewRowsLoop.eq_def] at h
      simp [hlt, hff, hskip, herr] at h
  | case5 idx acc hlt char s hff hskip row s1 hrow ih =>
      intro acc' idx' s' h
      rw [readNewRowsLoop.eq_def] at h
      simp only [hlt, dite_true, hff, if_false, dite_eq_ite, if_true] at h
      rw [if_neg hskip, hrow] at h
      have hrec := ih acc' idx' s' h
      simp only [List.length_append, List.length_cons, List.length_nil] at hrec
      constructor <;> omega
  | case6 idx acc s hlt =>
      intro acc' idx' s' h
      rw [readNewRowsLoop.eq_def] at h
      simp [hlt] at h
      obtain ⟨h1, h2, _⟩ := h
      cases h1; cases h2
      exact ⟨rfl, Nat.le_refl idx⟩

theorem readPatternOldBody_rows {subsongs : List SubsongCfg} {version : Nat}
    {s : List Nat} {pat : Pattern} {rest : List Nat}
    (h : readPatternOldBody subsongs version s = .ok (pat, rest)) :
    ∃ cfg, subsongs.get? pat.subsong = some cfg ∧
      pat.data.length = cfg.pattern_length := by
  simp only [readPatternOldBody, bind_eq_ok] at h
  obtain ⟨⟨channel, s1⟩, _, h⟩ := h
  obtain ⟨⟨index, s2⟩, _, h⟩ := h
  obtain ⟨⟨subsong, s3⟩, _, h⟩ := h
  split at h
  · cases h
  · simp only [bind_eq_ok] at h
    obtain ⟨⟨_, s4⟩, _, h⟩ := h
    split at h
    · cases h
    next cfg hget =>
      simp only [bind_eq_ok] at h
      obtain ⟨⟨rows, s5⟩, hrows, h⟩ := h
      obtain ⟨⟨nm, s6⟩, _, h⟩ := h
      simp only [Except.ok.injEq, Prod.mk.injEq] at h
      obtain ⟨hpat, _⟩ := h
      refine ⟨cfg, ?_, ?_⟩
      · rw [← hpat]; exact hget
      · rw [← hpat]
        exact readOldRows_length cfg channel _ _ _ _ hrows

theorem readPatternNewBody_rows {subsongs : List SubsongCfg}
    {s : List Nat} {pat : Pattern} {rest : List Nat}
    (h : readPatternNewBody subsongs s = .ok (pat, rest)) :
    ∃ cfg, subsongs.get? pat.subsong = some cfg ∧
      cfg.pattern_length ≤ pat.data.length := by
  simp only [readPatternNewBody, bind_eq_ok] at h
  obtain ⟨⟨subsong, s1⟩, _, h⟩ := h
  obtain ⟨⟨channel, s2⟩, _, h⟩ := h
  obtain ⟨⟨index, s3⟩, _, h⟩ := h
  obtain ⟨⟨name, s4⟩, _, h⟩ := h
  split at h
  · cases h
  next cfg hget =>
    split at h
    · cases h
    next ec hec =>
      simp only [bind_eq_ok] at h
      obtain ⟨⟨data0, idx0, s5⟩, hloop, h⟩ := h
      simp only [Except.ok.injEq, Prod.mk.injEq] at h
      obtain ⟨hpat, _⟩ := h
      have hinv := readNewRowsLoop_invariant ec cfg.pattern_length 0 [] s4
        data0 idx0 s5 hloop
      simp only [List.length_nil, Nat.add_zero, Nat.zero_add] at hinv
      refine ⟨cfg, ?_, ?_⟩
      · rw [← hpat]; exact hget
      · rw [← hpat]
        simp only [List.length_append, List.length_replicate]
        omega

/-- **C2, counterexample.**  The sparse encoding can produce *more* rows
than the subsong's pattern length: with `pattern_length = 1`, the sparse
record byte `0x80` (a skip of `(0x80 & 0x7F) + 2 = 2` rows) decodes
successfully to a pattern of 2 rows. -/
theorem pattern_row_count_counterexample :
    readOnePattern [{ pattern_length := 1, effect_columns := [0] }] 157
        [0x50, 0x41, 0x54, 0x4e, 6, 0, 0, 0, 0, 0, 0, 0, 0, 0x80]
      = .ok ({ channel := 0, index := 0, subsong := 0,
               data := [emptyRow 0, emptyRow 0], name := [] }, []) ∧
    ([emptyRow 0, emptyRow 0] : List Row).length
      ≠ ({ pattern_length := 1, effect_columns := [0] } : SubsongCfg).pattern_length := by
  constructor
  · simp [readOnePattern, readPatternNewBody, readNewRowsLoop, readByte,
      readShort, readInt, readStr, readMagic4, bind, Except.bind, emptyRow]
    decide
  · decide

/-- **C2, amended.**  For every pattern decoded by the module codec, the
number of decoded rows is *at least* the pattern length of the subsong the
pattern belongs to, and under the fixed-width row encoding (version < 157)
it is exactly the pattern length.  (The sparse encoding can overshoot when
a skip run extends past the pattern end, cf.
`pattern_row_count_counterexample`.) -/
theorem pattern_row_count_amended
    (subsongs : List SubsongCfg) (version : Nat) (s : List Nat)
    (pat : Pattern) (rest : List Nat) (cfg : SubsongCfg)
    (hdec : readOnePattern subsongs version s = .ok (pat, rest))
    (hcfg : subsongs.get? pat.subsong = some cfg) :
    cfg.pattern_length ≤ pat.data.length ∧
    (version < 157 → pat.data.length = cfg.pattern_length) := by
  rw [readOnePattern] at hdec
  split at hdec
  -- version < 157: fixed-width `PATR` blocks
  next hv =>
    simp only [bind_eq_ok] at hdec
    obtain ⟨body, _, hdec⟩ := hdec
    obtain ⟨⟨sz, rest1⟩, _, hdec⟩ := hdec
    split at hdec
    · obtain ⟨cfg', hget', hlen'⟩ := readPatternOldBody_rows hdec
      rw [hcfg] at hget'
      cases hget'
      exact ⟨Nat.le_of_eq hlen'.symm, fun _ => hlen'⟩
    · split at hdec
      · cases hdec
      next pat0 rest0 hbody =>
        simp only [Except.ok.injEq, Prod.mk.injEq] at hdec
        obtain ⟨hpat, _⟩ := hdec
        rw [← hpat] at hcfg
        obtain ⟨cfg', hget', hlen'⟩ := readPatternOldBody_rows hbody
        rw [hcfg] at hget'
        cases hget'
        rw [← hpat]
        exact ⟨Nat.le_of_eq hlen'.symm, fun _ => hlen'⟩
  -- version ≥ 157: sparse `PATN` blocks
  next hv =>
    simp only [bind_eq_ok] at hdec
    obtain ⟨body, _, hdec⟩ := hdec
    obtain ⟨⟨sz, rest1⟩, _, hdec⟩ := hdec
    split at hdec
    · obtain ⟨cfg', hget', hlen'⟩ := readPatternNewBody_rows hdec
      rw [hcfg] at hget'
      cases hget'
      exact ⟨hlen', fun hlt => absurd hlt hv⟩
    · split at hdec
      · cases hdec
      next pat0 rest0 hbody =>
        simp only [Except.ok.injEq, Prod.mk.injEq] at hdec
        obtain ⟨hpat, _⟩ := hdec
        rw [← hpat] at hcfg
        obtain ⟨cfg', hget', hlen'⟩ := readPatternNewBody_rows hbody
        rw [hcfg] at hget'
        cases hget'
        rw [← hpat]
        exact ⟨hlen', fun hlt => absurd hlt hv⟩

/-- Witness for `pattern_row_count_amended`: a fixed-width (`PATR`,
version 100) pattern block with `pattern_length = 1` decodes to exactly one
row. -/
theorem pattern_row_count_amended_witness :
    ({ pattern_length := 1, effect_columns := [0] } : SubsongCfg).pattern_length
      ≤ ({ channel := 0, index := 0, subsong := 0,
           data := [{ note := 0, octave := 0, instrument := 0, volume := 0,
                      effects := [] }],
           name := [] } : Pattern).data.length ∧
    ((100 : Nat) < 157 →
      ({ channel := 0, index := 0, subsong := 0,
         data := [{ note := 0, octave := 0, instrument := 0, volume := 0,
                    effects := [] }],
         name := [] } : Pattern).data.length
        = ({ pattern_length := 1, effect_columns := [0] } : SubsongCfg).pattern_length) :=
  pattern_row_count_amended [{ pattern_length := 1, effect_columns := [0] }] 100
    [0x50, 0x41, 0x54, 0x52, 17, 0, 0, 0,
     0, 0, 0, 0, 0, 0, 0, 0,
     0, 0, 0, 0, 0, 0, 0, 0, 0]
    { channel := 0, index := 0, subsong := 0,
      data := [{ note := 0, octave := 0, instrument := 0, volume := 0,
                 effects := [] }],
      name := [] }
    [] { pattern_length := 1, effect_columns := [0] } (by rfl) (by rfl)

/-- **C6.** In the sparse row loop, a record byte `0x83` (high bit set, low
7 bits 3) contributes exactly `(0x83 &&& 0x7F) + 2 = 5` consecutive
fully-empty rows — note absent (code 0), instrument and volume at the
`0xFFFF` sentinel, every effect pair `(0xFFFF, 0xFFFF)` — and produces no
explicit row for the skip byte itself: the loop continues on the remaining
stream with only the five empty rows appended. -/
theorem sparse_skip_byte_0x83
    (ec numRows idx : Nat) (acc : List Row) (rest : List Nat)
    (h : idx < numRows) :
    readNewRowsLoop ec numRows idx acc (0x83 :: rest)
      = readNewRowsLoop ec numRows (idx + 5)
          (acc ++ List.replicate 5 (emptyRow ec)) rest ∧
    (0x83 &&& 0x7f) + 2 = 5 ∧
    emptyRow ec = { note := 0, octave := 0, instrument := 0xffff,
                    volume := 0xffff,
                    effects := List.replicate ec (0xffff, 0xffff) } := by
  refine ⟨?_, by decide, rfl⟩
  have e : (0x83 &&& 0x7f) + 2 = 5 := by decide
  conv_lhs => rw [readNewRowsLoop.eq_def]
  simp [h, e]

/-- Witness for `sparse_skip_byte_0x83` with six-row patterns and an empty
accumulator. -/
theorem sparse_skip_byte_0x83_witness :
    readNewRowsLoop 0 6 0 [] (0x83 :: [0xff])
      = readNewRowsLoop 0 6 (0 + 5) ([] ++ List.replicate 5 (emptyRow 0)) [0xff] ∧
    (0x83 &&& 0x7f) + 2 = 5 ∧
    emptyRow 0 = { note := 0, octave := 0, instrument := 0xffff,
                   volume := 0xffff,
                   effects := List.replicate 0 (0xffff, 0xffff) } :=
  sparse_skip_byte_0x83 0 6 0 [] [0xff] (by decide)

/-! ## C10: speed-pattern length validation (`module.py`, end of
`__read_info` and `__read_subsongs`, both guarded by `version >= 139`) -/

/-- `[read_byte(f) for _ in range(n)]`. -/
def readBytesN : Nat → List Nat → Except Err (List Nat × List Nat)
  | 0, s => .ok ([], s)
  | n + 1, s => do
      let (b, s) ← readByte s
      let (bs, s) ← readBytesN n s
      .ok (b :: bs, s)

/-- `stream.read(n)` with a possibly negative count: Python's
`BytesIO.read` treats a negative count as "read to end of stream".  (The
groove padding `info_blk.read(16 - len_groove)` can go negative because
`len_groove` is not validated.) -/
def pyRead (n : Int) (s : List Nat) : List Nat :=
  if n < 0 then [] else s.drop n.toNat

/-- The groove-list loop: each groove is a length byte, that many entries,
and padding up to 16 bytes on disk. -/
def readGrooves : Nat → List Nat → Except Err (List (List Nat) × List Nat)
  | 0, s => .ok ([], s)
  | n + 1, s => do
      let (lenG, s) ← readByte s
      let (g, s) ← readBytesN lenG s
      let s := pyRead (16 - (lenG : Int)) s
      let (gs, s) ← readGrooves n s
      .ok (g :: gs, s)

/-- The version ≥ 139 tail of `__read_info`: a speed-pattern length byte
(raising `ValueError` when outside 0–16; the `< 0` half of the check is
vacuous for a byte), that many entries plus padding to 16 bytes, then the
groove table.  Below version 139 nothing is read. -/
def readInfoSpeedSection (version : Nat) (s : List Nat) :
    Except Err ((List Nat × List (List Nat)) × List Nat) :=
  if 139 ≤ version then do
    let (lenSp, s) ← readByte s
    if lenSp > 16 then .error .badValue
    else do
      let (sp, s) ← readBytesN lenSp s
      let s := s.drop (16 - lenSp)
      let (lenGl, s) ← readByte s
      let (gs, s) ← readGrooves lenGl s
      .ok ((sp, gs), s)
  else .ok (([], []), s)

/-- The version ≥ 139 speed-pattern read in each extra subsong block
(`__read_subsongs`): the same length check, then the entries (no padding
or grooves here). -/
def readSubsongSpeedPattern (version : Nat) (s : List Nat) :
    Except Err (List Nat × List Nat) :=
  if 139 ≤ version then do
    let (lenSp, s) ← readByte s
    if lenSp > 16 then .error .badValue
    else readBytesN lenSp s
  else .ok ([], s)

theorem readBytesN_no_badValue : ∀ n s, readBytesN n s ≠ .error .badValue := by
  intro n
  induction n with
  | zero => intro s h; simp [readBytesN] at h
  | succ n ih =>
      intro s h
      simp only [readBytesN, bind_eq_ok, bind, Except.bind] at h
      cases s with
      | nil => simp [readByte] at h
      | cons b rest =>
          simp only [readByte] at h
          cases hr : readBytesN n rest with
          | error e =>
              rw [hr] at h
              cases h
              exact ih rest hr
          | ok v => rw [hr] at h; cases h

theorem readGrooves_no_badValue : ∀ n s, readGrooves n s ≠ .error .badValue := by
  intro n
  induction n with
  | zero => intro s h; simp [readGrooves] at h
  | succ n ih =>
      intro s h
      simp only [readGrooves, bind, Except.bind] at h
      cases s with
      | nil => simp [readByte] at h
      | cons b rest =>
          simp only [readByte] at h
          cases hb : readBytesN b rest with
          | error e =>
              rw [hb] at h
              cases h
              exact readBytesN_no_badValue b rest hb
          | ok v =>
              rw [hb] at h
              obtain ⟨g, s1⟩ := v
              simp only at h
              cases hg : readGrooves n (pyRead (16 - (b : Int)) s1) with
              | error e =>
                  rw [hg] at h
                  cases h
                  exact ih _ hg
              | ok w => rw [hg] at h; cases h

/-- **C10.** During module decode at version ≥ 139, a speed-pattern length
byte greater than 16 raises the invalid-field-value error (`ValueError`,
aborting the decode), and a length byte in 0–16 never produces that error
anywhere in the speed-pattern/groove section; the same holds for the
speed-pattern length read in each extra subsong block. -/
theorem speed_pattern_length_check (version : Nat) (hv : 139 ≤ version)
    (b : Nat) (rest : List Nat) :
    (b > 16 →
      readInfoSpeedSection version (b :: rest) = .error .badValue ∧
      readSubsongSpeedPattern version (b :: rest) = .error .badValue) ∧
    (b ≤ 16 →
      readInfoSpeedSection version (b :: rest) ≠ .error .badValue ∧
      readSubsongSpeedPattern version (b :: rest) ≠ .error .badValue) := by
  constructor
  · intro hb
    constructor
    · simp [readInfoSpeedSection, hv, readByte, bind, Except.bind, hb]
    · simp [readSubsongSpeedPattern, hv, readByte, bind, Except.bind, hb]
  · intro hb
    have hb' : ¬b > 16 := by omega
    constructor
    · intro h
      simp only [readInfoSpeedSection, if_pos hv, bind, Except.bind, readByte,
        hb', if_false] at h
      cases hsp : readBytesN b rest with
      | error e =>
          rw [hsp] at h
          cases h
          exact readBytesN_no_badValue b rest hsp
      | ok v =>
          rw [hsp] at h
          obtain ⟨sp, s1⟩ := v
          simp only at h
          cases hs2 : s1.drop (16 - b) with
          | nil => simp [hs2, readByte] at h
          | cons c s3 =>
              rw [hs2] at h
              simp only [readByte] at h
              cases hg : readGrooves c s3 with
              | error e =>
                  rw [hg] at h
                  cases h
                  exact readGrooves_no_badValue c s3 hg
              | ok w => rw [hg] at h; obtain ⟨gs, s4⟩ := w; simp at h
    · intro h
      simp only [readSubsongSpeedPattern, if_pos hv, bind, Except.bind, readByte,
        hb', if_false] at h
      exact readBytesN_no_badValue b rest h

/-- Witness for `speed_pattern_length_check`: at version 139, the length
byte 17 aborts with the invalid-field-value error in both the INFO section
and the extra-subsong block. -/
theorem speed_pattern_length_check_witness :
    readInfoSpeedSection 139 (17 :: []) = .error .badValue ∧
    readSubsongSpeedPattern 139 (17 :: []) = .error .badValue :=
  (speed_pattern_length_check 139 (by decide) 17 []).1 (by decide)

/-! ## C4: compatibility-flag phases (`module.py`,
`FurnaceModule.__read_compat_flags`)

The enum-valued flags (`LinearPitch`, `LoopModality`, `DelayBehavior`,
`JumpTreatment`) are stored as their `Nat` member codes, with the member
set's upper bound enforced at read time (the Python `Enum` constructor
raises `ValueError` on any other byte; all four enums have the members
0, 1, 2).  Defaults are the field defaults of
`data_types.ModuleCompatFlags`. -/

structure ModuleCompatFlags where
  limit_slides : Bool := false
  linear_pitch : Nat := 2                        -- LinearPitch.FULL_LINEAR
  loop_modality : Nat := 2                       -- LoopModality.DO_NOTHING
  proper_noise_layout : Bool := true
  wave_duty_is_volume : Bool := false
  reset_macro_on_porta : Bool := false
  legacy_volume_slides : Bool := false
  compatible_arpeggio : Bool := false
  note_off_resets_slides : Bool := true
  target_resets_slides : Bool := true
  arpeggio_inhibits_portamento : Bool := false
  wack_algorithm_macro : Bool := false
  broken_shortcut_slides : Bool := false
  ignore_duplicates_slides : Bool := false
  stop_portamento_on_note_off : Bool := false
  continuous_vibrato : Bool := false
  broken_dac_mode : Bool := false
  one_tick_cut : Bool := false
  instrument_change_allowed_in_porta : Bool := true
  reset_note_base_on_arpeggio_stop : Bool := true
  broken_speed_selection : Bool := false
  no_slides_on_first_tick : Bool := false
  next_row_reset_arp_pos : Bool := false
  ignore_jump_at_end : Bool := false
  buggy_portamento_after_slide : Bool := false
  gb_ins_affects_env : Bool := true
  shared_extch_state : Bool := true
  ignore_outside_dac_mode_change : Bool := false
  e1e2_takes_priority : Bool := false
  new_sega_pcm : Bool := true
  weird_fnum_pitch_slides : Bool := false
  sn_duty_resets_phase : Bool := false
  linear_pitch_macro : Bool := true
  pitch_slide_speed_in_linear : Nat := 4
  old_octave_boundary : Bool := false
  disable_opn2_dac_volume_control : Bool := false
  new_volume_scaling : Bool := true
  volume_macro_lingers : Bool := true
  broken_out_vol : Bool := false
  e1e2_stop_on_same_note : Bool := false
  broken_porta_after_arp : Bool := false
  sn_no_low_periods : Bool := false
  cut_delay_effect_policy : Nat := 2             -- DelayBehavior.LAX
  jump_treatment : Nat := 0                      -- JumpTreatment.ALL_JUMPS
  auto_sys_name : Bool := true
  disable_sample_macro : Bool := false
  broken_out_vol_2 : Bool := false
  old_arp_strategy : Bool := false
  auto_patchbay : Bool := true
  broken_porta_during_legato : Bool := false
  broken_fm_off : Bool := false
  pre_note_no_effect : Bool := false
  old_dpcm : Bool := false
  reset_arp_phase_on_new_note : Bool := false
  ceil_volume_scaling : Bool := false
  old_always_set_volume : Bool := false
  old_sample_offset : Bool := false
  deriving DecidableEq, Repr

/-- One stored compat flag: either a plain byte (`bool(read_byte(..))` or a
raw integer field) or an enum byte with an inclusive upper bound on the
member code, raising `ValueError` above it.  Every flag occupies exactly
one on-disk byte and decrements the phase's `compat_flags_to_skip` counter
by one. -/
inductive CFStep where
  | raw (upd : ModuleCompatFlags → Nat → ModuleCompatFlags)
  | enum (bound : Nat) (upd : ModuleCompatFlags → Nat → ModuleCompatFlags)

def runCFStep (st : CFStep) (cf : ModuleCompatFlags) (s : List Nat) :
    Except Err (ModuleCompatFlags × List Nat) :=
  match s with
  | [] => .error .truncated
  | b :: rest =>
    match st with
    | .raw upd => .ok (upd cf b, rest)
    | .enum bound upd =>
        if b ≤ bound then .ok (upd cf b, rest) else .error .badValue

def runCFSteps : List CFStep → ModuleCompatFlags → List Nat →
    Except Err (ModuleCompatFlags × List Nat)
  | [], cf, s => .ok (cf, s)
  | st :: sts, cf, s => do
      let (cf, s) ← runCFStep st cf s
      runCFSteps sts cf s

/-- Phase 1 (version ≥ 37): the flags present on disk, in stream order,
each group gated by its introduction version exactly as in the source
(the groups deduct 3, 2, 5, 2, 1, 1, 2, 1, 1, 1, 1 from the 20-byte
budget). -/
def phase1Steps (version : Nat) : List CFStep :=
  [.raw fun cf b => { cf with limit_slides := b != 0 },
   .enum 2 fun cf b => { cf with linear_pitch := b },
   .enum 2 fun cf b => { cf with loop_modality := b }]
  ++ (if 43 ≤ version then
    [.raw fun cf b => { cf with proper_noise_layout := b != 0 },
     .raw fun cf b => { cf with wave_duty_is_volume := b != 0 }] else [])
  ++ (if 45 ≤ version then
    [.raw fun cf b => { cf with reset_macro_on_porta := b != 0 },
     .raw fun cf b => { cf with legacy_volume_slides := b != 0 },
     .raw fun cf b => { cf with compatible_arpeggio := b != 0 },
     .raw fun cf b => { cf with note_off_resets_slides := b != 0 },
     .raw fun cf b => { cf with target_resets_slides := b != 0 }] else [])
  ++ (if 47 ≤ version then
    [.raw fun cf b => { cf with arpeggio_inhibits_portamento := b != 0 },
     .raw fun cf b => { cf with wack_algorithm_macro := b != 0 }] else [])
  ++ (if 49 ≤ version then
    [.raw fun cf b => { cf with broken_shortcut_slides := b != 0 }] else [])
  ++ (if 50 ≤ version then
    [.raw fun cf b => { cf with ignore_duplicates_slides := b != 0 }] else [])
  ++ (if 62 ≤ version then
    [.raw fun cf b => { cf with stop_portamento_on_note_off := b != 0 },
     .raw fun cf b => { cf with continuous_vibrato := b != 0 }] else [])
  ++ (if 64 ≤ version then
    [.raw fun cf b => { cf with broken_dac_mode := b != 0 }] else [])
  ++ (if 65 ≤ version then
    [.raw fun cf b => { cf with one_tick_cut := b != 0 }] else [])
  ++ (if 66 ≤ version then
    [.raw fun cf b => { cf with instrument_change_allowed_in_porta := b != 0 }]
    else [])
  ++ (if 69 ≤ version then
    [.raw fun cf b => { cf with reset_note_base_on_arpeggio_stop := b != 0 }]
    else [])

/-- Phase 2: nothing is present on disk below version 70; from 70 on, the
groups deduct 1, 3, 2, 1, 2, 1, 1, 1, 1, 1, 1, 1, 3, 1, 1, 1, 1, 1, 1, 1,
1, 1 from the 28-byte budget. -/
def phase2Steps (version : Nat) : List CFStep :=
  if 70 ≤ version then
    [.raw fun cf b => { cf with broken_speed_selection := b != 0 }]
    ++ (if 71 ≤ version then
      [.raw fun cf b => { cf with no_slides_on_first_tick := b != 0 },
       .raw fun cf b => { cf with next_row_reset_arp_pos := b != 0 },
       .raw fun cf b => { cf with ignore_jump_at_end := b != 0 }] else [])
    ++ (if 72 ≤ version then
      [.raw fun cf b => { cf with buggy_portamento_after_slide := b != 0 },
       .raw fun cf b => { cf with gb_ins_affects_env := b != 0 }] else [])
    ++ (if 78 ≤ version then
      [.raw fun cf b => { cf with shared_extch_state := b != 0 }] else [])
    ++ (if 83 ≤ version then
      [.raw fun cf b => { cf with ignore_outside_dac_mode_change := b != 0 },
       .raw fun cf b => { cf with e1e2_takes_priority := b != 0 }] else [])
    ++ (if 84 ≤ version then
      [.raw fun cf b => { cf with new_sega_pcm := b != 0 }] else [])
    ++ (if 85 ≤ version then
      [.raw fun cf b => { cf with weird_fnum_pitch_slides := b != 0 }] else [])
    ++ (if 86 ≤ version then
      [.raw fun cf b => { cf with sn_duty_resets_phase := b != 0 }] else [])
    ++ (if 90 ≤ version then
      [.raw fun cf b => { cf with linear_pitch_macro := b != 0 }] else [])
    ++ (if 94 ≤ version then
      [.raw fun cf b => { cf with pitch_slide_speed_in_linear := b }] else [])
    ++ (if 97 ≤ version then
      [.raw fun cf b => { cf with old_octave_boundary := b != 0 }] else [])
    ++ (if 98 ≤ version then
      [.raw fun cf b => { cf with disable_opn2_dac_volume_control := b != 0 }]
      else [])
    ++ (if 99 ≤ version then
      [.raw fun cf b => { cf with new_volume_scaling := b != 0 },
       .raw fun cf b => { cf with volume_macro_lingers := b != 0 },
       .raw fun cf b => { cf with broken_out_vol := b != 0 }] else [])
    ++ (if 100 ≤ version then
      [.raw fun cf b => { cf with e1e2_stop_on_same_note := b != 0 }] else [])
    ++ (if 101 ≤ version then
      [.raw fun cf b => { cf with broken_porta_after_arp := b != 0 }] else [])
    ++ (if 108 ≤ version then
      [.raw fun cf b => { cf with sn_no_low_periods := b != 0 }] else [])
    ++ (if 110 ≤ version then
      [.enum 2 fun cf b => { cf with cut_delay_effect_policy := b }] else [])
    ++ (if 113 ≤ version then
      [.enum 2 fun cf b => { cf with jump_treatment := b }] else [])
    ++ (if 115 ≤ version then
      [.raw fun cf b => { cf with auto_sys_name := b != 0 }] else [])
    ++ (if 117 ≤ version then
      [.raw fun cf b => { cf with disable_sample_macro := b != 0 }] else [])
    ++ (if 121 ≤ version then
      [.raw fun cf b => { cf with broken_out_vol_2 := b != 0 }] else [])
    ++ (if 130 ≤ version then
      [.raw fun cf b => { cf with old_arp_strategy := b != 0 }] else [])
  else []

/-- Phase 3: seven individually gated single-byte flags against the 8-byte
budget. -/
def phase3Steps (version : Nat) : List CFStep :=
  (if 138 ≤ version then
    [.raw fun cf b => { cf with broken_porta_during_legato := b != 0 }] else [])
  ++ (if 155 ≤ version then
    [.raw fun cf b => { cf with broken_fm_off := b != 0 }] else [])
  ++ (if 168 ≤ version then
    [.raw fun cf b => { cf with pre_note_no_effect := b != 0 }] else [])
  ++ (if 183 ≤ version then
    [.raw fun cf b => { cf with old_dpcm := b != 0 }] else [])
  ++ (if 184 ≤ version then
    [.raw fun cf b => { cf with reset_arp_phase_on_new_note := b != 0 }] else [])
  ++ (if 188 ≤ version then
    [.raw fun cf b => { cf with ceil_volume_scaling := b != 0 }] else [])
  ++ (if 191 ≤ version then
    [.raw fun cf b => { cf with old_always_set_volume := b != 0 }] else [])

/-- `__read_compat_flags(stream, 1)`: below version 37 no flag is stored on
disk (the three oldest flags take fixed compatibility values) and the whole
20-byte region is skipped; otherwise the present flags are read and the
remaining `compat_flags_to_skip = 20 - (number of flags read)` reserved
filler bytes are skipped (`stream.read`, which never fails). -/
def readCompatFlags1 (version : Nat) (cf : ModuleCompatFlags) (s : List Nat) :
    Except Err (ModuleCompatFlags × List Nat) :=
  if version < 37 then
    let cf := { cf with limit_slides := true, linear_pitch := 1,
                        loop_modality := 0 }
    .ok (cf, s.drop 20)
  else do
    let (cf, s) ← runCFSteps (phase1Steps version) cf s
    .ok (cf, s.drop (20 - (phase1Steps version).length))

/-- `__read_compat_flags(stream, 2)`: 28-byte budget. -/
def readCompatFlags2 (version : Nat) (cf : ModuleCompatFlags) (s : List Nat) :
    Except Err (ModuleCompatFlags × List Nat) := do
  let (cf, s) ← runCFSteps (phase2Steps version) cf s
  .ok (cf, s.drop (28 - (phase2Steps version).length))

/-- `__read_compat_flags(stream, 3)`: 8-byte budget. -/
def readCompatFlags3 (version : Nat) (cf : ModuleCompatFlags) (s : List Nat) :
    Except Err (ModuleCompatFlags × List Nat) := do
  let (cf, s) ← runCFSteps (phase3Steps version) cf s
  .ok (cf, s.drop (8 - (phase3Steps version).length))

theorem runCFSteps_consumes :
    ∀ (ps : List CFStep) (cf : ModuleCompatFlags) (s : List Nat) cf' s',
      runCFSteps ps cf s = .ok (cf', s') →
      s' = s.drop ps.length ∧ ps.length ≤ s.length := by
  intro ps
  induction ps with
  | nil =>
      intro cf s cf' s' h
      simp only [runCFSteps, Except.ok.injEq, Prod.mk.injEq] at h
      simp [← h.2]
  | cons st sts ih =>
      intro cf s cf' s' h
      simp only [runCFSteps, bind_eq_ok] at h
      obtain ⟨⟨cf1, s1⟩, hstep, h⟩ := h
      cases s with
      | nil => simp [runCFStep] at hstep
      | cons b rest =>
          have hs1 : s1 = rest := by
            cases st with
            | raw upd =>
                simp only [runCFStep, Except.ok.injEq, Prod.mk.injEq] at hstep
                exact hstep.2.symm
            | enum bound upd =>
                simp only [runCFStep] at hstep
                split at hstep
                · simp only [Except.ok.injEq, Prod.mk.injEq] at hstep
                  exact hstep.2.symm
                · cases hstep
          rw [hs1] at h
          obtain ⟨h1, h2⟩ := ih cf1 rest cf' s' h
          refine ⟨by simpa using h1, by simpa using Nat.succ_le_succ h2⟩

theorem ite_length_le_aux (c : Prop) [Decidable c] (l : List CFStep) :
    (if c then l else []).length ≤ l.length := by
  split <;> simp

theorem phase1Steps_length_le (version : Nat) :
    (phase1Steps version).length ≤ 20 := by
  have h1 := ite_length_le_aux (43 ≤ version)
    [.raw fun cf b => { cf with proper_noise_layout := b != 0 },
     .raw fun cf b => { cf with wave_duty_is_volume := b != 0 }]
  have h2 := ite_length_le_aux (45 ≤ version)
    [.raw fun cf b => { cf with reset_macro_on_porta := b != 0 },
     .raw fun cf b => { cf with legacy_volume_slides := b != 0 },
     .raw fun cf b => { cf with compatible_arpeggio := b != 0 },
     .raw fun cf b => { cf with note_off_resets_slides := b != 0 },
     .raw fun cf b => { cf with target_resets_slides := b != 0 }]
  have h3 := ite_length_le_aux (47 ≤ version)
    [.raw fun cf b => { cf with arpeggio_inhibits_portamento := b != 0 },
     .raw fun cf b => { cf with wack_algorithm_macro := b != 0 }]
  have h4 := ite_length_le_aux (49 ≤ version)
    [.raw fun cf b => { cf with broken_shortcut_slides := b != 0 }]
  have h5 := ite_length_le_aux (50 ≤ version)
    [.raw fun cf b => { cf with ignore_duplicates_slides := b != 0 }]
  have h6 := ite_length_le_aux (62 ≤ version)
    [.raw fun cf b => { cf with stop_portamento_on_note_off := b != 0 },
     .raw fun cf b => { cf with continuous_vibrato := b != 0 }]
  have h7 := ite_length_le_aux (64 ≤ version)
    [.raw fun cf b => { cf with broken_dac_mode := b != 0 }]
  have h8 := ite_length_le_aux (65 ≤ version)
    [.raw fun cf b => { cf with one_tick_cut := b != 0 }]
  have h9 := ite_length_le_aux (66 ≤ version)
    [.raw fun cf b => { cf with instrument_change_allowed_in_porta := b != 0 }]
  have h10 := ite_length_le_aux (69 ≤ version)
    [.raw fun cf b => { cf with reset_note_base_on_arpeggio_stop := b != 0 }]
  simp only [phase1Steps, List.length_append, List.length_cons, List.length_nil]
  simp only [List.length_cons, List.length_nil] at h1 h2 h3 h4 h5 h6 h7 h8 h9 h10
  omega

theorem ite_nat_le (c : Prop) [Decidable c] (a : Nat) :
    (if c then a else 0) ≤ a := by
  split <;> omega

theorem phase2Steps_length_le (version : Nat) :
    (phase2Steps version).length ≤ 28 := by
  simp [phase2Steps, apply_ite List.length]
  split
  · have g1 := ite_nat_le (71 ≤ version) 3
    have g2 := ite_nat_le (72 ≤ version) 2
    have g3 := ite_nat_le (78 ≤ version) 1
    have g4 := ite_nat_le (83 ≤ version) 2
    have g5 := ite_nat_le (84 ≤ version) 1
    have g6 := ite_nat_le (85 ≤ version) 1
    have g7 := ite_nat_le (86 ≤ version) 1
    have g8 := ite_nat_le (90 ≤ version) 1
    have g9 := ite_nat_le (94 ≤ version) 1
    have g10 := ite_nat_le (97 ≤ version) 1
    have g11 := ite_nat_le (98 ≤ version) 1
    have g12 := ite_nat_le (99 ≤ version) 3
    have g13 := ite_nat_le (100 ≤ version) 1
    have g14 := ite_nat_le (101 ≤ version) 1
    have g15 := ite_nat_le (108 ≤ version) 1
    have g16 := ite_nat_le (110 ≤ version) 1
    have g17 := ite_nat_le (113 ≤ version) 1
    have g18 := ite_nat_le (115 ≤ version) 1
    have g19 := ite_nat_le (117 ≤ version) 1
    have g20 := ite_nat_le (121 ≤ version) 1
    have g21 := ite_nat_le (130 ≤ version) 1
    omega
  · omega

theorem phase3Steps_length_le (version : Nat) :
    (phase3Steps version).length ≤ 8 := by
  simp [phase3Steps, apply_ite List.length]
  have g1 := ite_nat_le (138 ≤ version) 1
  have g2 := ite_nat_le (155 ≤ version) 1
  have g3 := ite_nat_le (168 ≤ version) 1
  have g4 := ite_nat_le (183 ≤ version) 1
  have g5 := ite_nat_le (184 ≤ version) 1
  have g6 := ite_nat_le (188 ≤ version) 1
  have g7 := ite_nat_le (191 ≤ version) 1
  omega

/-- **C4.** Whenever a compatibility-flag phase is executed during module
decode, it consumes exactly its fixed byte budget from the stream
regardless of module version — phase 1: 20 bytes, phase 2: 28 bytes,
phase 3: 8 bytes (version-present flag bytes plus the reserved filler
bytes skipped at the end of the phase) — provided the stream holds at
least the budget (the trailing `stream.read` cannot consume bytes past
end-of-stream) and the phase succeeds. -/
theorem compat_flag_phase_budgets (version : Nat) (cf : ModuleCompatFlags) :
    (∀ s cf' s', 20 ≤ s.length → readCompatFlags1 version cf s = .ok (cf', s') →
        s.length = s'.length + 20) ∧
    (∀ s cf' s', 28 ≤ s.length → readCompatFlags2 version cf s = .ok (cf', s') →
        s.length = s'.length + 28) ∧
    (∀ s cf' s', 8 ≤ s.length → readCompatFlags3 version cf s = .ok (cf', s') →
        s.length = s'.length + 8) := by
  refine ⟨?_, ?_, ?_⟩
  · intro s cf' s' hs h
    rw [readCompatFlags1] at h
    split at h
    · simp only [Except.ok.injEq, Prod.mk.injEq] at h
      have h2 := h.2
      have : s'.length = (s.drop 20).length := by rw [← h2]
      simp only [List.length_drop] at this
      omega
    · simp only [bind_eq_ok] at h
      obtain ⟨⟨cf1, s1⟩, hrun, h⟩ := h
      obtain ⟨hdrop, hle⟩ := runCFSteps_consumes _ _ _ _ _ hrun
      simp only [Except.ok.injEq, Prod.mk.injEq] at h
      have hk := phase1Steps_length_le version
      have h2 := h.2
      have hlen : s'.length = (s1.drop (20 - (phase1Steps version).length)).length := by
        rw [← h2]
      have hlen1 : s1.length = (s.drop (phase1Steps version).length).length := by
        rw [hdrop]
      simp only [List.length_drop] at hlen hlen1
      omega
  · intro s cf' s' hs h
    rw [readCompatFlags2] at h
    simp only [bind_eq_ok] at h
    obtain ⟨⟨cf1, s1⟩, hrun, h⟩ := h
    obtain ⟨hdrop, hle⟩ := runCFSteps_consumes _ _ _ _ _ hrun
    simp only [Except.ok.injEq, Prod.mk.injEq] at h
    have hk := phase2Steps_length_le version
    have h2 := h.2
    have hlen : s'.length = (s1.drop (28 - (phase2Steps version).length)).length := by
      rw [← h2]
    have hlen1 : s1.length = (s.drop (phase2Steps version).length).length := by
      rw [hdrop]
    simp only [List.length_drop] at hlen hlen1
    omega
  · intro s cf' s' hs h
    rw [readCompatFlags3] at h
    simp only [bind_eq_ok] at h
    obtain ⟨⟨cf1, s1⟩, hrun, h⟩ := h
    obtain ⟨hdrop, hle⟩ := runCFSteps_consumes _ _ _ _ _ hrun
    simp only [Except.ok.injEq, Prod.mk.injEq] at h
    have hk := phase3Steps_length_le version
    have h2 := h.2
    have hlen : s'.length = (s1.drop (8 - (phase3Steps version).length)).length := by
      rw [← h2]
    have hlen1 : s1.length = (s.drop (phase3Steps version).length).length := by
      rw [hdrop]
    simp only [List.length_drop] at hlen hlen1
    omega

/-- Witness for `compat_flag_phase_budgets` (declared after the theorem
below). -/
theorem compat_flag_phase_budgets_witness :
    (List.replicate 20 0).length = ([] : List Nat).length + 20 :=
  (compat_flag_phase_budgets 200 {}).1 (List.replicate 20 0)
    { limit_slides := false, linear_pitch := 0, loop_modality := 0,
      proper_noise_layout := false, wave_duty_is_volume := false,
      reset_macro_on_porta := false, legacy_volume_slides := false,
      compatible_arpeggio := false, note_off_resets_slides := false,
      target_resets_slides := false, arpeggio_inhibits_portamento := false,
      wack_algorithm_macro := false, broken_shortcut_slides := false,
      ignore_duplicates_slides := false, stop_portamento_on_note_off := false,
      continuous_vibrato := false, broken_dac_mode := false,
      one_tick_cut := false, instrument_change_allowed_in_porta := false,
      reset_note_base_on_arpeggio_stop := false }
    [] (by simp) (by rfl)

/-! ## C1: the featural (format 1 / generation 2) instrument codec
(`instrument.py`, `__load_format_1` and the per-feature block loaders)

The decode side below is translated from `instrument.py`; the encode side is
modelled from the spec (the repository has no instrument encoder: `serialize`
is commented out in `data_types.py`), as the byte-exact inverse of the
documented featural layout. -/

/-- All elements of a byte stream are genuine byte values.  Streams handed to
the decoder by `load_from_stream` come from `bytes` objects, so every element
is below 256. -/
def Bounded (s : List Nat) : Prop := ∀ b ∈ s, b < 256

theorem bounded_nil : Bounded [] := by intro b hb; cases hb

theorem bounded_cons {b : Nat} {s : List Nat} (h : Bounded (b :: s)) :
    b < 256 ∧ Bounded s :=
  ⟨h b (List.mem_cons_self b s), fun x hx => h x (List.mem_cons_of_mem b hx)⟩

theorem bounded_take {s : List Nat} (h : Bounded s) (n : Nat) :
    Bounded (s.take n) := fun b hb => h b (List.mem_of_mem_take hb)

theorem bounded_drop {s : List Nat} (h : Bounded s) (n : Nat) :
    Bounded (s.drop n) := fun b hb => h b (List.mem_of_mem_drop hb)

theorem bounded_append {s t : List Nat} (hs : Bounded s) (ht : Bounded t) :
    Bounded (s ++ t) := by
  intro b hb
  rcases List.mem_append.mp hb with h | h
  · exact hs b h
  · exact ht b h

theorem readByte_ok {s s' : List Nat} {b : Nat} (h : readByte s = .ok (b, s')) :
    s = b :: s' := by
  cases s with
  | nil => simp [readByte] at h
  | cons a t => simp [readByte] at h; simp [h.1, h.2]

theorem readShort_ok {s s' : List Nat} {v : Nat} (h : readShort s = .ok (v, s')) :
    ∃ b0 b1, s = b0 :: b1 :: s' ∧ v = b0 + 256 * b1 := by
  match s with
  | [] => simp [readShort] at h
  | [b0] => simp [readShort] at h
  | b0 :: b1 :: t =>
      simp [readShort] at h
      exact ⟨b0, b1, by simp [h.2], h.1.symm⟩

theorem readInt_ok {s s' : List Nat} {v : Nat} (h : readInt s = .ok (v, s')) :
    ∃ b0 b1 b2 b3, s = b0 :: b1 :: b2 :: b3 :: s'
      ∧ v = b0 + 256 * b1 + 65536 * b2 + 16777216 * b3 := by
  match s with
  | [] => simp [readInt] at h
  | [b0] => simp [readInt] at h
  | [b0, b1] => simp [readInt] at h
  | [b0, b1, b2] => simp [readInt] at h
  | b0 :: b1 :: b2 :: b3 :: t =>
      simp [readInt] at h
      exact ⟨b0, b1, b2, b3, by simp [h.2], h.1.symm⟩

theorem readByte_bd {s s' : List Nat} {b : Nat} (hb : Bounded s)
    (h : readByte s = .ok (b, s')) : b < 256 ∧ Bounded s' := by
  rw [readByte_ok h] at hb; exact bounded_cons hb

theorem readShort_bd {s s' : List Nat} {v : Nat} (hb : Bounded s)
    (h : readShort s = .ok (v, s')) : v < 65536 ∧ Bounded s' := by
  obtain ⟨b0, b1, hs, hv⟩ := readShort_ok h
  rw [hs] at hb
  obtain ⟨h0, hb⟩ := bounded_cons hb
  obtain ⟨h1, hb⟩ := bounded_cons hb
  exact ⟨by omega, hb⟩

theorem readInt_bd {s s' : List Nat} {v : Nat} (hb : Bounded s)
    (h : readInt s = .ok (v, s')) : v < 4294967296 ∧ Bounded s' := by
  obtain ⟨b0, b1, b2, b3, hs, hv⟩ := readInt_ok h
  rw [hs] at hb
  obtain ⟨h0, hb⟩ := bounded_cons hb
  obtain ⟨h1, hb⟩ := bounded_cons hb
  obtain ⟨h2, hb⟩ := bounded_cons hb
  obtain ⟨h3, hb⟩ := bounded_cons hb
  exact ⟨by omega, hb⟩

theorem readShort_length {s s' : List Nat} {v : Nat}
    (h : readShort s = .ok (v, s')) : s.length = s'.length + 2 := by
  obtain ⟨b0, b1, hs, _⟩ := readShort_ok h
  simp [hs]

theorem readStr_ok : ∀ {s s' nm : List Nat}, readStr s = .ok (nm, s') →
    s = nm ++ 0 :: s' ∧ 0 ∉ nm := by
  intro s
  induction s with
  | nil => intro s' nm h; simp [readStr] at h
  | cons c t ih =>
      intro s' nm h
      by_cases hc : c = 0
      · subst hc
        simp [readStr] at h
        simp [h.1, h.2]
      · rw [readStr, if_neg hc] at h
        match ht : readStr t with
        | .error e => rw [ht] at h; simp at h
        | .ok (buf, r) =>
            rw [ht] at h
            simp at h
            obtain ⟨hbuf, hr⟩ := ih ht
            constructor
            · simp [← h.1, ← h.2, hbuf]
            · intro hmem
              rw [← h.1] at hmem
              rcases List.mem_cons.mp hmem with h0 | h0
              · exact hc h0.symm
              · exact hr h0

/-! ### Byte-level integer value codec (`int.from_bytes` / `int.to_bytes`)

`__common_ma_block` reads each macro word as
`int.from_bytes(stream.read(word_size.num_bytes), 'little', signed=...)`.
A short `stream.read` at block end cannot yield a successful block decode:
the enclosing macro loop always performs a further mandatory `read_byte`,
which then hits the exhausted stream and raises `struct.error`.  The strict
model below (which fails already at the short value read, with the same
`struct.error`/`Err.truncated` kind) therefore defines the same
successful-decode behaviour. -/

def natFromBytesLE (bs : List Nat) : Nat := bs.foldr (fun b acc => b + 256 * acc) 0

def natToBytesLE : Nat → Nat → List Nat
  | 0, _ => []
  | n + 1, v => v % 256 :: natToBytesLE n (v / 256)

/-- `int.from_bytes(bs, 'little', signed=sg)`: unsigned little-endian value,
reduced by `256^len` when signed and the top bit is set. -/
def intFromBytesLE (signed : Bool) (bs : List Nat) : Int :=
  let u := natFromBytesLE bs
  if signed && decide (2 * u ≥ 256 ^ bs.length) then (u : Int) - 256 ^ bs.length else u

/-- Modelled from the spec: `int.to_bytes(n, 'little', signed=...)` — the
little-endian bytes of the value's two's-complement residue. -/
def intToBytesLE (n : Nat) (v : Int) : List Nat := natToBytesLE n (v % (256 ^ n : Int)).toNat

theorem natToBytesLE_length (n x : Nat) : (natToBytesLE n x).length = n := by
  induction n generalizing x with
  | zero => rfl
  | succ n ih => simp [natToBytesLE, ih]

theorem natToBytesLE_bounded (n x : Nat) : Bounded (natToBytesLE n x) := by
  induction n generalizing x with
  | zero => exact bounded_nil
  | succ n ih =>
      intro b hb
      rcases List.mem_cons.mp hb with h | h
      · omega
      · exact ih (x / 256) b h

theorem intToBytesLE_length (n : Nat) (v : Int) : (intToBytesLE n v).length = n :=
  natToBytesLE_length n _

theorem intToBytesLE_bounded (n : Nat) (v : Int) : Bounded (intToBytesLE n v) :=
  natToBytesLE_bounded n _

theorem natFromTo (n x : Nat) : natFromBytesLE (natToBytesLE n x) = x % 256 ^ n := by
  induction n generalizing x with
  | zero => simp [natToBytesLE, natFromBytesLE, Nat.mod_one]
  | succ n ih =>
      simp only [natToBytesLE, natFromBytesLE, List.foldr] at *
      rw [ih, pow_succ, mul_comm (256 ^ n) 256, Nat.mod_mul]

theorem intFromTo_u8 (v : Int) (h1 : 0 ≤ v) (h2 : v < 256) :
    intFromBytesLE false (intToBytesLE 1 v) = v := by
  unfold intFromBytesLE intToBytesLE
  rw [natToBytesLE_length, natFromTo]
  rw [show ((256:Int) ^ 1) = 256 by norm_num, show ((256:Nat) ^ 1) = 256 by norm_num]
  generalize hx : ((v % 256).toNat : Nat) = x
  have hcast : ((x : Int)) = v % 256 := by
    rw [← hx]; exact Int.toNat_of_nonneg (Int.emod_nonneg v (by norm_num))
  clear hx
  simp only [Bool.false_and, Bool.false_eq_true, if_false]
  omega

theorem intFromTo_i8 (v : Int) (h1 : -128 ≤ v) (h2 : v < 128) :
    intFromBytesLE true (intToBytesLE 1 v) = v := by
  unfold intFromBytesLE intToBytesLE
  rw [natToBytesLE_length, natFromTo]
  rw [show ((256:Int) ^ 1) = 256 by norm_num, show ((256:Nat) ^ 1) = 256 by norm_num]
  generalize hx : ((v % 256).toNat : Nat) = x
  have hcast : ((x : Int)) = v % 256 := by
    rw [← hx]; exact Int.toNat_of_nonneg (Int.emod_nonneg v (by norm_num))
  clear hx
  simp only [Bool.true_and, decide_eq_true_eq]
  split <;> omega

theorem intFromTo_i16 (v : Int) (h1 : -32768 ≤ v) (h2 : v < 32768) :
    intFromBytesLE true (intToBytesLE 2 v) = v := by
  unfold intFromBytesLE intToBytesLE
  rw [natToBytesLE_length, natFromTo]
  rw [show ((256:Int) ^ 2) = 65536 by norm_num, show ((256:Nat) ^ 2) = 65536 by norm_num]
  generalize hx : ((v % 65536).toNat : Nat) = x
  have hcast : ((x : Int)) = v % 65536 := by
    rw [← hx]; exact Int.toNat_of_nonneg (Int.emod_nonneg v (by norm_num))
  clear hx
  simp only [Bool.true_and, decide_eq_true_eq]
  split <;> omega

theorem intFromTo_i32 (v : Int) (h1 : -2147483648 ≤ v) (h2 : v < 2147483648) :
    intFromBytesLE true (intToBytesLE 4 v) = v := by
  unfold intFromBytesLE intToBytesLE
  rw [natToBytesLE_length, natFromTo]
  rw [show ((256:Int) ^ 4) = 4294967296 by norm_num,
    show ((256:Nat) ^ 4) = 4294967296 by norm_num]
  generalize hx : ((v % 4294967296).toNat : Nat) = x
  have hcast : ((x : Int)) = v % 4294967296 := by
    rw [← hx]; exact Int.toNat_of_nonneg (Int.emod_nonneg v (by norm_num))
  clear hx
  simp only [Bool.true_and, decide_eq_true_eq]
  split <;> omega

/-! ### Bit-extraction arithmetic -/

theorem and_pow_bne (x k : Nat) : (x &&& 2 ^ k != 0) = (x / 2 ^ k % 2 == 1) := by
  have h := Nat.and_two_pow x k
  have hp : 0 < 2 ^ k := Nat.pos_pow_of_pos k (by norm_num)
  rw [Bool.eq_iff_iff]
  simp only [bne_iff_ne, ne_eq, beq_iff_eq, h, Nat.testBit_to_div_mod]
  rcases Nat.mod_two_eq_zero_or_one (x / 2 ^ k) with h2 | h2
  · simp [h2]
  · simp [h2]

theorem bne1 (x : Nat) : (x &&& 1 != 0) = (x / 1 % 2 == 1) := by
  simpa using and_pow_bne x 0

theorem bne2 (x : Nat) : (x &&& 2 != 0) = (x / 2 % 2 == 1) := by
  simpa using and_pow_bne x 1

theorem bne4 (x : Nat) : (x &&& 4 != 0) = (x / 4 % 2 == 1) := by
  simpa using and_pow_bne x 2

theorem bne16 (x : Nat) : (x &&& 16 != 0) = (x / 16 % 2 == 1) := by
  simpa using and_pow_bne x 4

theorem bne32 (x : Nat) : (x &&& 32 != 0) = (x / 32 % 2 == 1) := by
  simpa using and_pow_bne x 5

theorem bne64 (x : Nat) : (x &&& 64 != 0) = (x / 64 % 2 == 1) := by
  simpa using and_pow_bne x 6

theorem bne128 (x : Nat) : (x &&& 128 != 0) = (x / 128 % 2 == 1) := by
  simpa using and_pow_bne x 7

theorem and1 (x : Nat) : x &&& 1 = x % 2 := by
  simpa using Nat.and_pow_two_sub_one_eq_mod x 1

theorem and3 (x : Nat) : x &&& 3 = x % 4 := by
  simpa using Nat.and_pow_two_sub_one_eq_mod x 2

theorem and7 (x : Nat) : x &&& 7 = x % 8 := by
  simpa using Nat.and_pow_two_sub_one_eq_mod x 3

theorem and15 (x : Nat) : x &&& 15 = x % 16 := by
  simpa using Nat.and_pow_two_sub_one_eq_mod x 4

theorem and31 (x : Nat) : x &&& 31 = x % 32 := by
  simpa using Nat.and_pow_two_sub_one_eq_mod x 5

theorem and127 (x : Nat) : x &&& 127 = x % 128 := by
  simpa using Nat.and_pow_two_sub_one_eq_mod x 7

theorem and1023 (x : Nat) : x &&& 1023 = x % 1024 := by
  simpa using Nat.and_pow_two_sub_one_eq_mod x 10

theorem shr1 (x : Nat) : x >>> 1 = x / 2 := by
  simpa using Nat.shiftRight_eq_div_pow x 1

theorem shr2 (x : Nat) : x >>> 2 = x / 4 := by
  simpa using Nat.shiftRight_eq_div_pow x 2

theorem shr3 (x : Nat) : x >>> 3 = x / 8 := by
  simpa using Nat.shiftRight_eq_div_pow x 3

theorem shr4 (x : Nat) : x >>> 4 = x / 16 := by
  simpa using Nat.shiftRight_eq_div_pow x 4

theorem shr5 (x : Nat) : x >>> 5 = x / 32 := by
  simpa using Nat.shiftRight_eq_div_pow x 5

theorem shr6 (x : Nat) : x >>> 6 = x / 64 := by
  simpa using Nat.shiftRight_eq_div_pow x 6

theorem shr7 (x : Nat) : x >>> 7 = x / 128 := by
  simpa using Nat.shiftRight_eq_div_pow x 7

theorem shr12 (x : Nat) : x >>> 12 = x / 4096 := by
  simpa using Nat.shiftRight_eq_div_pow x 12

/-- The 0/1 byte value of a boolean (the write side of `bool(...)` fields). -/
def btn (b : Bool) : Nat := if b then 1 else 0

theorem btn_le (b : Bool) : btn b ≤ 1 := by cases b <;> simp [btn]

theorem beq_one_btn (A : Nat) (e : Bool) (h : A = btn e) : (A == 1) = e := by
  subst h; cases e <;> rfl

theorem btn_bne (e : Bool) : (btn e != 0) = e := by cases e <;> rfl

/-! ### Macro loop/release marker insertion and recovery

`__common_ma_block` inserts `MacroItem.LOOP` at the loop byte (when it is
not `0xff`) and then `MacroItem.RELEASE` at the release byte (when not
`0xff`) into the freshly read value list, via Python's clamping
`list.insert`.  The spec-modelled encoder must recover both bytes from the
merged data list. -/

theorem pyInsert_length (x : α) : ∀ (l : List α) (i : Nat),
    (pyInsert i x l).length = l.length + 1 := by
  intro l
  induction l with
  | nil => intro i; simp [pyInsert]
  | cons a t ih =>
      intro i
      cases i with
      | zero => rfl
      | succ i => simp [pyInsert, ih]

theorem mem_pyInsert (x y : α) : ∀ (l : List α) (i : Nat),
    y ∈ pyInsert i x l ↔ y = x ∨ y ∈ l := by
  intro l
  induction l with
  | nil => intro i; simp [pyInsert]
  | cons a t ih =>
      intro i
      cases i with
      | zero => simp [pyInsert]; try tauto
      | succ i => simp [pyInsert, ih]; try tauto

theorem pyInsert_min (x : α) : ∀ (l : List α) (i : Nat),
    pyInsert (min i l.length) x l = pyInsert i x l := by
  intro l
  induction l with
  | nil => intro i; simp [pyInsert]
  | cons a t ih =>
      intro i
      cases i with
      | zero => rfl
      | succ i =>
          have : min (i + 1) (a :: t).length = min i t.length + 1 := by
            simp [Nat.succ_min_succ]
          rw [this]
          simp [pyInsert, ih]

/-- `findIdx` of the freshly inserted element, when nothing else matches. -/
theorem findIdx_pyInsert_self (p : α → Bool) (x : α) (hx : p x = true) :
    ∀ (l : List α) (i : Nat), (∀ z ∈ l, p z = false) →
    (pyInsert i x l).findIdx p = min i l.length := by
  intro l
  induction l with
  | nil => intro i _; simp [pyInsert, List.findIdx_cons, hx]
  | cons a t ih =>
      intro i hl
      have ha : p a = false := hl a (List.mem_cons_self a t)
      have ht : ∀ z ∈ t, p z = false := fun z hz => hl z (List.mem_cons_of_mem a hz)
      cases i with
      | zero => simp [pyInsert, List.findIdx_cons, hx]
      | succ i =>
          simp [pyInsert, List.findIdx_cons, ha, ih i ht]
          omega

/-- `findIdx` of a pre-existing match across an insertion of a non-match:
it shifts up by one exactly when the insertion lands at or before it. -/
theorem findIdx_pyInsert_shift (p : α → Bool) (x : α) (hx : p x = false) :
    ∀ (l : List α) (i : Nat),
    (pyInsert i x l).findIdx p
      = if min i l.length ≤ l.findIdx p then l.findIdx p + 1 else l.findIdx p := by
  intro l
  induction l with
  | nil => intro i; simp [pyInsert, List.findIdx_cons, hx]
  | cons a t ih =>
      intro i
      cases i with
      | zero => simp [pyInsert, List.findIdx_cons, hx]
      | succ i =>
          have hmin : min (i + 1) (a :: t).length = min i t.length + 1 := by
            simp [Nat.succ_min_succ]
          rcases ha : p a with _ | _
          · simp only [pyInsert, List.findIdx_cons, ha, cond_false, hmin, ih i]
            by_cases hc : min i t.length ≤ t.findIdx p
            · rw [if_pos hc, if_pos (by omega)]
            · rw [if_neg hc, if_neg (by omega)]
          · simp [pyInsert, List.findIdx_cons, ha, hmin]

/-- The plain values of a macro data list (markers dropped). -/
def stripVals (d : List MEntry) : List Int :=
  d.filterMap fun e => match e with
    | .val v => some v
    | _ => none

theorem stripVals_map (vals : List Int) : stripVals (vals.map MEntry.val) = vals := by
  induction vals with
  | nil => rfl
  | cons v t ih => simp [stripVals, List.filterMap_cons] at *; exact ih

theorem stripVals_pyInsert (x : MEntry) (hx : ∀ v : Int, x ≠ MEntry.val v) :
    ∀ (l : List MEntry) (i : Nat), stripVals (pyInsert i x l) = stripVals l := by
  have hnone : (match x with | .val v => some v | _ => none) = (none : Option Int) := by
    cases x with
    | val v => exact absurd rfl (hx v)
    | loop => rfl
    | release => rfl
  intro l
  induction l with
  | nil =>
      intro i
      simp [pyInsert, stripVals, List.filterMap_cons, hnone]
  | cons a t ih =>
      intro i
      cases i with
      | zero => simp [pyInsert, stripVals, List.filterMap_cons, hnone]
      | succ i =>
          simp only [pyInsert, stripVals, List.filterMap_cons] at *
          rw [ih i]

/-- The two marker insertions of `__common_ma_block` (byte `0xff` means "no
marker"). -/
def applyMarks (loopB relB : Nat) (d0 : List MEntry) : List MEntry :=
  let d1 := if loopB ≠ 0xff then pyInsert loopB MEntry.loop d0 else d0
  if relB ≠ 0xff then pyInsert relB MEntry.release d1 else d1

/-- Modelled from the spec: the release byte recovered from a merged data
list — the position of the release marker, `0xff` when absent. -/
def encRelByte (d : List MEntry) : Nat :=
  if MEntry.release ∈ d then d.findIdx (fun e => e == MEntry.release) else 0xff

/-- Modelled from the spec: the loop byte recovered from a merged data
list — the position of the loop marker, minus one when the release marker
was inserted before it, `0xff` when absent. -/
def encLoopByte (d : List MEntry) : Nat :=
  if MEntry.loop ∈ d then
    let pL := d.findIdx (fun e => e == MEntry.loop)
    if MEntry.release ∈ d ∧ d.findIdx (fun e => e == MEntry.release) < pL
    then pL - 1 else pL
  else 0xff

theorem map_val_no_loop (vals : List Int) :
    ∀ z ∈ vals.map MEntry.val, (z == MEntry.loop) = false := by
  intro z hz
  obtain ⟨v, _, hv⟩ := List.mem_map.mp hz
  subst hv
  rfl

theorem map_val_no_release (vals : List Int) :
    ∀ z ∈ vals.map MEntry.val, (z == MEntry.release) = false := by
  intro z hz
  obtain ⟨v, _, hv⟩ := List.mem_map.mp hz
  subst hv
  rfl

/-- Marker byte recovery: for any decoded macro data list (markers inserted
at byte positions `L`, `R`, value `0xff` meaning absent), stripping the
values and re-applying the recovered marker bytes reproduces the list, and
both recovered bytes are genuine byte values. -/
theorem marks_recover (vals : List Int) (L R : Nat) (hn : vals.length ≤ 255)
    (hL : L < 256) (hR : R < 256) :
    stripVals (applyMarks L R (vals.map MEntry.val)) = vals ∧
    encLoopByte (applyMarks L R (vals.map MEntry.val)) < 256 ∧
    encRelByte (applyMarks L R (vals.map MEntry.val)) < 256 ∧
    applyMarks (encLoopByte (applyMarks L R (vals.map MEntry.val)))
        (encRelByte (applyMarks L R (vals.map MEntry.val)))
        (vals.map MEntry.val)
      = applyMarks L R (vals.map MEntry.val) := by
  have hlen : (vals.map MEntry.val).length = vals.length := List.length_map vals _
  have hno_loop := map_val_no_loop vals
  have hno_rel := map_val_no_release vals
  have hmem_loop : MEntry.loop ∉ vals.map MEntry.val := by
    intro hmem
    have := hno_loop MEntry.loop hmem
    simp at this
  have hmem_rel : MEntry.release ∉ vals.map MEntry.val := by
    intro hmem
    have := hno_rel MEntry.release hmem
    simp at this
  by_cases hLs : L = 0xff
  · by_cases hRs : R = 0xff
    · -- no markers at all
      subst hLs hRs
      simp only [applyMarks, ne_eq, not_true_eq_false, if_false, ite_self]
      refine ⟨stripVals_map vals, ?_, ?_, ?_⟩
      · simp [encLoopByte, hmem_loop]
      · simp [encRelByte, hmem_rel]
      · simp [encLoopByte, encRelByte, hmem_loop, hmem_rel, applyMarks]
    · -- release only
      subst hLs
      have hd : applyMarks 0xff R (vals.map MEntry.val)
          = pyInsert R MEntry.release (vals.map MEntry.val) := by
        simp [applyMarks, hRs]
      rw [hd]
      have hmemd : MEntry.loop ∉ pyInsert R MEntry.release (vals.map MEntry.val) := by
        rw [mem_pyInsert]
        rintro (h | h)
        · simp at h
        · exact hmem_loop h
      have hfind : (pyInsert R MEntry.release (vals.map MEntry.val)).findIdx
          (fun e => e == MEntry.release) = min R vals.length := by
        rw [findIdx_pyInsert_self _ _ rfl _ _ hno_rel, hlen]
      have hrel : MEntry.release ∈ pyInsert R MEntry.release (vals.map MEntry.val) := by
        rw [mem_pyInsert]; left; rfl
      refine ⟨?_, ?_, ?_, ?_⟩
      · rw [stripVals_pyInsert _ (by intro v h; cases h) _ _, stripVals_map]
      · simp [encLoopByte, hmemd]
      · simp only [encRelByte, hrel, if_pos, hfind]
        omega
      · simp only [encLoopByte, encRelByte, hmemd, hrel, if_pos, if_false, hfind,
          applyMarks]
        have h1 : ¬ (0xff : Nat) ≠ 0xff := by simp
        rw [if_neg h1, if_pos (by omega : min R vals.length ≠ 0xff)]
        rw [← hlen, pyInsert_min]
  · by_cases hRs : R = 0xff
    · -- loop only
      subst hRs
      have hd : applyMarks L 0xff (vals.map MEntry.val)
          = pyInsert L MEntry.loop (vals.map MEntry.val) := by
        simp [applyMarks, hLs]
      rw [hd]
      have hmemd : MEntry.release ∉ pyInsert L MEntry.loop (vals.map MEntry.val) := by
        rw [mem_pyInsert]
        rintro (h | h)
        · simp at h
        · exact hmem_rel h
      have hfind : (pyInsert L MEntry.loop (vals.map MEntry.val)).findIdx
          (fun e => e == MEntry.loop) = min L vals.length := by
        rw [findIdx_pyInsert_self _ _ rfl _ _ hno_loop, hlen]
      have hloopd : MEntry.loop ∈ pyInsert L MEntry.loop (vals.map MEntry.val) := by
        rw [mem_pyInsert]; left; rfl
      refine ⟨?_, ?_, ?_, ?_⟩
      · rw [stripVals_pyInsert _ (by intro v h; cases h) _ _, stripVals_map]
      · simp only [encLoopByte, hloopd, if_pos, hmemd, false_and, if_false]
        omega
      · simp [encRelByte, hmemd]
      · simp only [encLoopByte, encRelByte, hloopd, hmemd, false_and, if_pos, if_false,
          hfind, applyMarks]
        have h1 : ¬ (0xff : Nat) ≠ 0xff := by simp
        rw [if_neg h1, if_pos (by omega : min L vals.length ≠ 0xff)]
        rw [← hlen, pyInsert_min]
    · -- both markers
      have hd : applyMarks L R (vals.map MEntry.val)
          = pyInsert R MEntry.release (pyInsert L MEntry.loop (vals.map MEntry.val)) := by
        simp [applyMarks, hLs, hRs]
      rw [hd]
      have hAlen : (pyInsert L MEntry.loop (vals.map MEntry.val)).length
          = vals.length + 1 := by rw [pyInsert_length, hlen]
      have hAno_rel : ∀ z ∈ pyInsert L MEntry.loop (vals.map MEntry.val),
          (z == MEntry.release) = false := by
        intro z hz
        rcases (mem_pyInsert _ _ _ _).mp hz with h | h
        · subst h; rfl
        · exact hno_rel z h
      have hpR : (pyInsert R MEntry.release
            (pyInsert L MEntry.loop (vals.map MEntry.val))).findIdx
          (fun e => e == MEntry.release) = min R (vals.length + 1) := by
        rw [findIdx_pyInsert_self _ _ rfl _ _ hAno_rel, hAlen]
      have hpA : (pyInsert L MEntry.loop (vals.map MEntry.val)).findIdx
          (fun e => e == MEntry.loop) = min L vals.length := by
        rw [findIdx_pyInsert_self _ _ rfl _ _ hno_loop, hlen]
      have hpL : (pyInsert R MEntry.release
            (pyInsert L MEntry.loop (vals.map MEntry.val))).findIdx
          (fun e => e == MEntry.loop)
          = if min R (vals.length + 1) ≤ min L vals.length
            then min L vals.length + 1 else min L vals.length := by
        rw [findIdx_pyInsert_shift _ _ rfl, hpA, hAlen]
      have hrel : MEntry.release ∈ pyInsert R MEntry.release
          (pyInsert L MEntry.loop (vals.map MEntry.val)) := by
        rw [mem_pyInsert]; left; rfl
      have hloopd : MEntry.loop ∈ pyInsert R MEntry.release
          (pyInsert L MEntry.loop (vals.map MEntry.val)) := by
        rw [mem_pyInsert]; right; rw [mem_pyInsert]; left; rfl
      have hencR : encRelByte (pyInsert R MEntry.release
            (pyInsert L MEntry.loop (vals.map MEntry.val)))
          = min R (vals.length + 1) := by
        simp only [encRelByte, hrel, if_pos, hpR]
      have hencL : encLoopByte (pyInsert R MEntry.release
            (pyInsert L MEntry.loop (vals.map MEntry.val)))
          = min L vals.length := by
        simp only [encLoopByte, hloopd, if_pos, hrel, true_and, hpR, hpL]
        by_cases hc : min R (vals.length + 1) ≤ min L vals.length
        · rw [if_pos hc, if_pos (by omega)]
          omega
        · rw [if_neg hc, if_neg (by omega)]
      have e1 : pyInsert (min L vals.length) MEntry.loop (vals.map MEntry.val)
          = pyInsert L MEntry.loop (vals.map MEntry.val) := by
        conv_lhs => rw [← hlen]
        exact pyInsert_min _ _ _
      have e2 : pyInsert (min R (vals.length + 1)) MEntry.release
            (pyInsert L MEntry.loop (vals.map MEntry.val))
          = pyInsert R MEntry.release (pyInsert L MEntry.loop (vals.map MEntry.val)) := by
        conv_lhs => rw [← hAlen]
        exact pyInsert_min _ _ _
      refine ⟨?_, ?_, ?_, ?_⟩
      · rw [stripVals_pyInsert _ (by intro v h; cases h) _ _,
          stripVals_pyInsert _ (by intro v h; cases h) _ _, stripVals_map]
      · rw [hencL]; omega
      · rw [hencR]; omega
      · rw [hencL, hencR]
        unfold applyMarks
        have h1 : min L vals.length ≠ 0xff := by omega
        have h2 : min R (vals.length + 1) ≠ 0xff := by omega
        rw [if_pos h1, if_pos h2, e1, e2]

/-! ### Macro word sizes and the macro value stream -/

theorem readBytesN_ok : ∀ {n : Nat} {s s' bs : List Nat},
    readBytesN n s = .ok (bs, s') → s = bs ++ s' ∧ bs.length = n := by
  intro n
  induction n with
  | zero => intro s s' bs h; simp [readBytesN] at h; simp [h.1, h.2]
  | succ n ih =>
      intro s s' bs h
      cases s with
      | nil => simp [readBytesN, readByte, bind, Except.bind] at h
      | cons b t =>
          simp only [readBytesN, readByte, bind, Except.bind] at h
          match ht : readBytesN n t with
          | .error e => rw [ht] at h; simp at h
          | .ok (bs0, r0) =>
              rw [ht] at h
              simp at h
              obtain ⟨h1, h2⟩ := ih ht
              refine ⟨?_, ?_⟩
              · rw [← h.1, ← h.2, h1]; rfl
              · rw [← h.1]; simp [h2]

theorem readBytesN_append : ∀ (bs r : List Nat),
    readBytesN bs.length (bs ++ r) = .ok (bs, r) := by
  intro bs
  induction bs with
  | nil => intro r; simp [readBytesN]
  | cons b t ih =>
      intro r
      simp [readBytesN, readByte, bind, Except.bind, ih r]

/-- `MacroSize.num_bytes` by member code (`flags >> 6 & 0b11`). -/
def wsBytes : Nat → Nat
  | 0 => 1
  | 1 => 1
  | 2 => 2
  | _ => 4

/-- `MacroSize.signed` by member code. -/
def wsSigned : Nat → Bool
  | 0 => false
  | _ => true

/-- The value range representable at a word-size code. -/
def fitsWS (w : Nat) (v : Int) : Prop :=
  match w with
  | 0 => 0 ≤ v ∧ v < 256
  | 1 => -128 ≤ v ∧ v < 128
  | 2 => -32768 ≤ v ∧ v < 32768
  | _ => -2147483648 ≤ v ∧ v < 2147483648

/-- Modelled from the spec: the encoder picks the smallest word size whose
range holds every value of the macro. -/
def chooseWS (vals : List Int) : Nat :=
  if vals.all fun v => decide (0 ≤ v) && decide (v < 256) then 0
  else if vals.all fun v => decide (-128 ≤ v) && decide (v < 128) then 1
  else if vals.all fun v => decide (-32768 ≤ v) && decide (v < 32768) then 2
  else 3

theorem chooseWS_le (vals : List Int) : chooseWS vals ≤ 3 := by
  unfold chooseWS
  split
  · omega
  · split
    · omega
    · split <;> omega

theorem chooseWS_fits (vals : List Int) (h : ∀ v ∈ vals, fitsWS 3 v) :
    ∀ v ∈ vals, fitsWS (chooseWS vals) v := by
  unfold chooseWS
  split
  · intro v hv
    next hall =>
      have := List.all_eq_true.mp hall v hv
      simp at this
      exact ⟨this.1, this.2⟩
  · split
    · intro v hv
      next hall =>
        have := List.all_eq_true.mp hall v hv
        simp at this
        exact ⟨this.1, this.2⟩
    · split
      · intro v hv
        next hall =>
          have := List.all_eq_true.mp hall v hv
          simp at this
          exact ⟨this.1, this.2⟩
      · exact h

theorem wsBytes_le (w : Nat) : 1 ≤ wsBytes w ∧ wsBytes w ≤ 4 := by
  unfold wsBytes
  split <;> omega

theorem chooseWS_bytes_le (vals : List Int) (w : Nat) (hw : w ≤ 3)
    (h : ∀ v ∈ vals, fitsWS w v) : wsBytes (chooseWS vals) ≤ wsBytes w := by
  interval_cases w
  · have hall : (vals.all fun v => decide (0 ≤ v) && decide (v < 256)) = true := by
      rw [List.all_eq_true]
      intro v hv
      have := h v hv
      simp [fitsWS] at this
      simp [this.1, this.2]
    simp [chooseWS, hall, wsBytes]
  · unfold chooseWS
    split
    · simp [wsBytes]
    · have hall : (vals.all fun v => decide (-128 ≤ v) && decide (v < 128)) = true := by
        rw [List.all_eq_true]
        intro v hv
        have := h v hv
        simp [fitsWS] at this
        simp [this.1, this.2]
      rw [if_pos hall]
  · unfold chooseWS
    split
    · simp [wsBytes]
    · split
      · simp [wsBytes]
      · have hall : (vals.all fun v => decide (-32768 ≤ v) && decide (v < 32768))
            = true := by
          rw [List.all_eq_true]
          intro v hv
          have := h v hv
          simp [fitsWS] at this
          simp [this.1, this.2]
        rw [if_pos hall]
  · show wsBytes (chooseWS vals) ≤ 4
    exact (wsBytes_le (chooseWS vals)).2

theorem fitsWS_mono3 (w : Nat) (v : Int) (hw : w ≤ 3) (h : fitsWS w v) :
    fitsWS 3 v := by
  interval_cases w <;> simp [fitsWS] at * <;> omega

/-- One macro word:
`int.from_bytes(stream.read(word_size.num_bytes), 'little', signed=...)`
(strict-read model; see the note on the byte-level value codec). -/
def readMacroVal (w : Nat) (s : List Nat) : Except Err (Int × List Nat) :=
  match readBytesN (wsBytes w) s with
  | .error e => .error e
  | .ok (bs, s') => .ok (intFromBytesLE (wsSigned w) bs, s')

/-- The macro word list comprehension (`for _ in range(length)`). -/
def readMacroVals (n w : Nat) (s : List Nat) : Except Err (List Int × List Nat) :=
  match n with
  | 0 => .ok ([], s)
  | n + 1 =>
    match readMacroVal w s with
    | .error e => .error e
    | .ok (v, s1) =>
      match readMacroVals n w s1 with
      | .error e => .error e
      | .ok (vs, s2) => .ok (v :: vs, s2)

theorem intFromBytesLE_fits (w : Nat) (hw : w ≤ 3) (bs : List Nat)
    (hlen : bs.length = wsBytes w) (hb : Bounded bs) :
    fitsWS w (intFromBytesLE (wsSigned w) bs) := by
  interval_cases w
  · match bs, hlen with
    | [b0], _ =>
        have h0 : b0 < 256 := (bounded_cons hb).1
        simp [intFromBytesLE, natFromBytesLE, wsSigned, fitsWS]
        omega
  · match bs, hlen with
    | [b0], _ =>
        have h0 : b0 < 256 := (bounded_cons hb).1
        simp only [intFromBytesLE, natFromBytesLE, List.foldr, wsSigned, fitsWS,
          List.length_cons, List.length_nil]
        norm_num
        split <;> omega
  · match bs, hlen with
    | [b0, b1], _ =>
        have h0 : b0 < 256 := (bounded_cons hb).1
        have h1 : b1 < 256 := (bounded_cons (bounded_cons hb).2).1
        simp only [intFromBytesLE, natFromBytesLE, List.foldr, wsSigned, fitsWS,
          List.length_cons, List.length_nil]
        norm_num
        split <;> omega
  · match bs, hlen with
    | [b0, b1, b2, b3], _ =>
        have h0 : b0 < 256 := (bounded_cons hb).1
        have h1 : b1 < 256 := (bounded_cons (bounded_cons hb).2).1
        have h2 : b2 < 256 := (bounded_cons (bounded_cons (bounded_cons hb).2).2).1
        have h3 : b3 < 256 :=
          (bounded_cons (bounded_cons (bounded_cons (bounded_cons hb).2).2).2).1
        simp only [intFromBytesLE, natFromBytesLE, List.foldr, wsSigned, fitsWS,
          List.length_cons, List.length_nil]
        norm_num
        split <;> omega

theorem readMacroVal_rt (w : Nat) (hw : w ≤ 3) (v : Int) (hfit : fitsWS w v)
    (r : List Nat) :
    readMacroVal w (intToBytesLE (wsBytes w) v ++ r) = .ok (v, r) := by
  unfold readMacroVal
  have hgen : ∀ bs : List Nat, bs.length = wsBytes w →
      readBytesN (wsBytes w) (bs ++ r) = .ok (bs, r) := by
    intro bs hb
    rw [← hb]
    exact readBytesN_append bs r
  rw [hgen _ (intToBytesLE_length (wsBytes w) v)]
  interval_cases w
  · simp [fitsWS] at hfit
    simp [wsBytes, wsSigned, intFromTo_u8 v hfit.1 hfit.2]
  · simp [fitsWS] at hfit
    simp [wsBytes, wsSigned, intFromTo_i8 v hfit.1 hfit.2]
  · simp [fitsWS] at hfit
    simp [wsBytes, wsSigned, intFromTo_i16 v hfit.1 hfit.2]
  · simp [fitsWS] at hfit
    simp [wsBytes, wsSigned, intFromTo_i32 v hfit.1 hfit.2]

theorem readMacroVals_rt (w : Nat) (hw : w ≤ 3) :
    ∀ (vals : List Int), (∀ v ∈ vals, fitsWS w v) → ∀ (r : List Nat),
    readMacroVals vals.length w ((vals.map (intToBytesLE (wsBytes w))).flatten ++ r)
      = .ok (vals, r) := by
  intro vals
  induction vals with
  | nil => intro _ r; simp [readMacroVals]
  | cons v t ih =>
      intro hfit r
      have hv := hfit v (List.mem_cons_self v t)
      have ht := fun z hz => hfit z (List.mem_cons_of_mem v hz)
      simp only [List.length_cons, List.map_cons, List.flatten_cons, List.append_assoc,
        readMacroVals]
      rw [readMacroVal_rt w hw v hv]
      try dsimp only
      rw [ih ht r]

theorem readMacroVals_inv (w : Nat) (hw : w ≤ 3) :
    ∀ (n : Nat) (s s' : List Nat) (vals : List Int), Bounded s →
    readMacroVals n w s = .ok (vals, s') →
    (∀ v ∈ vals, fitsWS w v) ∧ Bounded s'
      ∧ s.length = s'.length + n * wsBytes w ∧ vals.length = n := by
  intro n
  induction n with
  | zero =>
      intro s s' vals hb h
      simp [readMacroVals] at h
      obtain ⟨h1, h2⟩ := h
      subst h1
      subst h2
      refine ⟨?_, hb, ?_, rfl⟩
      · intro v hv
        cases hv
      · simp
  | succ n ih =>
      intro s s' vals hb h
      simp only [readMacroVals] at h
      match h1 : readMacroVal w s with
      | .error e => rw [h1] at h; simp at h
      | .ok (v, s1) =>
          rw [h1] at h
          dsimp only at h
          match h2 : readMacroVals n w s1 with
          | .error e => rw [h2] at h; simp at h
          | .ok (vs, s2) =>
              rw [h2] at h
              simp at h
              obtain ⟨hveq, hseq⟩ := h
              subst hveq
              subst hseq
              unfold readMacroVal at h1
              match h3 : readBytesN (wsBytes w) s with
              | .error e => rw [h3] at h1; simp at h1
              | .ok (bs, sb) =>
                  rw [h3] at h1
                  simp at h1
                  obtain ⟨hv1, hsb⟩ := h1
                  subst hv1
                  subst hsb
                  obtain ⟨hsplit, hblen⟩ := readBytesN_ok h3
                  have hbb : Bounded bs := by
                    rw [hsplit] at hb
                    intro b hbm
                    exact hb b (List.mem_append.mpr (Or.inl hbm))
                  have hbs1 : Bounded sb := by
                    rw [hsplit] at hb
                    intro b hbm
                    exact hb b (List.mem_append.mpr (Or.inr hbm))
                  obtain ⟨hf, hbs', hlen, hcnt⟩ := ih sb s2 vs hbs1 h2
                  refine ⟨?_, ?_, ?_, ?_⟩
                  · intro z hz
                    rcases List.mem_cons.mp hz with hz | hz
                    · subst hz
                      exact intFromBytesLE_fits w hw bs hblen hbb
                    · exact hf z hz
                  · exact hbs'
                  · have : s.length = bs.length + sb.length := by
                      rw [hsplit]; simp
                    rw [this, hblen, hlen]
                    ring
                  · simp [hcnt]

/-! ### The macro block loop (`__common_ma_block`) -/

/-- One entry of `SingleMacro` (`data_types.py`).  `kind` is the
`MacroCode`/`OpMacroCode` member code, `mtype` the `MacroType` member code
(the Python field `type`), `openFlag` the Python field `open`.  The decoder
sets every field, so the Python defaults are irrelevant here. -/
structure SingleMacro where
  kind : Nat
  mode : Nat
  mtype : Nat
  delay : Nat
  speed : Nat
  openFlag : Bool
  data : List MEntry
  deriving DecidableEq, Repr

/-- Member test of the code enums: `MacroCode(b)` accepts `0..19` and `255`
(`STOP`); `OpMacroCode(b)` accepts only `0..19` — it has no `STOP` member. -/
def macroCodeValid (isOp : Bool) (c : Nat) : Bool :=
  if isOp then decide (c ≤ 19) else (decide (c ≤ 19) || c == 255)

/-- The fixed seven-byte macro header after the target code: length, loop,
release, mode, flags (whose `type` bits must form a valid `MacroType`,
i.e. be at most 2 — `MacroType(flags >> 1 & 0b11)` raises otherwise), delay,
speed. -/
def readMacroHeader : List Nat →
    Except Err ((Nat × Nat × Nat × Nat × Nat × Nat × Nat) × List Nat)
  | l :: lo :: re :: mo :: fl :: rest =>
    if fl >>> 1 &&& 3 ≤ 2 then
      match rest with
      | de :: sp :: s' => .ok ((l, lo, re, mo, fl, de, sp), s')
      | _ => .error .truncated
    else .error .badValue
  | _ => .error .truncated

theorem readMacroHeader_ok {s s' : List Nat} {l lo re mo fl de sp : Nat}
    (h : readMacroHeader s = .ok ((l, lo, re, mo, fl, de, sp), s')) :
    s = l :: lo :: re :: mo :: fl :: de :: sp :: s' ∧ fl >>> 1 &&& 3 ≤ 2 := by
  match s with
  | [] => simp [readMacroHeader] at h
  | [x1] => simp [readMacroHeader] at h
  | [x1, x2] => simp [readMacroHeader] at h
  | [x1, x2, x3] => simp [readMacroHeader] at h
  | [x1, x2, x3, x4] => simp [readMacroHeader] at h
  | x1 :: x2 :: x3 :: x4 :: x5 :: rest =>
      by_cases hfl : x5 >>> 1 &&& 3 ≤ 2
      · match rest with
        | [] => simp [readMacroHeader, hfl] at h
        | [y1] => simp [readMacroHeader, hfl] at h
        | y1 :: y2 :: s0 =>
            simp [readMacroHeader, hfl] at h
            obtain ⟨⟨e1, e2, e3, e4, e5, e6, e7⟩, e8⟩ := h
            subst e1; subst e2; subst e3; subst e4; subst e5; subst e6; subst e7
            subst e8
            exact ⟨rfl, hfl⟩
      · simp [readMacroHeader, hfl] at h

theorem readMacroHeader_cons (l lo re mo fl de sp : Nat) (s : List Nat)
    (hfl : fl >>> 1 &&& 3 ≤ 2) :
    readMacroHeader (l :: lo :: re :: mo :: fl :: de :: sp :: s)
      = .ok ((l, lo, re, mo, fl, de, sp), s) := by
  rw [readMacroHeader, if_pos hfl]

theorem readMacroVals_le (w : Nat) : ∀ (n : Nat) {s s' : List Nat} {vals : List Int},
    readMacroVals n w s = .ok (vals, s') → s'.length ≤ s.length := by
  intro n
  induction n with
  | zero => intro s s' vals h; simp [readMacroVals] at h; simp [h.2]
  | succ n ih =>
      intro s s' vals h
      simp only [readMacroVals] at h
      match h1 : readMacroVal w s with
      | .error e => rw [h1] at h; simp at h
      | .ok (v, s1) =>
          rw [h1] at h
          dsimp only at h
          match h2 : readMacroVals n w s1 with
          | .error e => rw [h2] at h; simp at h
          | .ok (vs, s2) =>
              rw [h2] at h
              simp at h
              unfold readMacroVal at h1
              match h3 : readBytesN (wsBytes w) s with
              | .error e => rw [h3] at h1; simp at h1
              | .ok (bs, sb) =>
                  rw [h3] at h1
                  simp at h1
                  obtain ⟨hsplit, _⟩ := readBytesN_ok h3
                  have := ih h2
                  have : s2.length ≤ s1.length := this
                  have h4 : s1.length ≤ s.length := by
                    rw [hsplit, ← h1.2]
                    simp
                  rw [← h.2]
                  omega

/-- The macro reading loop of `__common_ma_block`: read a target code
(validated as `OpMacroCode` for the four operator-macro blocks, as
`MacroCode` otherwise), stop at `STOP` (255), else read the header, the
values (at the word size from the flags), insert the loop/release markers
and continue. -/
def readMacros (isOp : Bool) (s : List Nat) : Except Err (List SingleMacro × List Nat) :=
  match h1 : readByte s with
  | .error e => .error e
  | .ok (c, s1) =>
    if macroCodeValid isOp c = true then
      if c = 255 then .ok ([], s1)
      else
        match h2 : readMacroHeader s1 with
        | .error e => .error e
        | .ok ((len, loopB, relB, mode, flags, delay, speed), s2) =>
          match h3 : readMacroVals len (flags >>> 6 &&& 3) s2 with
          | .error e => .error e
          | .ok (vals, s3) =>
            match readMacros isOp s3 with
            | .error e => .error e
            | .ok (ms, s4) =>
              .ok ({ kind := c, mode := mode, mtype := flags >>> 1 &&& 3,
                     delay := delay, speed := speed,
                     openFlag := flags &&& 1 == 1,
                     data := applyMarks loopB relB (vals.map MEntry.val) } :: ms, s4)
    else .error .badValue
termination_by s.length
decreasing_by
  have e1 : s.length = s1.length + 1 := readByte_length h1
  have e2 : s1.length = s2.length + 7 := by
    rw [(readMacroHeader_ok h2).1]
    simp
  have e3 : s3.length ≤ s2.length := readMacroVals_le _ _ h3
  omega

/-- Modelled from the spec: one serialized macro — target code, the
seven-byte header (length, recovered loop/release bytes, mode, flags packing
word size, type and open, delay, speed), then the values at the minimal
word size. -/
def encodeMacro (m : SingleMacro) : List Nat :=
  let vals : List Int := stripVals m.data
  let w : Nat := chooseWS vals
  [m.kind, vals.length, encLoopByte m.data, encRelByte m.data, m.mode,
   w * 64 + m.mtype * 2 + btn m.openFlag, m.delay, m.speed]
  ++ (vals.map (intToBytesLE (wsBytes w))).flatten

/-- Every macro produced by a successful decode satisfies this shape: a
valid non-`STOP` target code, a valid `MacroType`, and data assembled by
the two marker insertions over genuine byte positions and representable
values. -/
def GoodMacro (m : SingleMacro) : Prop :=
  m.kind ≤ 19 ∧ m.mtype ≤ 2 ∧
  ∃ (vals : List Int) (L R : Nat), vals.length ≤ 255 ∧ (∀ v ∈ vals, fitsWS 3 v)
    ∧ L < 256 ∧ R < 256 ∧ m.data = applyMarks L R (vals.map MEntry.val)

theorem flags_fields (w a c : Nat) (hw : w ≤ 3) (ha : a ≤ 3) (hc : c ≤ 1) :
    (w * 64 + a * 2 + c) >>> 6 &&& 3 = w
      ∧ (w * 64 + a * 2 + c) >>> 1 &&& 3 = a
      ∧ (w * 64 + a * 2 + c) &&& 1 = c := by
  rw [shr6, shr1, and3, and3, and1]
  omega

theorem flatten_intToBytes_length (k : Nat) (vals : List Int) :
    ((vals.map (intToBytesLE k)).flatten).length = vals.length * k := by
  induction vals with
  | nil => simp
  | cons v t ih =>
      simp [ih, intToBytesLE_length]
      ring

theorem encodeMacro_length (m : SingleMacro) :
    (encodeMacro m).length
      = 8 + (stripVals m.data).length * wsBytes (chooseWS (stripVals m.data)) := by
  unfold encodeMacro
  try dsimp only
  rw [List.length_append, flatten_intToBytes_length]
  simp

/-- One-step unfolding of `readMacros` without dependent match equations. -/
theorem readMacros_unfold (isOp : Bool) (s : List Nat) :
    readMacros isOp s =
      match readByte s with
      | .error e => .error e
      | .ok (c, s1) =>
        if macroCodeValid isOp c = true then
          if c = 255 then .ok ([], s1)
          else
            match readMacroHeader s1 with
            | .error e => .error e
            | .ok ((len, loopB, relB, mode, flags, delay, speed), s2) =>
              match readMacroVals len (flags >>> 6 &&& 3) s2 with
              | .error e => .error e
              | .ok (vals, s3) =>
                match readMacros isOp s3 with
                | .error e => .error e
                | .ok (ms, s4) =>
                  .ok ({ kind := c, mode := mode, mtype := flags >>> 1 &&& 3,
                         delay := delay, speed := speed,
                         openFlag := flags &&& 1 == 1,
                         data := applyMarks loopB relB (vals.map MEntry.val) } :: ms,
                       s4)
        else .error .badValue := by
  rw [readMacros.eq_def]
  split
  next e heq => rw [heq]
  next c s1 heq =>
      rw [heq]
      try dsimp only
      by_cases hv : macroCodeValid isOp c = true
      · rw [if_pos hv, if_pos hv]
        by_cases hc : c = 255
        · rw [if_pos hc, if_pos hc]
        · rw [if_neg hc, if_neg hc]
          split
          next e heq2 => rw [heq2]
          next len lo re mo fl de sp s2 heq2 =>
              rw [heq2]
              try dsimp only
              split
              next e heq3 => rw [heq3]
              next vals s3 heq3 => rw [heq3]
      · rw [if_neg hv, if_neg hv]

/-- Re-decoding an encoded macro list (with its `STOP` terminator byte)
recovers the list exactly. -/
theorem readMacros_encode : ∀ (ms : List SingleMacro), (∀ m ∈ ms, GoodMacro m) →
    ∀ (r : List Nat),
    readMacros false ((ms.map encodeMacro).flatten ++ 255 :: r) = .ok (ms, r) := by
  intro ms
  induction ms with
  | nil =>
      intro _ r
      rw [readMacros_unfold]
      simp [readByte, macroCodeValid]
  | cons m t ih =>
      intro h r
      obtain ⟨hk, hmt, vals0, L, R, hn, hfit, hL, hR, hdata⟩ := h m (List.mem_cons_self m t)
      have hmr := marks_recover vals0 L R hn hL hR
      have hstrip : stripVals m.data = vals0 := by rw [hdata]; exact hmr.1
      have happly : applyMarks (encLoopByte m.data) (encRelByte m.data)
          ((stripVals m.data).map MEntry.val) = m.data := by
        rw [hstrip, hdata]; exact hmr.2.2.2
      have hwle : chooseWS (stripVals m.data) ≤ 3 := chooseWS_le _
      have hfitc : ∀ v ∈ stripVals m.data, fitsWS (chooseWS (stripVals m.data)) v := by
        rw [hstrip]; exact chooseWS_fits vals0 hfit
      have hflags := flags_fields (chooseWS (stripVals m.data)) m.mtype
        (btn m.openFlag) hwle (by omega) (btn_le _)
      rw [readMacros_unfold]
      simp only [List.map_cons, List.flatten_cons, encodeMacro,
        List.cons_append, List.nil_append, List.append_assoc]
      rw [readByte_cons]
      try dsimp only
      have hvalid : macroCodeValid false m.kind = true := by
        simp [macroCodeValid]
        omega
      rw [if_pos hvalid, if_neg (show ¬ m.kind = 255 by omega)]
      rw [readMacroHeader_cons _ _ _ _ _ _ _ _ (by rw [hflags.2.1]; omega)]
      try dsimp only
      rw [hflags.1]
      rw [readMacroVals_rt (chooseWS (stripVals m.data)) hwle (stripVals m.data) hfitc
        ((t.map encodeMacro).flatten ++ 255 :: r)]
      try dsimp only
      rw [ih (fun x hx => h x (List.mem_cons_of_mem m hx)) r]
      try dsimp only
      rw [hflags.2.1, hflags.2.2, beq_one_btn (btn m.openFlag) m.openFlag rfl, happly]

/-- Decode-side invariant of the macro loop: every decoded macro is
`GoodMacro`, the remainder is still a byte stream, and the re-encoded
macros (plus the `STOP` byte) never exceed the bytes consumed. -/
theorem readMacros_inv (isOp : Bool) : ∀ (fuel : Nat) (s s' : List Nat)
    (ms : List SingleMacro), s.length ≤ fuel → Bounded s →
    readMacros isOp s = .ok (ms, s') →
    (∀ m ∈ ms, GoodMacro m) ∧ Bounded s'
      ∧ ((ms.map encodeMacro).flatten).length + 1 + s'.length ≤ s.length := by
  intro fuel
  induction fuel with
  | zero =>
      intro s s' ms hf hb h
      have hs : s = [] := by
        cases s with
        | nil => rfl
        | cons b t => simp at hf
      subst hs
      rw [readMacros_unfold] at h
      simp [readByte] at h
  | succ fuel ih =>
      intro s s' ms hf hb h
      rw [readMacros_unfold] at h
      match h1 : readByte s with
      | .error e => rw [h1] at h; simp at h
      | .ok (c, s1) =>
          rw [h1] at h
          dsimp only at h
          obtain ⟨hc256, hbs1⟩ := readByte_bd hb h1
          have hslen : s.length = s1.length + 1 := readByte_length h1
          by_cases hv : macroCodeValid isOp c = true
          · rw [if_pos hv] at h
            by_cases hc : c = 255
            · rw [if_pos hc] at h
              simp at h
              obtain ⟨hms, hs1⟩ := h
              subst hms
              subst hs1
              refine ⟨?_, hbs1, ?_⟩
              · intro m hm
                cases hm
              · simp
                omega
            · rw [if_neg hc] at h
              match h2 : readMacroHeader s1 with
              | .error e => rw [h2] at h; simp at h
              | .ok ((len, lo, re, mo, fl, de, sp), s2) =>
                  rw [h2] at h
                  dsimp only at h
                  obtain ⟨hshape, hmt⟩ := readMacroHeader_ok h2
                  have hbds : len < 256 ∧ lo < 256 ∧ re < 256 ∧ mo < 256 ∧ fl < 256
                      ∧ de < 256 ∧ sp < 256 ∧ Bounded s2 := by
                    rw [hshape] at hbs1
                    obtain ⟨q1, hbs1⟩ := bounded_cons hbs1
                    obtain ⟨q2, hbs1⟩ := bounded_cons hbs1
                    obtain ⟨q3, hbs1⟩ := bounded_cons hbs1
                    obtain ⟨q4, hbs1⟩ := bounded_cons hbs1
                    obtain ⟨q5, hbs1⟩ := bounded_cons hbs1
                    obtain ⟨q6, hbs1⟩ := bounded_cons hbs1
                    obtain ⟨q7, hbs1⟩ := bounded_cons hbs1
                    exact ⟨q1, q2, q3, q4, q5, q6, q7, hbs1⟩
                  have hs1len : s1.length = s2.length + 7 := by rw [hshape]; simp
                  have hw : fl >>> 6 &&& 3 ≤ 3 := by rw [and3]; omega
                  match h3 : readMacroVals len (fl >>> 6 &&& 3) s2 with
                  | .error e => rw [h3] at h; simp at h
                  | .ok (vals, s3) =>
                      rw [h3] at h
                      dsimp only at h
                      obtain ⟨hfits, hbs3, hs2len, hvlen⟩ :=
                        readMacroVals_inv _ hw len s2 s3 vals hbds.2.2.2.2.2.2.2 h3
                      match h4 : readMacros isOp s3 with
                      | .error e => rw [h4] at h; simp at h
                      | .ok (ms0, s4) =>
                          rw [h4] at h
                          simp at h
                          obtain ⟨hms, hs4⟩ := h
                          subst hms
                          subst hs4
                          have hwb := wsBytes_le (fl >>> 6 &&& 3)
                          have hs3f : s3.length ≤ fuel := by omega
                          obtain ⟨hgood0, hbs4, hsize0⟩ := ih s3 _ ms0 hs3f hbs3 h4
                          have hck : c ≤ 19 := by
                            cases isOp with
                            | false =>
                                simp [macroCodeValid] at hv
                                rcases hv with hv | hv
                                · exact hv
                                · exact absurd hv hc
                            | true =>
                                simp [macroCodeValid] at hv
                                exact hv
                          have hfits3 : ∀ v ∈ vals, fitsWS 3 v :=
                            fun v hvm => fitsWS_mono3 _ v hw (hfits v hvm)
                          have hgm : GoodMacro
                              { kind := c, mode := mo, mtype := fl >>> 1 &&& 3,
                                delay := de, speed := sp,
                                openFlag := fl &&& 1 == 1,
                                data := applyMarks lo re (vals.map MEntry.val) } := by
                            refine ⟨hck, hmt, vals, lo, re, by omega, hfits3,
                              hbds.2.1, hbds.2.2.1, rfl⟩
                          refine ⟨?_, hbs4, ?_⟩
                          · intro m hm
                            rcases List.mem_cons.mp hm with hm | hm
                            · subst hm
                              exact hgm
                            · exact hgood0 m hm
                          · have hmr := marks_recover vals lo re (by omega)
                              hbds.2.1 hbds.2.2.1
                            have hwsle : wsBytes (chooseWS vals) ≤ wsBytes (fl >>> 6 &&& 3) :=
                              chooseWS_bytes_le vals _ hw hfits
                            have hlen1 : (encodeMacro
                                { kind := c, mode := mo, mtype := fl >>> 1 &&& 3,
                                  delay := de, speed := sp,
                                  openFlag := fl &&& 1 == 1,
                                  data := applyMarks lo re (vals.map MEntry.val) }).length
                                ≤ 8 + len * wsBytes (fl >>> 6 &&& 3) := by
                              rw [encodeMacro_length]
                              try dsimp only
                              rw [hmr.1, hvlen]
                              have h5 : len * wsBytes (chooseWS vals)
                                  ≤ len * wsBytes (fl >>> 6 &&& 3) :=
                                Nat.mul_le_mul_left _ hwsle
                              omega
                            simp only [and1] at hlen1
                            simp only [List.map_cons, List.flatten_cons, List.length_append]
                            omega
          · rw [if_neg hv] at h
            simp at h

/-- `OpMacroCode` has no `STOP` member, and the macro loop only exits at
`STOP`: the four operator-macro block loaders can never return
successfully.  (A byte outside `0..19` raises `ValueError`; a byte inside
`0..19` never compares equal to `MacroCode.STOP = 255`, so the loop keeps
consuming until the stream runs dry and `read_byte` raises.) -/
theorem readMacros_isOp_no_ok : ∀ (fuel : Nat) (s : List Nat), s.length ≤ fuel →
    ∀ (ms : List SingleMacro) (s' : List Nat), readMacros true s ≠ .ok (ms, s') := by
  intro fuel
  induction fuel with
  | zero =>
      intro s hf ms s' h
      have hs : s = [] := by
        cases s with
        | nil => rfl
        | cons b t => simp at hf
      subst hs
      rw [readMacros_unfold] at h
      simp [readByte] at h
  | succ fuel ih =>
      intro s hf ms s' h
      rw [readMacros_unfold] at h
      match h1 : readByte s with
      | .error e => rw [h1] at h; simp at h
      | .ok (c, s1) =>
          rw [h1] at h
          dsimp only at h
          have hslen : s.length = s1.length + 1 := readByte_length h1
          by_cases hv : macroCodeValid true c = true
          · rw [if_pos hv] at h
            have hck : c ≤ 19 := by simp [macroCodeValid] at hv; exact hv
            rw [if_neg (show ¬ c = 255 by omega)] at h
            match h2 : readMacroHeader s1 with
            | .error e => rw [h2] at h; simp at h
            | .ok ((len, lo, re, mo, fl, de, sp), s2) =>
                rw [h2] at h
                dsimp only at h
                obtain ⟨hshape, _⟩ := readMacroHeader_ok h2
                have hs1len : s1.length = s2.length + 7 := by rw [hshape]; simp
                match h3 : readMacroVals len (fl >>> 6 &&& 3) s2 with
                | .error e => rw [h3] at h; simp at h
                | .ok (vals, s3) =>
                    rw [h3] at h
                    dsimp only at h
                    have hs3le : s3.length ≤ s2.length := readMacroVals_le _ _ h3
                    match h4 : readMacros true s3 with
                    | .error e => rw [h4] at h; simp at h
                    | .ok (ms0, s4) =>
                        exact ih s3 (by omega) ms0 s4 h4
          · rw [if_neg hv] at h
            simp at h

/-! ### Feature payload types (`data_types.py`) -/

/-- `InsFMOperator`. -/
structure FMOperator where
  am : Bool := false
  ar : Nat := 0
  dr : Nat := 0
  mult : Nat := 0
  rr : Nat := 0
  sl : Nat := 0
  tl : Nat := 0
  dt2 : Nat := 0
  rs : Nat := 0
  dt : Nat := 0
  d2r : Nat := 0
  ssg_env : Nat := 0
  dam : Nat := 0
  dvb : Nat := 0
  egt : Bool := false
  ksl : Nat := 0
  sus : Bool := false
  vib : Bool := false
  ws : Nat := 0
  ksr : Bool := false
  enable : Bool := true
  kvs : Nat := 2
  deriving DecidableEq, Repr

/-- The four default operators of `InsFeatureFM.op_list`. -/
def defaultOp1 : FMOperator := { tl := 42, ar := 31, dr := 8, sl := 15, rr := 3, mult := 5, dt := 5 }

def defaultOp2 : FMOperator := { tl := 48, ar := 31, dr := 4, sl := 11, rr := 1, mult := 1, dt := 5 }

def defaultOp3 : FMOperator := { tl := 18, ar := 31, dr := 10, sl := 15, rr := 4, mult := 1 }

def defaultOp4 : FMOperator := { tl := 2, ar := 31, dr := 9, sl := 15, rr := 9, mult := 1 }

/-- `InsFeatureFM`. -/
structure FeatFM where
  alg : Nat := 0
  fb : Nat := 4
  fms : Nat := 0
  ams : Nat := 0
  fms2 : Nat := 0
  ams2 : Nat := 0
  ops : Nat := 2
  opll_preset : Nat := 0
  op_list : List FMOperator := [defaultOp1, defaultOp2, defaultOp3, defaultOp4]
  deriving DecidableEq, Repr

/-- `GBHwSeq`. -/
structure GBHwSeq where
  command : Nat
  data : List Nat := [0, 0]
  deriving DecidableEq, Repr

/-- `InsFeatureGB`. -/
structure FeatGB where
  env_vol : Nat := 15
  env_dir : Nat := 0
  env_len : Nat := 2
  sound_len : Nat := 0
  soft_env : Bool := false
  always_init : Bool := false
  hw_seq : List GBHwSeq := []
  deriving DecidableEq, Repr

/-- `GenericADSR`. -/
structure GenericADSR where
  a : Nat := 0
  d : Nat := 0
  s : Nat := 0
  r : Nat := 0
  deriving DecidableEq, Repr

/-- `InsFeatureC64` (`ring_mod`/`osc_sync` are declared `int` but assigned
`bool` by the loader; they are modelled as the `Bool` the loader stores). -/
structure FeatC64 where
  tri_on : Bool := false
  saw_on : Bool := true
  pulse_on : Bool := false
  noise_on : Bool := false
  envelope : GenericADSR := { a := 0, d := 8, s := 0, r := 0 }
  duty : Nat := 2048
  ring_mod : Bool := false
  osc_sync : Bool := false
  to_filter : Bool := false
  vol_is_cutoff : Bool := false
  init_filter : Bool := false
  duty_is_abs : Bool := false
  filter_is_abs : Bool := false
  no_test : Bool := false
  res : Nat := 0
  cut : Nat := 0
  hp : Bool := false
  lp : Bool := false
  bp : Bool := false
  ch3_off : Bool := false
  deriving DecidableEq, Repr

/-- `InsFeatureAmiga` (`SampleMap` entries as `(freq, sample_index)`). -/
structure FeatAmiga where
  init_sample : Nat := 0
  use_note_map : Bool := false
  use_sample : Bool := false
  use_wave : Bool := false
  wave_len : Nat := 31
  sample_map : List (Nat × Nat) := List.replicate 120 (0, 0)
  deriving DecidableEq, Repr

/-- `InsFeatureOPLDrums`. -/
structure FeatOPLDrums where
  fixed_drums : Bool := false
  kick_freq : Nat := 1312
  snare_hat_freq : Nat := 1360
  tom_top_freq : Nat := 448
  deriving DecidableEq, Repr

/-- `InsFeatureSNES` (`sus` and `gain_mode` as enum member codes). -/
structure FeatSNES where
  use_env : Bool := true
  sus : Nat := 0
  gain_mode : Nat := 0
  gain : Nat := 127
  d2 : Nat := 0
  envelope : GenericADSR := { a := 15, d := 7, s := 7, r := 0 }
  deriving DecidableEq, Repr

/-- `InsFeatureN163` (all four fields are overwritten by the loader). -/
structure FeatN163 where
  wave : Nat
  wave_pos : Nat
  wave_len : Nat
  wave_mode : Nat
  deriving DecidableEq, Repr

/-- `InsFeatureFDS`. -/
structure FeatFDS where
  mod_speed : Nat := 0
  mod_depth : Nat := 0
  init_table_with_first_wave : Bool := false
  mod_table : List Nat := List.replicate 32 0
  deriving DecidableEq, Repr

/-- `InsFeatureWaveSynth` (`effect` as the `WaveFX` member code;
`one_shot` is never read by the loader). -/
structure FeatWaveSynth where
  wave_indices : List Nat := [0, 0]
  rate_divider : Nat := 1
  effect : Nat := 0
  enabled : Bool := false
  global_effect : Bool := false
  speed : Nat := 0
  params : List Nat := [0, 0, 0, 0]
  one_shot : Bool := false
  deriving DecidableEq, Repr

/-- `InsFeatureMultiPCM`. -/
structure FeatMultiPCM where
  ar : Nat := 15
  d1r : Nat := 15
  dl : Nat := 0
  d2r : Nat := 0
  rr : Nat := 15
  rc : Nat := 15
  lfo : Nat := 0
  vib : Nat := 0
  am : Nat := 0
  deriving DecidableEq, Repr

/-- `InsFeatureES5506` (`filter_mode` as the `ESFilterMode` member code). -/
structure FeatES5506 where
  filter_mode : Nat := 3
  k1 : Nat := 0xffff
  k2 : Nat := 0xffff
  env_count : Nat := 0
  left_volume_ramp : Nat := 0
  right_volume_ramp : Nat := 0
  k1_ramp : Nat := 0
  k2_ramp : Nat := 0
  k1_slow : Nat := 0
  k2_slow : Nat := 0
  deriving DecidableEq, Repr

/-- `InsFeatureDPCMMap` (`DPCMMap` entries as `(pitch, delta)`). -/
structure FeatDPCMMap where
  use_map : Bool := false
  sample_map : List (Nat × Nat) := List.replicate 120 (0, 0)
  deriving DecidableEq, Repr

/-- `InsFeatureSID2`. -/
structure FeatSID2 where
  noise_mode : Nat := 0
  wave_mix : Nat := 0
  volume : Nat := 0
  deriving DecidableEq, Repr

/-- One decoded feature block.  `oMacro i` stands for the four
operator-macro blocks `O1`–`O4`; their loader can never return (see
`readMacros_isOp_no_ok`), so no decoded instrument contains one. -/
inductive Feature where
  | na (name : List Nat)
  | fm (v : FeatFM)
  | ma (ms : List SingleMacro)
  | oMacro (idx : Nat) (ms : List SingleMacro)
  | c64 (v : FeatC64)
  | gb (v : FeatGB)
  | sm (v : FeatAmiga)
  | ld (v : FeatOPLDrums)
  | sn (v : FeatSNES)
  | n1 (v : FeatN163)
  | fd (v : FeatFDS)
  | ws (v : FeatWaveSynth)
  | sl (ptrs : List (Nat × Nat))
  | wl (ptrs : List (Nat × Nat))
  | mp (v : FeatMultiPCM)
  | su (switch_roles : Bool)
  | es (v : FeatES5506)
  | x1 (bank_slot : Nat)
  | ne (v : FeatDPCMMap)
  | pn (octave : Nat)
  | s2 (v : FeatSID2)
  deriving DecidableEq, Repr

/-! ### Feature block decoders (`instrument.py`, `__load_*_block`) -/

/-- The per-operator byte layout of `__load_fm_block` (8 bytes; every
operator field except `enable` is overwritten). -/
def setOpBytes (op : FMOperator) (b0 b1 b2 b3 b4 b5 b6 b7 : Nat) : FMOperator :=
  { op with
    ksr := b0 &&& 128 != 0, dt := b0 >>> 4 &&& 7, mult := b0 &&& 15,
    sus := b1 &&& 128 != 0, tl := b1 &&& 127,
    rs := b2 >>> 6 &&& 3, vib := b2 &&& 32 != 0, ar := b2 &&& 31,
    am := b3 &&& 128 != 0, ksl := b3 >>> 5 &&& 3, dr := b3 &&& 31,
    egt := b4 &&& 128 != 0, kvs := b4 >>> 5 &&& 3, d2r := b4 &&& 31,
    sl := b5 >>> 4 &&& 15, rr := b5 &&& 15,
    dvb := b6 >>> 4 &&& 15, ssg_env := b6 &&& 15,
    dam := b7 >>> 5 &&& 7, dt2 := b7 >>> 3 &&& 3, ws := b7 &&& 7 }

/-- The operator loop of `__load_fm_block` (`for op in range(ops)`; indexing
`op_list[op]` out of range raises `IndexError`). -/
def readFMOpsLoop : Nat → Nat → List FMOperator → List Nat →
    Except Err (List FMOperator × List Nat)
  | 0, _, ops, s => .ok (ops, s)
  | count + 1, idx, ops, s => do
    let (b0, s) ← readByte s
    let (b1, s) ← readByte s
    let (b2, s) ← readByte s
    let (b3, s) ← readByte s
    let (b4, s) ← readByte s
    let (b5, s) ← readByte s
    let (b6, s) ← readByte s
    let (b7, s) ← readByte s
    if h : idx < ops.length then
      readFMOpsLoop count (idx + 1)
        (ops.set idx (setOpBytes (ops.get ⟨idx, h⟩) b0 b1 b2 b3 b4 b5 b6 b7)) s
    else .error .badValue

/-- `__load_fm_block`. -/
def decodeFM (s : List Nat) : Except Err (FeatFM × List Nat) := do
  let (b0, s) ← readByte s
  let (b1, s) ← readByte s
  let (b2, s) ← readByte s
  let (b3, s) ← readByte s
  let baseOps : List FMOperator :=
    [{ defaultOp1 with enable := b0 &&& 16 != 0 },
     { defaultOp2 with enable := b0 &&& 32 != 0 },
     { defaultOp3 with enable := b0 &&& 64 != 0 },
     { defaultOp4 with enable := b0 &&& 128 != 0 }]
  let (opl, s) ← readFMOpsLoop (b0 &&& 15) 0 baseOps s
  .ok ({ alg := b1 >>> 4 &&& 7, fb := b1 &&& 7,
         fms2 := b2 >>> 5 &&& 7, ams := b2 >>> 3 &&& 3, fms := b2 &&& 7,
         ams2 := b3 >>> 6 &&& 3, ops := if b3 &&& 32 != 0 then 4 else 2,
         opll_preset := b3 &&& 31, op_list := opl }, s)

/-- `__common_ma_block`: an ignored header-size short, then the macro
loop. -/
def decodeMABody (isOp : Bool) (s : List Nat) :
    Except Err (List SingleMacro × List Nat) :=
  match readShort s with
  | .error e => .error e
  | .ok (_, s1) => readMacros isOp s1

/-- `__load_c64_block`. -/
def decodeC64 (s : List Nat) : Except Err (FeatC64 × List Nat) := do
  let (b0, s) ← readByte s
  let (b1, s) ← readByte s
  let (b2, s) ← readByte s
  let (b3, s) ← readByte s
  let (duty, s) ← readShort s
  let (cr, s) ← readShort s
  .ok ({ duty_is_abs := b0 >>> 7 &&& 1 != 0, init_filter := b0 >>> 6 &&& 1 != 0,
         vol_is_cutoff := b0 >>> 5 &&& 1 != 0, to_filter := b0 >>> 4 &&& 1 != 0,
         noise_on := b0 >>> 3 &&& 1 != 0, pulse_on := b0 >>> 2 &&& 1 != 0,
         saw_on := b0 >>> 1 &&& 1 != 0, tri_on := b0 &&& 1 != 0,
         osc_sync := b1 >>> 7 &&& 1 != 0, ring_mod := b1 >>> 6 &&& 1 != 0,
         no_test := b1 >>> 5 &&& 1 != 0, filter_is_abs := b1 >>> 4 &&& 1 != 0,
         ch3_off := b1 >>> 3 &&& 1 != 0, bp := b1 >>> 2 &&& 1 != 0,
         hp := b1 >>> 1 &&& 1 != 0, lp := b1 &&& 1 != 0,
         envelope := { a := b2 >>> 4 &&& 15, d := b2 &&& 15,
                       s := b3 >>> 4 &&& 15, r := b3 &&& 15 },
         duty := duty, cut := cr &&& 1023, res := cr >>> 12 &&& 15 }, s)

/-- The hardware-sequence loop of `__load_gb_block` (`GBHwCommand` has
members `0..5`). -/
def readGBSeq : Nat → List Nat → Except Err (List GBHwSeq × List Nat)
  | 0, s => .ok ([], s)
  | n + 1, s => do
    let (cmd, s) ← readByte s
    if cmd ≤ 5 then do
      let (d1, s) ← readByte s
      let (d2, s) ← readByte s
      let (rest, s) ← readGBSeq n s
      .ok ({ command := cmd, data := [d1, d2] } :: rest, s)
    else .error .badValue

/-- `__load_gb_block`. -/
def decodeGB (s : List Nat) : Except Err (FeatGB × List Nat) := do
  let (b0, s) ← readByte s
  let (b1, s) ← readByte s
  let (b2, s) ← readByte s
  let (b3, s) ← readByte s
  let (seq, s) ← readGBSeq b3 s
  .ok ({ env_vol := b0 &&& 15, env_dir := b0 >>> 4 &&& 1, env_len := b0 >>> 5 &&& 7,
         sound_len := b1,
         soft_env := b2 &&& 1 != 0, always_init := b2 >>> 1 &&& 1 != 0,
         hw_seq := seq }, s)

/-- The 120-entry note map of `__load_sm_block` (`freq`/`sample_index`
pairs of shorts; every entry is overwritten). -/
def readPairs16 : Nat → List Nat → Except Err (List (Nat × Nat) × List Nat)
  | 0, s => .ok ([], s)
  | n + 1, s => do
    let (a, s) ← readShort s
    let (b, s) ← readShort s
    let (rest, s) ← readPairs16 n s
    .ok ((a, b) :: rest, s)

/-- `__load_sm_block`. -/
def decodeSM (s : List Nat) : Except Err (FeatAmiga × List Nat) := do
  let (init, s) ← readShort s
  let (cur, s) ← readByte s
  let (wl, s) ← readByte s
  if cur &&& 1 != 0 then do
    let (sm, s) ← readPairs16 120 s
    .ok ({ init_sample := init, use_wave := cur >>> 2 &&& 1 != 0,
           use_sample := cur >>> 1 &&& 1 != 0, use_note_map := cur &&& 1 != 0,
           wave_len := wl, sample_map := sm }, s)
  else
    .ok ({ init_sample := init, use_wave := cur >>> 2 &&& 1 != 0,
           use_sample := cur >>> 1 &&& 1 != 0, use_note_map := cur &&& 1 != 0,
           wave_len := wl }, s)

/-- `__load_ld_block`. -/
def decodeLD (s : List Nat) : Except Err (FeatOPLDrums × List Nat) := do
  let (b0, s) ← readByte s
  let (kick, s) ← readShort s
  let (snare, s) ← readShort s
  let (tom, s) ← readShort s
  .ok ({ fixed_drums := b0 &&& 1 != 0, kick_freq := kick,
         snare_hat_freq := snare, tom_top_freq := tom }, s)

/-- `__load_sn_block`.  The `SNESSusMode` constructions cannot fail (the
masked values lie in `0..3`); `GainMode` has members `{0, 4, 5, 6, 7}`. -/
def decodeSN (ver : Nat) (s : List Nat) : Except Err (FeatSNES × List Nat) := do
  let (b0, s) ← readByte s
  let (b1, s) ← readByte s
  let (b2, s) ← readByte s
  let (b3, s) ← readByte s
  let gm : Nat := if b2 < 4 then 0 else b2 &&& 7
  if gm = 0 ∨ 4 ≤ gm then
    if 131 ≤ ver then do
      let (d2s, s) ← readByte s
      .ok ({ envelope := { d := b0 >>> 4 &&& 15, a := b0 &&& 15,
                           s := b1 >>> 4 &&& 15, r := b1 &&& 15 },
             use_env := b2 >>> 4 &&& 1 != 0, sus := d2s >>> 5 &&& 3,
             gain_mode := gm, gain := b3, d2 := d2s &&& 31 }, s)
    else
      .ok ({ envelope := { d := b0 >>> 4 &&& 15, a := b0 &&& 15,
                           s := b1 >>> 4 &&& 15, r := b1 &&& 15 },
             use_env := b2 >>> 4 &&& 1 != 0, sus := b2 >>> 3 &&& 1,
             gain_mode := gm, gain := b3 }, s)
  else .error .badValue

/-- `__load_n1_block`. -/
def decodeN1 (s : List Nat) : Except Err (FeatN163 × List Nat) := do
  let (w, s) ← readInt s
  let (wp, s) ← readByte s
  let (wl, s) ← readByte s
  let (wm, s) ← readByte s
  .ok ({ wave := w, wave_pos := wp, wave_len := wl, wave_mode := wm }, s)

/-- `__load_fd_block` (the 32 mod-table bytes overwrite every entry). -/
def decodeFD (s : List Nat) : Except Err (FeatFDS × List Nat) := do
  let (spd, s) ← readInt s
  let (dep, s) ← readInt s
  let (ini, s) ← readByte s
  let (tbl, s) ← readBytesN 32 s
  .ok ({ mod_speed := spd, mod_depth := dep,
         init_table_with_first_wave := ini != 0, mod_table := tbl }, s)

/-- `__load_ws_block` (`WaveFX` has members `0..6` and `128..136`). -/
def decodeWS (s : List Nat) : Except Err (FeatWaveSynth × List Nat) := do
  let (i0, s) ← readInt s
  let (i1, s) ← readInt s
  let (rd, s) ← readByte s
  let (fx, s) ← readByte s
  if fx ≤ 6 ∨ (128 ≤ fx ∧ fx ≤ 136) then do
    let (en, s) ← readByte s
    let (ge, s) ← readByte s
    let (sp, s) ← readByte s
    let (p0, s) ← readByte s
    let (p1, s) ← readByte s
    let (p2, s) ← readByte s
    let (p3, s) ← readByte s
    .ok ({ wave_indices := [i0, i1], rate_divider := rd, effect := fx,
           enabled := en &&& 1 != 0, global_effect := ge &&& 1 != 0,
           speed := sp, params := [p0, p1, p2, p3] }, s)
  else .error .badValue

/-- Insertion-ordered key set of a Python `dict` built by repeated
assignment: later duplicates keep the first position. -/
def dedupFirst (ks : List Nat) : List Nat :=
  ks.foldl (fun acc k => if k ∈ acc then acc else acc ++ [k]) []

/-- `__common_pointers_block`: a count byte, that many key bytes inserted
into a dict (first occurrence wins), then one u32 per distinct key in
insertion order. -/
def decodePointers (s : List Nat) : Except Err (List (Nat × Nat) × List Nat) := do
  let (n, s) ← readByte s
  let (ks, s) ← readBytesN n s
  let keys := dedupFirst ks
  let (vs, s) ← readInts keys.length s
  .ok (keys.zip vs, s)

/-- `__load_mp_block`. -/
def decodeMP (s : List Nat) : Except Err (FeatMultiPCM × List Nat) := do
  let (a1, s) ← readByte s
  let (a2, s) ← readByte s
  let (a3, s) ← readByte s
  let (a4, s) ← readByte s
  let (a5, s) ← readByte s
  let (a6, s) ← readByte s
  let (a7, s) ← readByte s
  let (a8, s) ← readByte s
  let (a9, s) ← readByte s
  .ok ({ ar := a1, d1r := a2, dl := a3, d2r := a4, rr := a5,
         rc := a6, lfo := a7, vib := a8, am := a9 }, s)

/-- `__load_es_block` (`ESFilterMode` has members `0..3`). -/
def decodeES (s : List Nat) : Except Err (FeatES5506 × List Nat) := do
  let (fm0, s) ← readByte s
  if fm0 ≤ 3 then do
    let (k1, s) ← readShort s
    let (k2, s) ← readShort s
    let (ec, s) ← readShort s
    let (lv, s) ← readByte s
    let (rv, s) ← readByte s
    let (k1r, s) ← readByte s
    let (k2r, s) ← readByte s
    let (k1s, s) ← readByte s
    let (k2s, s) ← readByte s
    .ok ({ filter_mode := fm0, k1 := k1, k2 := k2, env_count := ec,
           left_volume_ramp := lv, right_volume_ramp := rv,
           k1_ramp := k1r, k2_ramp := k2r, k1_slow := k1s, k2_slow := k2s }, s)
  else .error .badValue

/-- The 120-entry DPCM map of `__load_ne_block` (`pitch`/`delta` byte
pairs). -/
def readPairs8 : Nat → List Nat → Except Err (List (Nat × Nat) × List Nat)
  | 0, s => .ok ([], s)
  | n + 1, s => do
    let (a, s) ← readByte s
    let (b, s) ← readByte s
    let (rest, s) ← readPairs8 n s
    .ok ((a, b) :: rest, s)

/-- `__load_ne_block`. -/
def decodeNE (s : List Nat) : Except Err (FeatDPCMMap × List Nat) := do
  let (b0, s) ← readByte s
  if b0 &&& 1 != 0 then do
    let (sm, s) ← readPairs8 120 s
    .ok ({ use_map := b0 &&& 1 != 0, sample_map := sm }, s)
  else
    .ok ({ use_map := b0 &&& 1 != 0 }, s)

/-- `__load_s2_block`. -/
def decodeS2 (s : List Nat) : Except Err (FeatSID2 × List Nat) := do
  let (b0, s) ← readByte s
  .ok ({ volume := b0 &&& 15, wave_mix := b0 >>> 4 &&& 3,
         noise_mode := b0 >>> 6 &&& 3 }, s)

/-! ### Feature block encoders

Modelled from the spec: the repository has no instrument encoder
(`serialize` is commented out in `data_types.py`); each encoder below is the
byte-exact inverse of the featural block layout the spec documents, writing
all four FM operators and the minimal macro word size. -/

def encodeOp (o : FMOperator) : List Nat :=
  [btn o.ksr * 128 + o.dt * 16 + o.mult,
   btn o.sus * 128 + o.tl,
   o.rs * 64 + btn o.vib * 32 + o.ar,
   btn o.am * 128 + o.ksl * 32 + o.dr,
   btn o.egt * 128 + o.kvs * 32 + o.d2r,
   o.sl * 16 + o.rr,
   o.dvb * 16 + o.ssg_env,
   o.dam * 32 + o.dt2 * 8 + o.ws]

def encodeFMBody (v : FeatFM) : List Nat :=
  [btn ((v.op_list.getD 3 defaultOp1).enable) * 128
     + btn ((v.op_list.getD 2 defaultOp1).enable) * 64
     + btn ((v.op_list.getD 1 defaultOp1).enable) * 32
     + btn ((v.op_list.getD 0 defaultOp1).enable) * 16 + 4,
   v.alg * 16 + v.fb,
   v.fms2 * 32 + v.ams * 8 + v.fms,
   v.ams2 * 64 + (if v.ops == 4 then 32 else 0) + v.opll_preset]
  ++ encodeOp (v.op_list.getD 0 defaultOp1) ++ encodeOp (v.op_list.getD 1 defaultOp1)
  ++ encodeOp (v.op_list.getD 2 defaultOp1) ++ encodeOp (v.op_list.getD 3 defaultOp1)

def encodeMABody (ms : List SingleMacro) : List Nat :=
  u16le 8 ++ (ms.map encodeMacro).flatten ++ [255]

def encodeC64Body (v : FeatC64) : List Nat :=
  [btn v.duty_is_abs * 128 + btn v.init_filter * 64 + btn v.vol_is_cutoff * 32
     + btn v.to_filter * 16 + btn v.noise_on * 8 + btn v.pulse_on * 4
     + btn v.saw_on * 2 + btn v.tri_on,
   btn v.osc_sync * 128 + btn v.ring_mod * 64 + btn v.no_test * 32
     + btn v.filter_is_abs * 16 + btn v.ch3_off * 8 + btn v.bp * 4
     + btn v.hp * 2 + btn v.lp,
   v.envelope.a * 16 + v.envelope.d,
   v.envelope.s * 16 + v.envelope.r]
  ++ u16le v.duty ++ u16le (v.res * 4096 + v.cut)

def encodeGBBody (v : FeatGB) : List Nat :=
  [v.env_len * 32 + v.env_dir * 16 + v.env_vol, v.sound_len,
   btn v.always_init * 2 + btn v.soft_env, v.hw_seq.length]
  ++ (v.hw_seq.map fun e => e.command :: e.data).flatten

def encodeSMBody (v : FeatAmiga) : List Nat :=
  u16le v.init_sample
  ++ [btn v.use_wave * 4 + btn v.use_sample * 2 + btn v.use_note_map, v.wave_len]
  ++ (if v.use_note_map
      then (v.sample_map.map fun p => u16le p.1 ++ u16le p.2).flatten else [])

def encodeLDBody (v : FeatOPLDrums) : List Nat :=
  [btn v.fixed_drums] ++ u16le v.kick_freq ++ u16le v.snare_hat_freq
    ++ u16le v.tom_top_freq

def encodeSNBody (ver : Nat) (v : FeatSNES) : List Nat :=
  [v.envelope.d * 16 + v.envelope.a, v.envelope.s * 16 + v.envelope.r,
   btn v.use_env * 16 + v.sus % 2 * 8 + v.gain_mode, v.gain]
  ++ (if 131 ≤ ver then [v.sus * 32 + v.d2] else [])

def encodeN1Body (v : FeatN163) : List Nat :=
  u32le v.wave ++ [v.wave_pos, v.wave_len, v.wave_mode]

def encodeFDBody (v : FeatFDS) : List Nat :=
  u32le v.mod_speed ++ u32le v.mod_depth
    ++ [btn v.init_table_with_first_wave] ++ v.mod_table

def encodeWSBody (v : FeatWaveSynth) : List Nat :=
  (v.wave_indices.map u32le).flatten
    ++ [v.rate_divider, v.effect, btn v.enabled, btn v.global_effect, v.speed]
    ++ v.params

def encodePointersBody (ps : List (Nat × Nat)) : List Nat :=
  ps.length :: (ps.map Prod.fst ++ (ps.map fun p => u32le p.2).flatten)

def encodeMPBody (v : FeatMultiPCM) : List Nat :=
  [v.ar, v.d1r, v.dl, v.d2r, v.rr, v.rc, v.lfo, v.vib, v.am]

def encodeESBody (v : FeatES5506) : List Nat :=
  [v.filter_mode] ++ u16le v.k1 ++ u16le v.k2 ++ u16le v.env_count
    ++ [v.left_volume_ramp, v.right_volume_ramp, v.k1_ramp, v.k2_ramp,
        v.k1_slow, v.k2_slow]

def encodeNEBody (v : FeatDPCMMap) : List Nat :=
  [btn v.use_map]
    ++ (if v.use_map then (v.sample_map.map fun p => [p.1, p.2]).flatten else [])

def encodeS2Body (v : FeatSID2) : List Nat :=
  [v.noise_mode * 64 + v.wave_mix * 16 + v.volume]

/-! ### The feature framing loop (`__read_format_1_feature` /
`__load_format_1`) -/

/-- The two-byte feature codes (`self.__map_to_fn` keys, as ASCII bytes). -/
def featureCode : Feature → List Nat
  | .na _ => [0x4E, 0x41]
  | .fm _ => [0x46, 0x4D]
  | .ma _ => [0x4D, 0x41]
  | .oMacro i _ => [0x4F, 0x30 + i]
  | .c64 _ => [0x36, 0x34]
  | .gb _ => [0x47, 0x42]
  | .sm _ => [0x53, 0x4D]
  | .ld _ => [0x4C, 0x44]
  | .sn _ => [0x53, 0x4E]
  | .n1 _ => [0x4E, 0x31]
  | .fd _ => [0x46, 0x44]
  | .ws _ => [0x57, 0x53]
  | .sl _ => [0x53, 0x4C]
  | .wl _ => [0x57, 0x4C]
  | .mp _ => [0x4D, 0x50]
  | .su _ => [0x53, 0x55]
  | .es _ => [0x45, 0x53]
  | .x1 _ => [0x58, 0x31]
  | .ne _ => [0x4E, 0x45]
  | .pn _ => [0x50, 0x4E]
  | .s2 _ => [0x53, 0x32]

/-- Modelled from the spec: the serialized body of one feature. -/
def encFeatureBody (ver : Nat) : Feature → List Nat
  | .na nm => nm ++ [0]
  | .fm v => encodeFMBody v
  | .ma ms => encodeMABody ms
  | .oMacro _ ms => encodeMABody ms
  | .c64 v => encodeC64Body v
  | .gb v => encodeGBBody v
  | .sm v => encodeSMBody v
  | .ld v => encodeLDBody v
  | .sn v => encodeSNBody ver v
  | .n1 v => encodeN1Body v
  | .fd v => encodeFDBody v
  | .ws v => encodeWSBody v
  | .sl ps => encodePointersBody ps
  | .wl ps => encodePointersBody ps
  | .mp v => encodeMPBody v
  | .su b => [btn b]
  | .es v => encodeESBody v
  | .x1 n => u32le n
  | .ne v => encodeNEBody v
  | .pn o => [o]
  | .s2 v => encodeS2Body v

/-- The dispatch on the two-byte feature code (`self.__map_to_fn[code]`;
an unknown code raises `KeyError`). -/
def decodeFeatureBody (ver c1 c2 : Nat) (block : List Nat) :
    Except Err (Feature × List Nat) :=
  if c1 = 0x4E ∧ c2 = 0x41 then
    (readStr block).map fun p => (.na p.1, p.2)
  else if c1 = 0x46 ∧ c2 = 0x4D then
    (decodeFM block).map fun p => (.fm p.1, p.2)
  else if c1 = 0x4D ∧ c2 = 0x41 then
    (decodeMABody false block).map fun p => (.ma p.1, p.2)
  else if c1 = 0x4F ∧ c2 = 0x31 then
    (decodeMABody true block).map fun p => (.oMacro 1 p.1, p.2)
  else if c1 = 0x4F ∧ c2 = 0x32 then
    (decodeMABody true block).map fun p => (.oMacro 2 p.1, p.2)
  else if c1 = 0x4F ∧ c2 = 0x33 then
    (decodeMABody true block).map fun p => (.oMacro 3 p.1, p.2)
  else if c1 = 0x4F ∧ c2 = 0x34 then
    (decodeMABody true block).map fun p => (.oMacro 4 p.1, p.2)
  else if c1 = 0x36 ∧ c2 = 0x34 then
    (decodeC64 block).map fun p => (.c64 p.1, p.2)
  else if c1 = 0x47 ∧ c2 = 0x42 then
    (decodeGB block).map fun p => (.gb p.1, p.2)
  else if c1 = 0x53 ∧ c2 = 0x4D then
    (decodeSM block).map fun p => (.sm p.1, p.2)
  else if c1 = 0x4C ∧ c2 = 0x44 then
    (decodeLD block).map fun p => (.ld p.1, p.2)
  else if c1 = 0x53 ∧ c2 = 0x4E then
    (decodeSN ver block).map fun p => (.sn p.1, p.2)
  else if c1 = 0x4E ∧ c2 = 0x31 then
    (decodeN1 block).map fun p => (.n1 p.1, p.2)
  else if c1 = 0x46 ∧ c2 = 0x44 then
    (decodeFD block).map fun p => (.fd p.1, p.2)
  else if c1 = 0x57 ∧ c2 = 0x53 then
    (decodeWS block).map fun p => (.ws p.1, p.2)
  else if c1 = 0x53 ∧ c2 = 0x4C then
    (decodePointers block).map fun p => (.sl p.1, p.2)
  else if c1 = 0x57 ∧ c2 = 0x4C then
    (decodePointers block).map fun p => (.wl p.1, p.2)
  else if c1 = 0x4D ∧ c2 = 0x50 then
    (decodeMP block).map fun p => (.mp p.1, p.2)
  else if c1 = 0x53 ∧ c2 = 0x55 then
    (readByte block).map fun p => (.su (p.1 != 0), p.2)
  else if c1 = 0x45 ∧ c2 = 0x53 then
    (decodeES block).map fun p => (.es p.1, p.2)
  else if c1 = 0x58 ∧ c2 = 0x31 then
    (readInt block).map fun p => (.x1 p.1, p.2)
  else if c1 = 0x4E ∧ c2 = 0x45 then
    (decodeNE block).map fun p => (.ne p.1, p.2)
  else if c1 = 0x50 ∧ c2 = 0x4E then
    (readByte block).map fun p => (.pn p.1, p.2)
  else if c1 = 0x53 ∧ c2 = 0x32 then
    (decodeS2 block).map fun p => (.s2 p.1, p.2)
  else .error .badValue

/-- `__load_format_1`'s feature loop: read a two-byte code; stop at `EN` or
end of stream (a lone trailing byte is neither, and the following
`read_short` then hits the exhausted stream); read the block length; decode
the feature from a substream of that many bytes (leftover block bytes are
discarded); continue after the block. -/
def readFeatures (ver : Nat) (s : List Nat) : Except Err (List Feature) :=
  match s with
  | [] => .ok []
  | [_] => .error .truncated
  | c1 :: c2 :: rest =>
    if c1 = 0x45 ∧ c2 = 0x4E then .ok []
    else
      match h1 : readShort rest with
      | .error e => .error e
      | .ok (len, s1) =>
        match decodeFeatureBody ver c1 c2 (s1.take len) with
        | .error e => .error e
        | .ok (f, _) =>
          match readFeatures ver (s1.drop len) with
          | .error e => .error e
          | .ok fs => .ok (f :: fs)
termination_by s.length
decreasing_by
  have e1 : rest.length = s1.length + 2 := readShort_length h1
  have e2 : (s1.drop len).length ≤ s1.length := by simp
  simp only [List.length_cons]
  omega

/-- One-step unfolding of `readFeatures` without dependent match
equations. -/
theorem readFeatures_unfold (ver : Nat) (s : List Nat) :
    readFeatures ver s =
      match s with
      | [] => .ok []
      | [_] => .error .truncated
      | c1 :: c2 :: rest =>
        if c1 = 0x45 ∧ c2 = 0x4E then .ok []
        else
          match readShort rest with
          | .error e => .error e
          | .ok (len, s1) =>
            match decodeFeatureBody ver c1 c2 (s1.take len) with
            | .error e => .error e
            | .ok (f, _) =>
              match readFeatures ver (s1.drop len) with
              | .error e => .error e
              | .ok fs => .ok (f :: fs) := by
  rw [readFeatures.eq_def]
  match s with
  | [] => rfl
  | [b] => rfl
  | c1 :: c2 :: rest =>
      try dsimp only
      by_cases hc : c1 = 0x45 ∧ c2 = 0x4E
      · rw [if_pos hc, if_pos hc]
      · rw [if_neg hc, if_neg hc]
        split
        next e heq => rw [heq]
        next len s1 heq => rw [heq]

/-- The instrument as decoded by `__load_format_1`: header version, the
`InstrumentType` member code, and the feature list. -/
structure Instrument where
  version : Nat
  itype : Nat
  features : List Feature
  deriving DecidableEq, Repr

/-- `__load_format_1`: version short, type short (`InstrumentType` has the
contiguous members `0..49`), then the feature loop. -/
def decodeInstrumentFormat1 (s : List Nat) : Except Err Instrument :=
  match readShort s with
  | .error e => .error e
  | .ok (ver, s1) =>
    match readShort s1 with
    | .error e => .error e
    | .ok (ity, s2) =>
      if ity ≤ 49 then
        match readFeatures ver s2 with
        | .error e => .error e
        | .ok fs => .ok { version := ver, itype := ity, features := fs }
      else .error .badValue

/-- Modelled from the spec: one framed feature — two-byte code, u16 body
length, body. -/
def encodeFeature (ver : Nat) (f : Feature) : List Nat :=
  featureCode f ++ u16le (encFeatureBody ver f).length ++ encFeatureBody ver f

/-- Modelled from the spec: the featural (generation 2) instrument layout —
u16 version, u16 type, the framed features, and the `EN` terminator. -/
def encodeInstrumentFormat1 (i : Instrument) : List Nat :=
  u16le i.version ++ u16le i.itype
    ++ (i.features.map (encodeFeature i.version)).flatten ++ [0x45, 0x4E]

/-! ### Per-feature round-trip lemmas -/

theorem except_map_ok {α β : Type} {f : α → β} {x : Except Err α} {b : β} :
    x.map f = .ok b ↔ ∃ a, x = .ok a ∧ f a = b := by
  cases x <;> simp [Except.map]

theorem readShort_u16le_cons (v : Nat) (hv : v < 65536) (r : List Nat) :
    readShort (v % 256 :: v / 256 % 256 :: r) = .ok (v, r) := by
  simp only [readShort, Except.ok.injEq, Prod.mk.injEq, and_true]
  omega

/-- Every feature's code is two bytes and never the `EN` terminator. -/
theorem featureCode_shape (f : Feature) :
    ∃ c1 c2, featureCode f = [c1, c2] ∧ ¬(c1 = 0x45 ∧ c2 = 0x4E) := by
  cases f <;> refine ⟨_, _, rfl, ?_⟩ <;> rintro ⟨h1, h2⟩ <;> omega

/-- A decoded feature that re-frames correctly: its body fits the u16
length field and re-dispatching its encoded body yields it back. -/
def GoodFeature (ver : Nat) (f : Feature) : Prop :=
  (encFeatureBody ver f).length ≤ 65535 ∧
  ∃ c1 c2 l, featureCode f = [c1, c2] ∧
    decodeFeatureBody ver c1 c2 (encFeatureBody ver f) = .ok (f, l)

/-- Decoding one encoded framed feature prepends it to whatever the rest
decodes to. -/
theorem readFeatures_cons_encode (ver : Nat) (f : Feature)
    (hgood : GoodFeature ver f) (rest : List Nat) :
    readFeatures ver (encodeFeature ver f ++ rest)
      = match readFeatures ver rest with
        | .error e => .error e
        | .ok fs => .ok (f :: fs) := by
  obtain ⟨hlen, c1, c2, l, hcode, hdec⟩ := hgood
  obtain ⟨c1x, c2x, hcode2, hne⟩ := featureCode_shape f
  rw [hcode] at hcode2
  simp at hcode2
  rw [hcode2.1, hcode2.2] at hcode hdec
  rw [readFeatures_unfold]
  simp only [encodeFeature, hcode, u16le, List.cons_append, List.nil_append,
    List.append_assoc]
  rw [if_neg hne]
  rw [readShort_u16le_cons _ (by omega) _]
  try dsimp only
  rw [List.take_left, hdec]
  try dsimp only
  rw [List.drop_left]

/-- Decoding the encoded feature list (with terminator) recovers the
list. -/
theorem readFeatures_encode (ver : Nat) : ∀ (fs : List Feature),
    (∀ f ∈ fs, GoodFeature ver f) →
    readFeatures ver ((fs.map (encodeFeature ver)).flatten ++ [0x45, 0x4E])
      = .ok fs := by
  intro fs
  induction fs with
  | nil =>
      intro _
      rw [readFeatures_unfold]
      simp
  | cons f t ih =>
      intro h
      simp only [List.map_cons, List.flatten_cons, List.append_assoc]
      rw [readFeatures_cons_encode ver f (h f (List.mem_cons_self f t))]
      rw [ih (fun x hx => h x (List.mem_cons_of_mem f hx))]

theorem mod2_bne (y : Nat) : (y % 2 != 0) = (y % 2 == 1) := by
  rcases Nat.mod_two_eq_zero_or_one y with h | h <;> simp [h]

/-- Field bounds every decoded `64` block satisfies. -/
def InvC64 (v : FeatC64) : Prop :=
  v.envelope.a ≤ 15 ∧ v.envelope.d ≤ 15 ∧ v.envelope.s ≤ 15 ∧ v.envelope.r ≤ 15 ∧
  v.duty < 65536 ∧ v.cut ≤ 1023 ∧ v.res ≤ 15

theorem decodeC64_inv {block : List Nat} {v : FeatC64} {l : List Nat}
    (hb : Bounded block) (h : decodeC64 block = .ok (v, l)) : InvC64 v := by
  simp only [decodeC64, bind, Except.bind] at h
  match h0 : readByte block with
  | .error e => rw [h0] at h; simp at h
  | .ok (b0, s0) =>
  rw [h0] at h
  dsimp only at h
  match h1 : readByte s0 with
  | .error e => rw [h1] at h; simp at h
  | .ok (b1, s1) =>
  rw [h1] at h
  dsimp only at h
  match h2 : readByte s1 with
  | .error e => rw [h2] at h; simp at h
  | .ok (b2, s2) =>
  rw [h2] at h
  dsimp only at h
  match h3 : readByte s2 with
  | .error e => rw [h3] at h; simp at h
  | .ok (b3, s3) =>
  rw [h3] at h
  dsimp only at h
  match h4 : readShort s3 with
  | .error e => rw [h4] at h; simp at h
  | .ok (duty, s4) =>
  rw [h4] at h
  dsimp only at h
  match h5 : readShort s4 with
  | .error e => rw [h5] at h; simp at h
  | .ok (cr, s5) =>
  rw [h5] at h
  dsimp only at h
  simp at h
  obtain ⟨hv, hl⟩ := h
  subst hv
  have hb0 := readByte_bd hb h0
  have hb1 := readByte_bd hb0.2 h1
  have hb2 := readByte_bd hb1.2 h2
  have hb3 := readByte_bd hb2.2 h3
  have hb4 := readShort_bd hb3.2 h4
  refine ⟨?_, ?_, ?_, ?_, hb4.1, ?_, ?_⟩
  · show b2 >>> 4 &&& 15 ≤ 15
    rw [and15]; omega
  · show b2 &&& 15 ≤ 15
    rw [and15]; omega
  · show b3 >>> 4 &&& 15 ≤ 15
    rw [and15]; omega
  · show b3 &&& 15 ≤ 15
    rw [and15]; omega
  · show cr &&& 1023 ≤ 1023
    rw [and1023]; omega
  · show cr >>> 12 &&& 15 ≤ 15
    rw [and15]; omega

theorem decodeC64_rt (v : FeatC64) (hv : InvC64 v) :
    decodeC64 (encodeC64Body v) = .ok (v, []) := by
  obtain ⟨triOn, sawOn, pulseOn, noiseOn, env, duty, ringMod, oscSync, toFilter,
    volCut, initFil, dutyAbs, filAbs, noTest, res, cut, hp0, lp0, bp0, ch3⟩ := v
  obtain ⟨ea, ed, es0, er⟩ := env
  obtain ⟨ha, hd, hs, hr, hduty, hcut, hres⟩ := hv
  simp only at ha hd hs hr hduty hcut hres
  have q1 := btn_le triOn
  have q2 := btn_le sawOn
  have q3 := btn_le pulseOn
  have q4 := btn_le noiseOn
  have q5 := btn_le ringMod
  have q6 := btn_le oscSync
  have q7 := btn_le toFilter
  have q8 := btn_le volCut
  have q9 := btn_le initFil
  have q10 := btn_le dutyAbs
  have q11 := btn_le filAbs
  have q12 := btn_le noTest
  have q13 := btn_le hp0
  have q14 := btn_le lp0
  have q15 := btn_le bp0
  have q16 := btn_le ch3
  simp only [encodeC64Body, u16le, List.cons_append, List.nil_append]
  simp [decodeC64, readByte, readShort, bind, Except.bind, shr1, shr2, shr3, shr4,
    shr5, shr6, shr7, shr12, and1, and7, and15, and31, and127, and1023, mod2_bne]
  and_intros <;>
    first
      | rfl
      | omega
      | (exact beq_one_btn _ _ (by omega))
      | (exact (beq_one_btn _ _ (by omega)).symm)

/-- Bounds every decoded `S2` block satisfies. -/
def InvS2 (v : FeatSID2) : Prop :=
  v.volume ≤ 15 ∧ v.wave_mix ≤ 3 ∧ v.noise_mode ≤ 3

theorem decodeS2_inv {block : List Nat} {v : FeatSID2} {l : List Nat}
    (h : decodeS2 block = .ok (v, l)) : InvS2 v := by
  simp only [decodeS2, bind, Except.bind] at h
  match h0 : readByte block with
  | .error e => rw [h0] at h; simp at h
  | .ok (b0, s0) =>
  rw [h0] at h
  dsimp only at h
  simp at h
  obtain ⟨hv, hl⟩ := h
  subst hv
  refine ⟨?_, ?_, ?_⟩
  · show b0 &&& 15 ≤ 15
    rw [and15]; omega
  · show b0 >>> 4 &&& 3 ≤ 3
    rw [and3]; omega
  · show b0 >>> 6 &&& 3 ≤ 3
    rw [and3]; omega

theorem decodeS2_rt (v : FeatSID2) (hv : InvS2 v) :
    decodeS2 (encodeS2Body v) = .ok (v, []) := by
  obtain ⟨nm0, wm0, vol0⟩ := v
  obtain ⟨h1, h2, h3⟩ := hv
  simp only at h1 h2 h3
  simp [encodeS2Body, decodeS2, readByte, bind, Except.bind, shr4, shr6, and3, and15]
  and_intros <;> omega

/-- Bounds every decoded `LD` block satisfies. -/
def InvLD (v : FeatOPLDrums) : Prop :=
  v.kick_freq < 65536 ∧ v.snare_hat_freq < 65536 ∧ v.tom_top_freq < 65536

theorem decodeLD_inv {block : List Nat} {v : FeatOPLDrums} {l : List Nat}
    (hb : Bounded block) (h : decodeLD block = .ok (v, l)) : InvLD v := by
  simp only [decodeLD, bind, Except.bind] at h
  match h0 : readByte block with
  | .error e => rw [h0] at h; simp at h
  | .ok (b0, s0) =>
  rw [h0] at h
  dsimp only at h
  match h1 : readShort s0 with
  | .error e => rw [h1] at h; simp at h
  | .ok (kick, s1) =>
  rw [h1] at h
  dsimp only at h
  match h2 : readShort s1 with
  | .error e => rw [h2] at h; simp at h
  | .ok (snare, s2) =>
  rw [h2] at h
  dsimp only at h
  match h3 : readShort s2 with
  | .error e => rw [h3] at h; simp at h
  | .ok (tom, s3) =>
  rw [h3] at h
  dsimp only at h
  simp at h
  obtain ⟨hv, hl⟩ := h
  subst hv
  have hb0 := readByte_bd hb h0
  have hb1 := readShort_bd hb0.2 h1
  have hb2 := readShort_bd hb1.2 h2
  have hb3 := readShort_bd hb2.2 h3
  exact ⟨hb1.1, hb2.1, hb3.1⟩

theorem decodeLD_rt (v : FeatOPLDrums) (hv : InvLD v) :
    decodeLD (encodeLDBody v) = .ok (v, []) := by
  obtain ⟨fx, kick, snare, tom⟩ := v
  obtain ⟨h1, h2, h3⟩ := hv
  simp only at h1 h2 h3
  have q1 := btn_le fx
  simp [encodeLDBody, u16le, decodeLD, readByte, readShort, bind, Except.bind,
    and1, mod2_bne]
  and_intros <;>
    first
      | rfl
      | omega
      | (exact beq_one_btn _ _ (by omega))
      | (exact (beq_one_btn _ _ (by omega)).symm)

/-- Bounds every decoded `ES` block satisfies. -/
def InvES (v : FeatES5506) : Prop :=
  v.filter_mode ≤ 3 ∧ v.k1 < 65536 ∧ v.k2 < 65536 ∧ v.env_count < 65536

theorem decodeES_inv {block : List Nat} {v : FeatES5506} {l : List Nat}
    (hb : Bounded block) (h : decodeES block = .ok (v, l)) : InvES v := by
  simp only [decodeES, bind, Except.bind] at h
  match h0 : readByte block with
  | .error e => rw [h0] at h; simp at h
  | .ok (fm0, s0) =>
  rw [h0] at h
  dsimp only at h
  by_cases hfm : fm0 ≤ 3
  case neg => rw [if_neg hfm] at h; simp at h
  rw [if_pos hfm] at h
  match h1 : readShort s0 with
  | .error e => rw [h1] at h; simp at h
  | .ok (k1, s1) =>
  rw [h1] at h
  dsimp only at h
  match h2 : readShort s1 with
  | .error e => rw [h2] at h; simp at h
  | .ok (k2, s2) =>
  rw [h2] at h
  dsimp only at h
  match h3 : readShort s2 with
  | .error e => rw [h3] at h; simp at h
  | .ok (ec, s3) =>
  rw [h3] at h
  dsimp only at h
  match h4 : readByte s3 with
  | .error e => rw [h4] at h; simp at h
  | .ok (lv, s4) =>
  rw [h4] at h
  dsimp only at h
  match h5 : readByte s4 with
  | .error e => rw [h5] at h; simp at h
  | .ok (rv, s5) =>
  rw [h5] at h
  dsimp only at h
  match h6 : readByte s5 with
  | .error e => rw [h6] at h; simp at h
  | .ok (k1r, s6) =>
  rw [h6] at h
  dsimp only at h
  match h7 : readByte s6 with
  | .error e => rw [h7] at h; simp at h
  | .ok (k2r, s7) =>
  rw [h7] at h
  dsimp only at h
  match h8 : readByte s7 with
  | .error e => rw [h8] at h; simp at h
  | .ok (k1s, s8) =>
  rw [h8] at h
  dsimp only at h
  match h9 : readByte s8 with
  | .error e => rw [h9] at h; simp at h
  | .ok (k2s, s9) =>
  rw [h9] at h
  dsimp only at h
  simp at h
  obtain ⟨hv, hl⟩ := h
  subst hv
  have hb0 := readByte_bd hb h0
  have hb1 := readShort_bd hb0.2 h1
  have hb2 := readShort_bd hb1.2 h2
  have hb3 := readShort_bd hb2.2 h3
  exact ⟨hfm, hb1.1, hb2.1, hb3.1⟩

theorem decodeES_rt (v : FeatES5506) (hv : InvES v) :
    decodeES (encodeESBody v) = .ok (v, []) := by
  obtain ⟨fm0, k1, k2, ec, lv, rv, k1r, k2r, k1s, k2s⟩ := v
  obtain ⟨h1, h2, h3, h4⟩ := hv
  simp only at h1 h2 h3 h4
  simp [encodeESBody, u16le, decodeES, readByte, readShort, bind, Except.bind, h1]
  and_intros <;> omega

/-- Bound every decoded `N1` block satisfies. -/
def InvN1 (v : FeatN163) : Prop := v.wave < 4294967296

theorem decodeN1_inv {block : List Nat} {v : FeatN163} {l : List Nat}
    (hb : Bounded block) (h : decodeN1 block = .ok (v, l)) : InvN1 v := by
  simp only [decodeN1, bind, Except.bind] at h
  match h0 : readInt block with
  | .error e => rw [h0] at h; simp at h
  | .ok (w, s0) =>
  rw [h0] at h
  dsimp only at h
  match h1 : readByte s0 with
  | .error e => rw [h1] at h; simp at h
  | .ok (wp, s1) =>
  rw [h1] at h
  dsimp only at h
  match h2 : readByte s1 with
  | .error e => rw [h2] at h; simp at h
  | .ok (wl, s2) =>
  rw [h2] at h
  dsimp only at h
  match h3 : readByte s2 with
  | .error e => rw [h3] at h; simp at h
  | .ok (wm, s3) =>
  rw [h3] at h
  dsimp only at h
  simp at h
  obtain ⟨hv, hl⟩ := h
  subst hv
  exact (readInt_bd hb h0).1

theorem decodeN1_rt (v : FeatN163) (hv : InvN1 v) :
    decodeN1 (encodeN1Body v) = .ok (v, []) := by
  obtain ⟨w, wp, wl, wm⟩ := v
  have h1 : w < 4294967296 := hv
  simp [encodeN1Body, u32le, decodeN1, readInt, readByte, bind, Except.bind]
  omega

theorem decodeMP_rt (v : FeatMultiPCM) :
    decodeMP (encodeMPBody v) = .ok (v, []) := by
  obtain ⟨a1, a2, a3, a4, a5, a6, a7, a8, a9⟩ := v
  simp [encodeMPBody, decodeMP, readByte, bind, Except.bind]

theorem readBytesN_self {bs : List Nat} {n : Nat} (h : bs.length = n) :
    readBytesN n bs = .ok (bs, []) := by
  subst h
  have := readBytesN_append bs []
  rwa [List.append_nil] at this

/-- Bounds every decoded `FD` block satisfies. -/
def InvFD (v : FeatFDS) : Prop :=
  v.mod_speed < 4294967296 ∧ v.mod_depth < 4294967296 ∧ v.mod_table.length = 32

theorem decodeFD_inv {block : List Nat} {v : FeatFDS} {l : List Nat}
    (hb : Bounded block) (h : decodeFD block = .ok (v, l)) : InvFD v := by
  simp only [decodeFD, bind, Except.bind] at h
  match h0 : readInt block with
  | .error e => rw [h0] at h; simp at h
  | .ok (spd, s0) =>
  rw [h0] at h
  dsimp only at h
  match h1 : readInt s0 with
  | .error e => rw [h1] at h; simp at h
  | .ok (dep, s1) =>
  rw [h1] at h
  dsimp only at h
  match h2 : readByte s1 with
  | .error e => rw [h2] at h; simp at h
  | .ok (ini, s2) =>
  rw [h2] at h
  dsimp only at h
  match h3 : readBytesN 32 s2 with
  | .error e => rw [h3] at h; simp at h
  | .ok (tbl, s3) =>
  rw [h3] at h
  dsimp only at h
  simp at h
  obtain ⟨hv, hl⟩ := h
  subst hv
  have hb0 := readInt_bd hb h0
  have hb1 := readInt_bd hb0.2 h1
  exact ⟨hb0.1, hb1.1, (readBytesN_ok h3).2⟩

theorem decodeFD_rt (v : FeatFDS) (hv : InvFD v) :
    decodeFD (encodeFDBody v) = .ok (v, []) := by
  obtain ⟨spd, dep, ini, tbl⟩ := v
  obtain ⟨h1, h2, h3⟩ := hv
  simp only at h1 h2 h3
  have hself : readBytesN 32 tbl = .ok (tbl, []) := readBytesN_self h3
  have q1 := btn_le ini
  simp [encodeFDBody, u32le, decodeFD, readInt, readByte, bind, Except.bind, hself,
    btn_bne]
  and_intros <;> omega

/-- Shape and bounds every decoded `WS` block satisfies. -/
def InvWS (v : FeatWaveSynth) : Prop :=
  (∃ i0 i1, v.wave_indices = [i0, i1] ∧ i0 < 4294967296 ∧ i1 < 4294967296) ∧
  (v.effect ≤ 6 ∨ (128 ≤ v.effect ∧ v.effect ≤ 136)) ∧
  (∃ p0 p1 p2 p3, v.params = [p0, p1, p2, p3]) ∧ v.one_shot = false

theorem decodeWS_inv {block : List Nat} {v : FeatWaveSynth} {l : List Nat}
    (hb : Bounded block) (h : decodeWS block = .ok (v, l)) : InvWS v := by
  simp only [decodeWS, bind, Except.bind] at h
  match h0 : readInt block with
  | .error e => rw [h0] at h; simp at h
  | .ok (i0, s0) =>
  rw [h0] at h
  dsimp only at h
  match h1 : readInt s0 with
  | .error e => rw [h1] at h; simp at h
  | .ok (i1, s1) =>
  rw [h1] at h
  dsimp only at h
  match h2 : readByte s1 with
  | .error e => rw [h2] at h; simp at h
  | .ok (rd, s2) =>
  rw [h2] at h
  dsimp only at h
  match h3 : readByte s2 with
  | .error e => rw [h3] at h; simp at h
  | .ok (fx, s3) =>
  rw [h3] at h
  dsimp only at h
  by_cases hfx : fx ≤ 6 ∨ (128 ≤ fx ∧ fx ≤ 136)
  case neg => rw [if_neg hfx] at h; simp at h
  rw [if_pos hfx] at h
  match h4 : readByte s3 with
  | .error e => rw [h4] at h; simp at h
  | .ok (en, s4) =>
  rw [h4] at h
  dsimp only at h
  match h5 : readByte s4 with
  | .error e => rw [h5] at h; simp at h
  | .ok (ge, s5) =>
  rw [h5] at h
  dsimp only at h
  match h6 : readByte s5 with
  | .error e => rw [h6] at h; simp at h
  | .ok (sp, s6) =>
  rw [h6] at h
  dsimp only at h
  match h7 : readByte s6 with
  | .error e => rw [h7] at h; simp at h
  | .ok (p0, s7) =>
  rw [h7] at h
  dsimp only at h
  match h8 : readByte s7 with
  | .error e => rw [h8] at h; simp at h
  | .ok (p1, s8) =>
  rw [h8] at h
  dsimp only at h
  match h9 : readByte s8 with
  | .error e => rw [h9] at h; simp at h
  | .ok (p2, s9) =>
  rw [h9] at h
  dsimp only at h
  match h10 : readByte s9 with
  | .error e => rw [h10] at h; simp at h
  | .ok (p3, s10) =>
  rw [h10] at h
  dsimp only at h
  simp at h
  obtain ⟨hv, hl⟩ := h
  subst hv
  have hb0 := readInt_bd hb h0
  have hb1 := readInt_bd hb0.2 h1
  exact ⟨⟨i0, i1, rfl, hb0.1, hb1.1⟩, hfx, ⟨p0, p1, p2, p3, rfl⟩, rfl⟩

theorem decodeWS_rt (v : FeatWaveSynth) (hv : InvWS v) :
    decodeWS (encodeWSBody v) = .ok (v, []) := by
  obtain ⟨wis, rd, fx, en, ge, sp, ps, oneShot⟩ := v
  obtain ⟨⟨i0, i1, hwi, hi0, hi1⟩, hfx, ⟨p0, p1, p2, p3, hps⟩, hos⟩ := hv
  simp only at hwi hfx hps hos
  subst hwi
  subst hps
  subst hos
  have q1 := btn_le en
  have q2 := btn_le ge
  simp only [encodeWSBody, List.map_cons, List.map_nil, List.flatten_cons,
    List.flatten_nil, u32le, List.cons_append, List.nil_append, List.append_nil]
  simp only [decodeWS, bind, Except.bind, readInt, readByte]
  rw [if_pos hfx]
  simp [and1, mod2_bne]
  and_intros <;>
    first
      | rfl
      | omega
      | (exact beq_one_btn _ _ (by omega))
      | (exact (beq_one_btn _ _ (by omega)).symm)

theorem readPairs16_inv : ∀ (n : Nat) {s s' : List Nat} {ps : List (Nat × Nat)},
    Bounded s → readPairs16 n s = .ok (ps, s') →
    (∀ p ∈ ps, p.1 < 65536 ∧ p.2 < 65536) ∧ ps.length = n := by
  intro n
  induction n with
  | zero =>
      intro s s' ps hb h
      simp [readPairs16] at h
      obtain ⟨h1, h2⟩ := h
      subst h1
      refine ⟨?_, rfl⟩
      intro p hp
      cases hp
  | succ n ih =>
      intro s s' ps hb h
      simp only [readPairs16, bind, Except.bind] at h
      match h0 : readShort s with
      | .error e => rw [h0] at h; simp at h
      | .ok (a, s0) =>
      rw [h0] at h
      dsimp only at h
      match h1 : readShort s0 with
      | .error e => rw [h1] at h; simp at h
      | .ok (b, s1) =>
      rw [h1] at h
      dsimp only at h
      match h2 : readPairs16 n s1 with
      | .error e => rw [h2] at h; simp at h
      | .ok (rest, s2) =>
      rw [h2] at h
      simp at h
      obtain ⟨hps, hs⟩ := h
      subst hps
      have hb0 := readShort_bd hb h0
      have hb1 := readShort_bd hb0.2 h1
      obtain ⟨hrest, hlen⟩ := ih hb1.2 h2
      refine ⟨?_, by simp [hlen]⟩
      intro p hp
      rcases List.mem_cons.mp hp with hp | hp
      · subst hp
        exact ⟨hb0.1, hb1.1⟩
      · exact hrest p hp

theorem readPairs16_enc : ∀ (ps : List (Nat × Nat)),
    (∀ p ∈ ps, p.1 < 65536 ∧ p.2 < 65536) → ∀ (r : List Nat),
    readPairs16 ps.length ((ps.map fun p => u16le p.1 ++ u16le p.2).flatten ++ r)
      = .ok (ps, r) := by
  intro ps
  induction ps with
  | nil => intro _ r; simp [readPairs16]
  | cons p t ih =>
      intro h r
      have hp := h p (List.mem_cons_self p t)
      have ht := fun q hq => h q (List.mem_cons_of_mem p hq)
      simp only [List.length_cons, List.map_cons, List.flatten_cons, List.append_assoc,
        readPairs16, bind, Except.bind]
      rw [readShort_u16le _ hp.1]
      try dsimp only
      rw [readShort_u16le _ hp.2]
      try dsimp only
      rw [ih ht r]

theorem readPairs8_inv : ∀ (n : Nat) {s s' : List Nat} {ps : List (Nat × Nat)},
    readPairs8 n s = .ok (ps, s') → ps.length = n := by
  intro n
  induction n with
  | zero =>
      intro s s' ps h
      simp [readPairs8] at h
      simp [← h.1]
  | succ n ih =>
      intro s s' ps h
      simp only [readPairs8, bind, Except.bind] at h
      match h0 : readByte s with
      | .error e => rw [h0] at h; simp at h
      | .ok (a, s0) =>
      rw [h0] at h
      dsimp only at h
      match h1 : readByte s0 with
      | .error e => rw [h1] at h; simp at h
      | .ok (b, s1) =>
      rw [h1] at h
      dsimp only at h
      match h2 : readPairs8 n s1 with
      | .error e => rw [h2] at h; simp at h
      | .ok (rest, s2) =>
      rw [h2] at h
      simp at h
      obtain ⟨hps, hs⟩ := h
      subst hps
      simp [ih h2]

theorem readPairs8_enc : ∀ (ps : List (Nat × Nat)) (r : List Nat),
    readPairs8 ps.length ((ps.map fun p => [p.1, p.2]).flatten ++ r) = .ok (ps, r) := by
  intro ps
  induction ps with
  | nil => intro r; simp [readPairs8]
  | cons p t ih =>
      intro r
      simp only [List.length_cons, List.map_cons, List.flatten_cons, List.cons_append,
        List.nil_append, readPairs8, bind, Except.bind, readByte]
      rw [ih r]

/-- Shape and bounds every decoded `SM` block satisfies. -/
def InvSM (v : FeatAmiga) : Prop :=
  v.init_sample < 65536 ∧
  (v.use_note_map = true →
    (∀ p ∈ v.sample_map, p.1 < 65536 ∧ p.2 < 65536) ∧ v.sample_map.length = 120) ∧
  (v.use_note_map = false → v.sample_map = List.replicate 120 (0, 0))

theorem decodeSM_inv {block : List Nat} {v : FeatAmiga} {l : List Nat}
    (hb : Bounded block) (h : decodeSM block = .ok (v, l)) : InvSM v := by
  simp only [decodeSM, bind, Except.bind] at h
  match h0 : readShort block with
  | .error e => rw [h0] at h; simp at h
  | .ok (init, s0) =>
  rw [h0] at h
  dsimp only at h
  match h1 : readByte s0 with
  | .error e => rw [h1] at h; simp at h
  | .ok (cur, s1) =>
  rw [h1] at h
  dsimp only at h
  match h2 : readByte s1 with
  | .error e => rw [h2] at h; simp at h
  | .ok (wl, s2) =>
  rw [h2] at h
  dsimp only at h
  have hb0 := readShort_bd hb h0
  have hb1 := readByte_bd hb0.2 h1
  have hb2 := readByte_bd hb1.2 h2
  by_cases hmap : (cur &&& 1 != 0) = true
  · rw [if_pos hmap] at h
    match h3 : readPairs16 120 s2 with
    | .error e => rw [h3] at h; simp at h
    | .ok (sm, s3) =>
    rw [h3] at h
    dsimp only at h
    simp at h
    obtain ⟨hv, hl⟩ := h
    subst hv
    obtain ⟨hbp, hpl⟩ := readPairs16_inv 120 hb2.2 h3
    refine ⟨hb0.1, ?_, ?_⟩
    · intro _
      exact ⟨hbp, hpl⟩
    · intro hfalse
      simp only at hfalse
      rw [and1, mod2_bne] at hmap
      rw [hmap] at hfalse
      cases hfalse
  · rw [if_neg hmap] at h
    simp at h
    obtain ⟨hv, hl⟩ := h
    subst hv
    refine ⟨hb0.1, ?_, ?_⟩
    · intro htrue
      simp only at htrue
      rw [and1, mod2_bne] at hmap
      exact absurd htrue hmap
    · intro _
      rfl

theorem decodeSM_rt (v : FeatAmiga) (hv : InvSM v) :
    decodeSM (encodeSMBody v) = .ok (v, []) := by
  obtain ⟨init, unm, usmp, uwav, wl, smap⟩ := v
  obtain ⟨hinit, htrue, hfalse⟩ := hv
  simp only at hinit htrue hfalse
  have q1 := btn_le unm
  have q2 := btn_le usmp
  have q3 := btn_le uwav
  have hcond : ((btn uwav * 4 + btn usmp * 2 + btn unm) &&& 1 != 0) = unm := by
    rw [and1, mod2_bne]
    exact beq_one_btn _ _ (by omega)
  cases unm with
  | false =>
      have hmap := hfalse rfl
      subst hmap
      simp only [encodeSMBody, u16le, if_false, List.cons_append, List.nil_append,
        List.append_nil, Bool.false_eq_true]
      simp only [decodeSM, bind, Except.bind, readShort, readByte]
      try dsimp only
      rw [hcond]
      simp [shr1, shr2, and1, mod2_bne]
      and_intros <;>
        first
          | rfl
          | omega
          | (exact beq_one_btn _ _ (by omega))
          | (exact (beq_one_btn _ _ (by omega)).symm)
  | true =>
      obtain ⟨hbp, hpl⟩ := htrue rfl
      have henc := readPairs16_enc smap hbp []
      rw [List.append_nil, hpl] at henc
      simp only [u16le, List.cons_append, List.nil_append] at henc
      simp only [encodeSMBody, u16le, if_true, List.cons_append, List.nil_append]
      simp only [decodeSM, bind, Except.bind, readShort, readByte]
      try dsimp only
      rw [hcond]
      simp only [if_true]
      rw [henc]
      simp [shr1, shr2, and1, mod2_bne]
      and_intros <;>
        first
          | rfl
          | omega
          | (exact beq_one_btn _ _ (by omega))
          | (exact (beq_one_btn _ _ (by omega)).symm)

/-- Shape every decoded `NE` block satisfies. -/
def InvNE (v : FeatDPCMMap) : Prop :=
  (v.use_map = true → v.sample_map.length = 120) ∧
  (v.use_map = false → v.sample_map = List.replicate 120 (0, 0))

theorem decodeNE_inv {block : List Nat} {v : FeatDPCMMap} {l : List Nat}
    (h : decodeNE block = .ok (v, l)) : InvNE v := by
  simp only [decodeNE, bind, Except.bind] at h
  match h0 : readByte block with
  | .error e => rw [h0] at h; simp at h
  | .ok (b0, s0) =>
  rw [h0] at h
  dsimp only at h
  by_cases hmap : (b0 &&& 1 != 0) = true
  · rw [if_pos hmap] at h
    match h1 : readPairs8 120 s0 with
    | .error e => rw [h1] at h; simp at h
    | .ok (sm, s1) =>
    rw [h1] at h
    dsimp only at h
    simp at h
    obtain ⟨hv, hl⟩ := h
    subst hv
    refine ⟨fun _ => readPairs8_inv 120 h1, fun hfalse => ?_⟩
    simp only at hfalse
    rw [and1, mod2_bne] at hmap
    rw [hmap] at hfalse
    cases hfalse
  · rw [if_neg hmap] at h
    simp at h
    obtain ⟨hv, hl⟩ := h
    subst hv
    refine ⟨fun htrue => ?_, fun _ => rfl⟩
    simp only at htrue
    rw [and1, mod2_bne] at hmap
    exact absurd htrue hmap

theorem decodeNE_rt (v : FeatDPCMMap) (hv : InvNE v) :
    decodeNE (encodeNEBody v) = .ok (v, []) := by
  obtain ⟨um, smap⟩ := v
  obtain ⟨htrue, hfalse⟩ := hv
  simp only at htrue hfalse
  have hcond : (btn um &&& 1 != 0) = um := by
    rw [and1, mod2_bne]
    have := btn_le um
    exact beq_one_btn _ _ (by omega)
  cases um with
  | false =>
      have hmap := hfalse rfl
      subst hmap
      simp only [encodeNEBody, if_false, List.append_nil, Bool.false_eq_true]
      simp only [decodeNE, bind, Except.bind, readByte]
      try dsimp only
      rw [hcond]
      simp
  | true =>
      have hpl := htrue rfl
      simp only [encodeNEBody, if_true, List.cons_append, List.nil_append]
      simp only [decodeNE, bind, Except.bind, readByte]
      try dsimp only
      rw [hcond]
      simp only [if_true]
      have henc := readPairs8_enc smap []
      rw [List.append_nil] at henc
      rw [← hpl, henc]

/-- Shape and bounds every decoded `GB` block satisfies. -/
def InvGB (v : FeatGB) : Prop :=
  v.env_vol ≤ 15 ∧ v.env_dir ≤ 1 ∧ v.env_len ≤ 7 ∧ v.hw_seq.length ≤ 255 ∧
  ∀ e ∈ v.hw_seq, e.command ≤ 5 ∧ ∃ d1 d2, e.data = [d1, d2]

theorem readGBSeq_len : ∀ (n : Nat) {s s' : List Nat} {seq : List GBHwSeq},
    readGBSeq n s = .ok (seq, s') → seq.length = n := by
  intro n
  induction n with
  | zero =>
      intro s s' seq h
      simp [readGBSeq] at h
      rw [h.1]
      rfl
  | succ n ih =>
      intro s s' seq h
      simp only [readGBSeq, bind, Except.bind] at h
      match h0 : readByte s with
      | .error e => rw [h0] at h; simp at h
      | .ok (cmd, s0) =>
      rw [h0] at h
      dsimp only at h
      by_cases hcmd : cmd ≤ 5
      case neg => rw [if_neg hcmd] at h; simp at h
      rw [if_pos hcmd] at h
      match h1 : readByte s0 with
      | .error e => rw [h1] at h; simp at h
      | .ok (d1, s1) =>
      rw [h1] at h
      dsimp only at h
      match h2 : readByte s1 with
      | .error e => rw [h2] at h; simp at h
      | .ok (d2, s2) =>
      rw [h2] at h
      dsimp only at h
      match h3 : readGBSeq n s2 with
      | .error e => rw [h3] at h; simp at h
      | .ok (rest, s3) =>
      rw [h3] at h
      simp at h
      obtain ⟨hseq, hs⟩ := h
      subst hseq
      simp [ih h3]

theorem readGBSeq_inv : ∀ (n : Nat) {s s' : List Nat} {seq : List GBHwSeq},
    readGBSeq n s = .ok (seq, s') →
    ∀ e ∈ seq, e.command ≤ 5 ∧ ∃ d1 d2, e.data = [d1, d2] := by
  intro n
  induction n with
  | zero =>
      intro s s' seq h
      simp [readGBSeq] at h
      rw [h.1]
      intro e he
      cases he
  | succ n ih =>
      intro s s' seq h
      simp only [readGBSeq, bind, Except.bind] at h
      match h0 : readByte s with
      | .error e => rw [h0] at h; simp at h
      | .ok (cmd, s0) =>
      rw [h0] at h
      dsimp only at h
      by_cases hcmd : cmd ≤ 5
      case neg => rw [if_neg hcmd] at h; simp at h
      rw [if_pos hcmd] at h
      match h1 : readByte s0 with
      | .error e => rw [h1] at h; simp at h
      | .ok (d1, s1) =>
      rw [h1] at h
      dsimp only at h
      match h2 : readByte s1 with
      | .error e => rw [h2] at h; simp at h
      | .ok (d2, s2) =>
      rw [h2] at h
      dsimp only at h
      match h3 : readGBSeq n s2 with
      | .error e => rw [h3] at h; simp at h
      | .ok (rest, s3) =>
      rw [h3] at h
      simp at h
      obtain ⟨hseq, hs⟩ := h
      subst hseq
      intro e he
      rcases List.mem_cons.mp he with he | he
      · subst he
        exact ⟨hcmd, d1, d2, rfl⟩
      · exact ih h3 e he

theorem readGBSeq_enc : ∀ (seq : List GBHwSeq),
    (∀ e ∈ seq, e.command ≤ 5 ∧ ∃ d1 d2, e.data = [d1, d2]) → ∀ (r : List Nat),
    readGBSeq seq.length ((seq.map fun e => e.command :: e.data).flatten ++ r)
      = .ok (seq, r) := by
  intro seq
  induction seq with
  | nil => intro _ r; simp [readGBSeq]
  | cons e t ih =>
      intro h r
      obtain ⟨hcmd, d1, d2, hdata⟩ := h e (List.mem_cons_self e t)
      obtain ⟨cmd, data⟩ := e
      simp only at hcmd hdata
      subst hdata
      simp only [List.length_cons, List.map_cons, List.flatten_cons, List.cons_append,
        List.nil_append, readGBSeq, bind, Except.bind, readByte]
      try dsimp only
      rw [if_pos hcmd]
      try dsimp only
      rw [ih (fun x hx => h x (List.mem_cons_of_mem _ hx)) r]

theorem decodeGB_inv {block : List Nat} {v : FeatGB} {l : List Nat}
    (hb : Bounded block) (h : decodeGB block = .ok (v, l)) : InvGB v := by
  simp only [decodeGB, bind, Except.bind] at h
  match h0 : readByte block with
  | .error e => rw [h0] at h; simp at h
  | .ok (b0, s0) =>
  rw [h0] at h
  dsimp only at h
  match h1 : readByte s0 with
  | .error e => rw [h1] at h; simp at h
  | .ok (b1, s1) =>
  rw [h1] at h
  dsimp only at h
  match h2 : readByte s1 with
  | .error e => rw [h2] at h; simp at h
  | .ok (b2, s2) =>
  rw [h2] at h
  dsimp only at h
  match h3 : readByte s2 with
  | .error e => rw [h3] at h; simp at h
  | .ok (b3, s3) =>
  rw [h3] at h
  dsimp only at h
  match h4 : readGBSeq b3 s3 with
  | .error e => rw [h4] at h; simp at h
  | .ok (seq, s4) =>
  rw [h4] at h
  dsimp only at h
  simp at h
  obtain ⟨hv, hl⟩ := h
  subst hv
  obtain ⟨hb0, hbb⟩ := readByte_bd hb h0
  obtain ⟨hb1, hbb⟩ := readByte_bd hbb h1
  obtain ⟨hb2, hbb⟩ := readByte_bd hbb h2
  obtain ⟨hb3, hbb⟩ := readByte_bd hbb h3
  refine ⟨?_, ?_, ?_, ?_, readGBSeq_inv b3 h4⟩
  · show b0 &&& 15 ≤ 15
    rw [and15]; omega
  · show b0 >>> 4 % 2 ≤ 1
    omega
  · show b0 >>> 5 &&& 7 ≤ 7
    rw [and7]; omega
  · show seq.length ≤ 255
    rw [readGBSeq_len b3 h4]
    omega

theorem decodeGB_rt (v : FeatGB) (hv : InvGB v) :
    decodeGB (encodeGBBody v) = .ok (v, []) := by
  obtain ⟨ev, edir, elen, slen, senv, ainit, seq⟩ := v
  obtain ⟨h1, h2, h3, hsl, h4⟩ := hv
  simp only at h1 h2 h3 hsl h4
  have q1 := btn_le senv
  have q2 := btn_le ainit
  have henc := readGBSeq_enc seq h4 []
  rw [List.append_nil] at henc
  simp only [encodeGBBody, List.cons_append, List.nil_append]
  simp only [decodeGB, bind, Except.bind, readByte]
  try dsimp only
  rw [henc]
  simp [shr1, shr4, shr5, and1, and7, and15, mod2_bne]
  and_intros <;>
    first
      | rfl
      | omega
      | (exact beq_one_btn _ _ (by omega))
      | (exact (beq_one_btn _ _ (by omega)).symm)

/-- Shape and bounds every decoded `SN` block satisfies (at a given header
version). -/
def InvSN (ver : Nat) (v : FeatSNES) : Prop :=
  v.envelope.a ≤ 15 ∧ v.envelope.d ≤ 15 ∧ v.envelope.s ≤ 15 ∧ v.envelope.r ≤ 15 ∧
  (v.gain_mode = 0 ∨ (4 ≤ v.gain_mode ∧ v.gain_mode ≤ 7)) ∧
  (131 ≤ ver → v.sus ≤ 3 ∧ v.d2 ≤ 31) ∧
  (¬ 131 ≤ ver → v.sus ≤ 1 ∧ v.d2 = 0)

theorem decodeSN_inv {ver : Nat} {block : List Nat} {v : FeatSNES} {l : List Nat}
    (h : decodeSN ver block = .ok (v, l)) : InvSN ver v := by
  simp only [decodeSN, bind, Except.bind] at h
  match h0 : readByte block with
  | .error e => rw [h0] at h; simp at h
  | .ok (b0, s0) =>
  rw [h0] at h
  dsimp only at h
  match h1 : readByte s0 with
  | .error e => rw [h1] at h; simp at h
  | .ok (b1, s1) =>
  rw [h1] at h
  dsimp only at h
  match h2 : readByte s1 with
  | .error e => rw [h2] at h; simp at h
  | .ok (b2, s2) =>
  rw [h2] at h
  dsimp only at h
  match h3 : readByte s2 with
  | .error e => rw [h3] at h; simp at h
  | .ok (b3, s3) =>
  rw [h3] at h
  dsimp only at h
  have hgm7 : (if b2 < 4 then 0 else b2 &&& 7) ≤ 7 := by
    split
    · omega
    · rw [and7]; omega
  by_cases hval : (if b2 < 4 then 0 else b2 &&& 7) = 0 ∨ 4 ≤ (if b2 < 4 then 0 else b2 &&& 7)
  case neg => rw [if_neg hval] at h; simp at h
  rw [if_pos hval] at h
  by_cases hver : 131 ≤ ver
  · rw [if_pos hver] at h
    match h4 : readByte s3 with
    | .error e => rw [h4] at h; simp at h
    | .ok (d2s, s4) =>
    rw [h4] at h
    dsimp only at h
    simp at h
    obtain ⟨hv, hl⟩ := h
    subst hv
    refine ⟨?_, ?_, ?_, ?_, ?_, fun _ => ⟨?_, ?_⟩, fun hbad => absurd hver hbad⟩
    · show b0 &&& 15 ≤ 15
      rw [and15]; omega
    · show b0 >>> 4 &&& 15 ≤ 15
      rw [and15]; omega
    · show b1 >>> 4 &&& 15 ≤ 15
      rw [and15]; omega
    · show b1 &&& 15 ≤ 15
      rw [and15]; omega
    · show _ = 0 ∨ 4 ≤ _ ∧ _ ≤ 7
      rcases hval with hz | hge
      · left; exact hz
      · right; exact ⟨hge, hgm7⟩
    · show d2s >>> 5 &&& 3 ≤ 3
      rw [and3]; omega
    · show d2s &&& 31 ≤ 31
      rw [and31]; omega
  · rw [if_neg hver] at h
    simp at h
    obtain ⟨hv, hl⟩ := h
    subst hv
    refine ⟨?_, ?_, ?_, ?_, ?_, fun hc => absurd hc hver, fun _ => ⟨?_, rfl⟩⟩
    · show b0 &&& 15 ≤ 15
      rw [and15]; omega
    · show b0 >>> 4 &&& 15 ≤ 15
      rw [and15]; omega
    · show b1 >>> 4 &&& 15 ≤ 15
      rw [and15]; omega
    · show b1 &&& 15 ≤ 15
      rw [and15]; omega
    · show _ = 0 ∨ 4 ≤ _ ∧ _ ≤ 7
      rcases hval with hz | hge
      · left; exact hz
      · right; exact ⟨hge, hgm7⟩
    · show b2 >>> 3 % 2 ≤ 1
      omega

theorem decodeSN_rt (ver : Nat) (v : FeatSNES) (hv : InvSN ver v) :
    decodeSN ver (encodeSNBody ver v) = .ok (v, []) := by
  obtain ⟨ue, sus, gm, gain, d2, env⟩ := v
  obtain ⟨ea, ed, es0, er⟩ := env
  obtain ⟨ha, hd, hs, hr, hgm, h131, hn131⟩ := hv
  simp only at ha hd hs hr hgm h131 hn131
  have qu := btn_le ue
  have e_gm : (if (btn ue * 16 + sus % 2 * 8 + gm : Nat) < 4 then 0
      else (btn ue * 16 + sus % 2 * 8 + gm) &&& 7) = gm := by
    rcases hgm with hgm0 | hgm4
    · subst hgm0
      split
      · rfl
      · rw [and7]; omega
    · rw [if_neg (by omega), and7]
      omega
  have hcond : (if (btn ue * 16 + sus % 2 * 8 + gm : Nat) < 4 then 0
      else (btn ue * 16 + sus % 2 * 8 + gm) &&& 7) = 0
      ∨ 4 ≤ (if (btn ue * 16 + sus % 2 * 8 + gm : Nat) < 4 then 0
      else (btn ue * 16 + sus % 2 * 8 + gm) &&& 7) := by
    rw [e_gm]
    rcases hgm with hgm0 | hgm4
    · left; exact hgm0
    · right; exact hgm4.1
  by_cases hver : 131 ≤ ver
  · obtain ⟨hsus, hd2⟩ := h131 hver
    simp only [encodeSNBody, if_pos hver, List.cons_append, List.nil_append,
      List.append_nil]
    simp only [decodeSN, bind, Except.bind, readByte]
    try dsimp only
    rw [if_pos hcond, if_pos hver]
    try dsimp only
    rw [e_gm]
    simp [shr3, shr4, shr5, and1, and3, and15, and31, mod2_bne]
    and_intros <;>
      first
        | rfl
        | omega
        | (exact beq_one_btn _ _ (by omega))
        | (exact (beq_one_btn _ _ (by omega)).symm)
  · obtain ⟨hsus, hd2⟩ := hn131 hver
    subst hd2
    simp only [encodeSNBody, if_neg hver, List.append_nil]
    simp only [decodeSN, bind, Except.bind, readByte]
    try dsimp only
    rw [if_pos hcond, if_neg hver]
    try dsimp only
    rw [e_gm]
    simp [shr3, shr4, shr5, and1, and3, and15, and31, mod2_bne]
    and_intros <;>
      first
        | rfl
        | omega
        | (exact beq_one_btn _ _ (by omega))
        | (exact (beq_one_btn _ _ (by omega)).symm)

/-- Bounds every (loaded or default) FM operator satisfies. -/
def OpInv (o : FMOperator) : Prop :=
  o.ar ≤ 31 ∧ o.dr ≤ 31 ∧ o.mult ≤ 15 ∧ o.rr ≤ 15 ∧ o.sl ≤ 15 ∧ o.tl ≤ 127 ∧
  o.dt2 ≤ 3 ∧ o.rs ≤ 3 ∧ o.dt ≤ 7 ∧ o.d2r ≤ 31 ∧ o.ssg_env ≤ 15 ∧ o.dam ≤ 7 ∧
  o.dvb ≤ 15 ∧ o.ksl ≤ 3 ∧ o.ws ≤ 7 ∧ o.kvs ≤ 3

/-- Shape and bounds every decoded `FM` block satisfies. -/
def InvFM (v : FeatFM) : Prop :=
  v.alg ≤ 7 ∧ v.fb ≤ 7 ∧ v.fms ≤ 7 ∧ v.ams ≤ 3 ∧ v.fms2 ≤ 7 ∧ v.ams2 ≤ 3 ∧
  (v.ops = 2 ∨ v.ops = 4) ∧ v.opll_preset ≤ 31 ∧
  ∃ o0 o1 o2 o3, v.op_list = [o0, o1, o2, o3]
    ∧ OpInv o0 ∧ OpInv o1 ∧ OpInv o2 ∧ OpInv o3

theorem setOpBytes_opInv (op : FMOperator) (b0 b1 b2 b3 b4 b5 b6 b7 : Nat) :
    OpInv (setOpBytes op b0 b1 b2 b3 b4 b5 b6 b7) := by
  unfold OpInv setOpBytes
  refine ⟨?_, ?_, ?_, ?_, ?_, ?_, ?_, ?_, ?_, ?_, ?_, ?_, ?_, ?_, ?_, ?_⟩ <;>
    simp only [and1, and3, and7, and15, and31, and127] <;> omega

theorem list_len_four {α : Type} {l : List α} (h : l.length = 4) :
    ∃ a b c d, l = [a, b, c, d] := by
  rcases l with _ | ⟨a, l⟩
  · simp at h
  rcases l with _ | ⟨b, l⟩
  · simp at h
  rcases l with _ | ⟨c, l⟩
  · simp at h
  rcases l with _ | ⟨d, l⟩
  · simp at h
  rcases l with _ | ⟨e, l⟩
  · exact ⟨a, b, c, d, rfl⟩
  · simp only [List.length_cons] at h
    omega

theorem readFMOpsLoop_inv : ∀ (count idx : Nat) {ops opl : List FMOperator}
    {s s' : List Nat}, (∀ o ∈ ops, OpInv o) →
    readFMOpsLoop count idx ops s = .ok (opl, s') →
    (∀ o ∈ opl, OpInv o) ∧ opl.length = ops.length := by
  intro count
  induction count with
  | zero =>
      intro idx ops opl s s' hops h
      simp [readFMOpsLoop] at h
      obtain ⟨h1, h2⟩ := h
      subst h1
      exact ⟨hops, rfl⟩
  | succ count ih =>
      intro idx ops opl s s' hops h
      simp only [readFMOpsLoop, bind, Except.bind] at h
      match h0 : readByte s with
      | .error e => rw [h0] at h; simp at h
      | .ok (b0, t0) =>
      rw [h0] at h
      try dsimp only at h
      match h1 : readByte t0 with
      | .error e => rw [h1] at h; simp at h
      | .ok (b1, t1) =>
      rw [h1] at h
      try dsimp only at h
      match h2 : readByte t1 with
      | .error e => rw [h2] at h; simp at h
      | .ok (b2, t2) =>
      rw [h2] at h
      try dsimp only at h
      match h3 : readByte t2 with
      | .error e => rw [h3] at h; simp at h
      | .ok (b3, t3) =>
      rw [h3] at h
      try dsimp only at h
      match h4 : readByte t3 with
      | .error e => rw [h4] at h; simp at h
      | .ok (b4, t4) =>
      rw [h4] at h
      try dsimp only at h
      match h5 : readByte t4 with
      | .error e => rw [h5] at h; simp at h
      | .ok (b5, t5) =>
      rw [h5] at h
      try dsimp only at h
      match h6 : readByte t5 with
      | .error e => rw [h6] at h; simp at h
      | .ok (b6, t6) =>
      rw [h6] at h
      try dsimp only at h
      match h7 : readByte t6 with
      | .error e => rw [h7] at h; simp at h
      | .ok (b7, t7) =>
      rw [h7] at h
      try dsimp only at h
      by_cases hidx : idx < ops.length
      · rw [dif_pos hidx] at h
        have hnew : ∀ o ∈ ops.set idx (setOpBytes (ops.get ⟨idx, hidx⟩)
            b0 b1 b2 b3 b4 b5 b6 b7), OpInv o := by
          intro o ho
          rcases List.mem_or_eq_of_mem_set ho with ho | ho
          · exact hops o ho
          · subst ho
            exact setOpBytes_opInv _ _ _ _ _ _ _ _ _
        obtain ⟨ha, hb⟩ := ih (idx + 1) hnew h
        rw [List.length_set] at hb
        exact ⟨ha, hb⟩
      · rw [dif_neg hidx] at h
        simp at h

theorem decodeFM_inv {block : List Nat} {v : FeatFM} {l : List Nat}
    (h : decodeFM block = .ok (v, l)) : InvFM v := by
  simp only [decodeFM, bind, Except.bind] at h
  match h0 : readByte block with
  | .error e => rw [h0] at h; simp at h
  | .ok (b0, s0) =>
  rw [h0] at h
  try dsimp only at h
  match h1 : readByte s0 with
  | .error e => rw [h1] at h; simp at h
  | .ok (b1, s1) =>
  rw [h1] at h
  try dsimp only at h
  match h2 : readByte s1 with
  | .error e => rw [h2] at h; simp at h
  | .ok (b2, s2) =>
  rw [h2] at h
  try dsimp only at h
  match h3 : readByte s2 with
  | .error e => rw [h3] at h; simp at h
  | .ok (b3, s3) =>
  rw [h3] at h
  try dsimp only at h
  match h4 : readFMOpsLoop (b0 &&& 15) 0
      [{ defaultOp1 with enable := b0 &&& 16 != 0 },
       { defaultOp2 with enable := b0 &&& 32 != 0 },
       { defaultOp3 with enable := b0 &&& 64 != 0 },
       { defaultOp4 with enable := b0 &&& 128 != 0 }] s3 with
  | .error e => rw [h4] at h; simp at h
  | .ok (opl, s4) =>
  rw [h4] at h
  try dsimp only at h
  simp at h
  obtain ⟨hv, hl⟩ := h
  subst hv
  have hbase : ∀ o ∈ [{ defaultOp1 with enable := b0 &&& 16 != 0 },
      { defaultOp2 with enable := b0 &&& 32 != 0 },
      { defaultOp3 with enable := b0 &&& 64 != 0 },
      { defaultOp4 with enable := b0 &&& 128 != 0 }], OpInv o := by
    intro o ho
    rcases List.mem_cons.mp ho with ho | ho
    · subst ho; unfold OpInv defaultOp1; norm_num
    rcases List.mem_cons.mp ho with ho | ho
    · subst ho; unfold OpInv defaultOp2; norm_num
    rcases List.mem_cons.mp ho with ho | ho
    · subst ho; unfold OpInv defaultOp3; norm_num
    rcases List.mem_cons.mp ho with ho | ho
    · subst ho; unfold OpInv defaultOp4; norm_num
    · cases ho
  obtain ⟨hinv, hlen⟩ := readFMOpsLoop_inv _ 0 hbase h4
  obtain ⟨o0, o1, o2, o3, hshape⟩ := list_len_four (by rw [hlen]; rfl)
  refine ⟨?_, ?_, ?_, ?_, ?_, ?_, ?_, ?_, o0, o1, o2, o3, hshape, ?_, ?_, ?_, ?_⟩
  · show b1 >>> 4 &&& 7 ≤ 7
    rw [and7]; omega
  · show b1 &&& 7 ≤ 7
    rw [and7]; omega
  · show b2 &&& 7 ≤ 7
    rw [and7]; omega
  · show b2 >>> 3 &&& 3 ≤ 3
    rw [and3]; omega
  · show b2 >>> 5 &&& 7 ≤ 7
    rw [and7]; omega
  · show b3 >>> 6 &&& 3 ≤ 3
    rw [and3]; omega
  · show (if b3 &&& 32 = 0 then 2 else 4) = 2 ∨ (if b3 &&& 32 = 0 then 2 else 4) = 4
    split
    · left; rfl
    · right; rfl
  · show b3 &&& 31 ≤ 31
    rw [and31]; omega
  · exact hinv o0 (by rw [hshape]; simp)
  · exact hinv o1 (by rw [hshape]; simp)
  · exact hinv o2 (by rw [hshape]; simp)
  · exact hinv o3 (by rw [hshape]; simp)

/-- Re-decoding an encoded operator recovers it (the base operator carries
the already-recovered `enable` flag; every other field is overwritten). -/
theorem setOpBytes_enc (d : FMOperator) (o : FMOperator) (ho : OpInv o) :
    setOpBytes { d with enable := o.enable } (btn o.ksr * 128 + o.dt * 16 + o.mult)
      (btn o.sus * 128 + o.tl) (o.rs * 64 + btn o.vib * 32 + o.ar)
      (btn o.am * 128 + o.ksl * 32 + o.dr) (btn o.egt * 128 + o.kvs * 32 + o.d2r)
      (o.sl * 16 + o.rr) (o.dvb * 16 + o.ssg_env) (o.dam * 32 + o.dt2 * 8 + o.ws)
      = o := by
  obtain ⟨am0, ar0, dr0, mult0, rr0, sl0, tl0, dt20, rs0, dt0, d2r0, ssg0, dam0,
    dvb0, egt0, ksl0, sus0, vib0, ws0, ksr0, en0, kvs0⟩ := o
  obtain ⟨q1, q2, q3, q4, q5, q6, q7, q8, q9, q10, q11, q12, q13, q14, q15, q16⟩ := ho
  simp only at q1 q2 q3 q4 q5 q6 q7 q8 q9 q10 q11 q12 q13 q14 q15 q16
  have w1 := btn_le am0
  have w2 := btn_le egt0
  have w3 := btn_le sus0
  have w4 := btn_le vib0
  have w5 := btn_le ksr0
  simp only [setOpBytes]
  simp [bne16, bne32, bne64, bne128, shr3, shr4, shr5, shr6, and3, and7, and15,
    and31, and127]
  and_intros <;>
    first
      | rfl
      | omega
      | (exact beq_one_btn _ _ (by omega))
      | (exact (beq_one_btn _ _ (by omega)).symm)

theorem and32_eq (x : Nat) : x &&& 32 = x / 32 % 2 * 32 := by
  have h := Nat.and_two_pow x 5
  rw [Nat.testBit_to_div_mod] at h
  norm_num at h
  by_cases h2 : x / 32 % 2 = 1
  · simp [h2] at h
    omega
  · simp [h2] at h
    omega

theorem decodeFM_rt (v : FeatFM) (hv : InvFM v) :
    decodeFM (encodeFMBody v) = .ok (v, []) := by
  obtain ⟨alg, fb, fms, ams, fms2, ams2, ops, opll, opl⟩ := v
  obtain ⟨h1, h2, h3, h4, h5, h6, hops, h8, o0, o1, o2, o3, hshape, ho0, ho1, ho2, ho3⟩
    := hv
  simp only at h1 h2 h3 h4 h5 h6 hops h8 hshape
  subst hshape
  have w0 := btn_le (o0.enable)
  have w1 := btn_le (o1.enable)
  have w2 := btn_le (o2.enable)
  have w3 := btn_le (o3.enable)
  have hbit0 : ((btn o3.enable * 128 + btn o2.enable * 64 + btn o1.enable * 32
      + btn o0.enable * 16 + 4) &&& 16 != 0) = o0.enable := by
    rw [bne16]
    exact beq_one_btn _ _ (by omega)
  have hbit1 : ((btn o3.enable * 128 + btn o2.enable * 64 + btn o1.enable * 32
      + btn o0.enable * 16 + 4) &&& 32 != 0) = o1.enable := by
    rw [bne32]
    exact beq_one_btn _ _ (by omega)
  have hbit2 : ((btn o3.enable * 128 + btn o2.enable * 64 + btn o1.enable * 32
      + btn o0.enable * 16 + 4) &&& 64 != 0) = o2.enable := by
    rw [bne64]
    exact beq_one_btn _ _ (by omega)
  have hbit3 : ((btn o3.enable * 128 + btn o2.enable * 64 + btn o1.enable * 32
      + btn o0.enable * 16 + 4) &&& 128 != 0) = o3.enable := by
    rw [bne128]
    exact beq_one_btn _ _ (by omega)
  have hcount : (btn o3.enable * 128 + btn o2.enable * 64 + btn o1.enable * 32
      + btn o0.enable * 16 + 4) &&& 15 = 4 := by
    rw [and15]
    omega
  simp only [encodeFMBody, encodeOp, List.getD_cons_zero, List.getD_cons_succ,
    List.cons_append, List.nil_append, List.append_nil]
  simp only [decodeFM, bind, Except.bind, readByte]
  try dsimp only
  rw [hcount, hbit0, hbit1, hbit2, hbit3]
  simp only [readFMOpsLoop, readByte, bind, Except.bind]
  norm_num [List.set]
  rw [setOpBytes_enc defaultOp1 o0 ho0, setOpBytes_enc defaultOp2 o1 ho1,
    setOpBytes_enc defaultOp3 o2 ho2, setOpBytes_enc defaultOp4 o3 ho3]
  rcases hops with hops | hops <;> subst hops <;>
    simp [bne32, and32_eq, shr3, shr4, shr5, shr6, and3, and7, and31] <;>
    and_intros <;> omega

theorem dedup_foldl_nodup : ∀ (ks acc : List Nat), acc.Nodup →
    (ks.foldl (fun acc k => if k ∈ acc then acc else acc ++ [k]) acc).Nodup := by
  intro ks
  induction ks with
  | nil => intro acc h; exact h
  | cons k t ih =>
      intro acc h
      simp only [List.foldl_cons]
      by_cases hk : k ∈ acc
      · rw [if_pos hk]
        exact ih acc h
      · rw [if_neg hk]
        refine ih _ ?_
        rw [List.nodup_append]
        refine ⟨h, List.nodup_singleton k, ?_⟩
        intro a ha hb
        rw [List.mem_singleton] at hb
        subst hb
        exact hk ha

theorem dedup_foldl_id : ∀ (ks acc : List Nat), (acc ++ ks).Nodup →
    ks.foldl (fun acc k => if k ∈ acc then acc else acc ++ [k]) acc = acc ++ ks := by
  intro ks
  induction ks with
  | nil => intro acc h; simp
  | cons k t ih =>
      intro acc h
      have hk : k ∉ acc := by
        rw [List.nodup_append] at h
        exact fun ha => h.2.2 ha (List.mem_cons_self k t)
      have hre : (acc ++ [k]) ++ t = acc ++ k :: t := by simp
      simp only [List.foldl_cons, if_neg hk]
      rw [ih (acc ++ [k]) (by rw [hre]; exact h), hre]

theorem dedup_foldl_length : ∀ (ks acc : List Nat),
    (ks.foldl (fun acc k => if k ∈ acc then acc else acc ++ [k]) acc).length
      ≤ acc.length + ks.length := by
  intro ks
  induction ks with
  | nil => intro acc; simp
  | cons k t ih =>
      intro acc
      simp only [List.foldl_cons, List.length_cons]
      by_cases hk : k ∈ acc
      · rw [if_pos hk]
        have := ih acc
        omega
      · rw [if_neg hk]
        have := ih (acc ++ [k])
        simp at this
        omega

theorem dedupFirst_length_le (ks : List Nat) : (dedupFirst ks).length ≤ ks.length := by
  have := dedup_foldl_length ks []
  simpa [dedupFirst] using this

theorem dedupFirst_nodup (ks : List Nat) : (dedupFirst ks).Nodup :=
  dedup_foldl_nodup ks [] List.nodup_nil

theorem dedupFirst_id (ks : List Nat) (h : ks.Nodup) : dedupFirst ks = ks := by
  have hd := dedup_foldl_id ks [] (by simpa using h)
  simpa [dedupFirst] using hd

theorem zip_fst_snd {α β : Type} (l : List (α × β)) :
    (l.map Prod.fst).zip (l.map Prod.snd) = l := by
  induction l with
  | nil => rfl
  | cons p t ih => simp [ih]

theorem readInts_inv : ∀ {n : Nat} {s s' vs : List Nat}, Bounded s →
    readInts n s = .ok (vs, s') →
    (∀ v ∈ vs, v < 4294967296) ∧ vs.length = n ∧ Bounded s' := by
  intro n
  induction n with
  | zero =>
      intro s s' vs hb h
      simp [readInts] at h
      obtain ⟨h1, h2⟩ := h
      subst h1
      subst h2
      exact ⟨by simp, rfl, hb⟩
  | succ n ih =>
      intro s s' vs hb h
      simp only [readInts, bind, Except.bind] at h
      match h0 : readInt s with
      | .error e => rw [h0] at h; simp at h
      | .ok (v, s0) =>
      rw [h0] at h
      try dsimp only at h
      match h1 : readInts n s0 with
      | .error e => rw [h1] at h; simp at h
      | .ok (vs0, s1) =>
      rw [h1] at h
      simp at h
      obtain ⟨hv, hl⟩ := h
      subst hv
      subst hl
      obtain ⟨hvb, hb0⟩ := readInt_bd hb h0
      obtain ⟨ha, hlen, hb1⟩ := ih hb0 h1
      refine ⟨?_, by simp [hlen], hb1⟩
      intro w hw
      rcases List.mem_cons.mp hw with hw | hw
      · subst hw
        exact hvb
      · exact ha w hw

/-- Shape every decoded pointers (`SL`/`WL`) block satisfies. -/
def InvPtrs (ps : List (Nat × Nat)) : Prop :=
  (ps.map Prod.fst).Nodup ∧ ps.length ≤ 255 ∧ ∀ p ∈ ps, p.2 < 4294967296

theorem decodePointers_inv {s : List Nat} {ps : List (Nat × Nat)} {l : List Nat}
    (hb : Bounded s) (h : decodePointers s = .ok (ps, l)) : InvPtrs ps := by
  simp only [decodePointers, bind, Except.bind] at h
  match h0 : readByte s with
  | .error e => rw [h0] at h; simp at h
  | .ok (n, s0) =>
  rw [h0] at h
  try dsimp only at h
  match h1 : readBytesN n s0 with
  | .error e => rw [h1] at h; simp at h
  | .ok (ks, s1) =>
  rw [h1] at h
  try dsimp only at h
  match h2 : readInts (dedupFirst ks).length s1 with
  | .error e => rw [h2] at h; simp at h
  | .ok (vs, s2) =>
  rw [h2] at h
  simp at h
  obtain ⟨hv, hl⟩ := h
  subst hv
  obtain ⟨hn, hbs0⟩ := readByte_bd hb h0
  obtain ⟨hsplit, hkslen⟩ := readBytesN_ok h1
  have hbs1 : Bounded s1 := fun b hb0 =>
    hbs0 b (by rw [hsplit]; exact List.mem_append_right _ hb0)
  obtain ⟨hvb, hvlen, hbs2⟩ := readInts_inv hbs1 h2
  refine ⟨?_, ?_, ?_⟩
  · rw [List.map_fst_zip _ _ (le_of_eq hvlen.symm)]
    exact dedupFirst_nodup ks
  · have hd := dedupFirst_length_le ks
    have hz : ((dedupFirst ks).zip vs).length ≤ (dedupFirst ks).length := by
      rw [List.length_zip]
      omega
    omega
  · intro p hp
    obtain ⟨k, v⟩ := p
    exact hvb v (List.of_mem_zip hp).2

theorem decodePointers_rt (ps : List (Nat × Nat)) (hv : InvPtrs ps) :
    decodePointers (encodePointersBody ps) = .ok (ps, []) := by
  obtain ⟨hnd, _, hvals⟩ := hv
  simp only [encodePointersBody, decodePointers, bind, Except.bind, readByte]
  try dsimp only
  have hlen : (ps.map Prod.fst).length = ps.length := by simp
  rw [show readBytesN ps.length
        (ps.map Prod.fst ++ (ps.map fun p => u32le p.2).flatten)
      = .ok (ps.map Prod.fst, (ps.map fun p => u32le p.2).flatten) from by
    rw [← hlen]
    exact readBytesN_append _ _]
  try dsimp only
  rw [dedupFirst_id _ hnd]
  have hmap : (ps.map fun p => u32le p.2) = (ps.map Prod.snd).map u32le := by
    rw [List.map_map]
    rfl
  have hsnd : ∀ v ∈ ps.map Prod.snd, v < 4294967296 := by
    intro v hv0
    obtain ⟨p, hp, rfl⟩ := List.mem_map.mp hv0
    exact hvals p hp
  have hl2 : (ps.map Prod.fst).length = (ps.map Prod.snd).length := by simp
  rw [hmap, hl2,
    show ((ps.map Prod.snd).map u32le).flatten
      = ((ps.map Prod.snd).map u32le).flatten ++ [] from (List.append_nil _).symm,
    readInts_append _ hsnd []]
  try dsimp only
  rw [zip_fst_snd]

theorem decodeMABody_true_no_ok (block : List Nat) (p : List SingleMacro × List Nat) :
    decodeMABody true block ≠ .ok p := by
  intro h
  obtain ⟨ms, l⟩ := p
  simp only [decodeMABody] at h
  match h0 : readShort block with
  | .error e => rw [h0] at h; simp at h
  | .ok (hdr, s1) =>
      rw [h0] at h
      exact readMacros_isOp_no_ok s1.length s1 le_rfl ms l h

/-- A successful `MA` block decode yields macros that re-encode to a block
that fits the frame and decodes back to the same list. -/
theorem decodeMABody_good {block : List Nat} {ms : List SingleMacro} {l : List Nat}
    (hb : Bounded block) (hbl : block.length ≤ 65535)
    (h : decodeMABody false block = .ok (ms, l)) :
    (∀ m ∈ ms, GoodMacro m) ∧ (encodeMABody ms).length ≤ 65535
      ∧ decodeMABody false (encodeMABody ms) = .ok (ms, []) := by
  simp only [decodeMABody] at h
  match h0 : readShort block with
  | .error e => rw [h0] at h; simp at h
  | .ok (hdr, s1) =>
  rw [h0] at h
  obtain ⟨hhdr, hbs1⟩ := readShort_bd hb h0
  have hl1 : block.length = s1.length + 2 := readShort_length h0
  obtain ⟨hgood, hbl2, hsize⟩ := readMacros_inv false s1.length s1 l ms le_rfl hbs1 h
  refine ⟨hgood, ?_, ?_⟩
  · simp only [encodeMABody, u16le, List.length_append, List.length_cons,
      List.length_nil]
    omega
  · simp only [decodeMABody, encodeMABody]
    rw [List.append_assoc, readShort_u16le 8 (by norm_num)]
    try dsimp only
    exact readMacros_encode ms hgood []

theorem flatten_const_length {α : Type} (g : α → List Nat) (k : Nat)
    (hg : ∀ x, (g x).length = k) : ∀ (l : List α),
    ((l.map g).flatten).length = k * l.length := by
  intro l
  induction l with
  | nil => simp
  | cons x t ih =>
      simp [hg, ih]
      ring

theorem gb_flatten_length : ∀ (seq : List GBHwSeq),
    (∀ e ∈ seq, ∃ d1 d2, e.data = [d1, d2]) →
    ((seq.map fun e => e.command :: e.data).flatten).length = 3 * seq.length := by
  intro seq
  induction seq with
  | nil => intro _; rfl
  | cons e t ih =>
      intro h
      obtain ⟨d1, d2, hd⟩ := h e (List.mem_cons_self e t)
      simp [hd, ih (fun x hx => h x (List.mem_cons_of_mem _ hx))]
      ring

set_option maxHeartbeats 3200000 in
/-- Any feature a successful dispatch can produce re-frames correctly:
its encoded body fits a u16 length and decodes back to it. -/
theorem decodeFeatureBody_good {ver c1 c2 : Nat} {block : List Nat} {f : Feature}
    {l : List Nat} (hb : Bounded block) (hbl : block.length ≤ 65535)
    (h : decodeFeatureBody ver c1 c2 block = .ok (f, l)) : GoodFeature ver f := by
  simp only [decodeFeatureBody] at h
  -- NA
  by_cases q1 : c1 = 0x4E ∧ c2 = 0x41
  case pos =>
    rw [if_pos q1] at h
    rw [except_map_ok] at h
    obtain ⟨⟨nm, l0⟩, hdec, hf⟩ := h
    simp only [Prod.mk.injEq] at hf
    obtain ⟨hf1, hf2⟩ := hf
    subst hf1
    obtain ⟨hsplit, hnm⟩ := readStr_ok hdec
    have hbll : block.length = nm.length + 1 + l0.length := by
      rw [hsplit]
      simp only [List.length_append, List.length_cons]
      omega
    refine ⟨?_, _, _, [], rfl, ?_⟩
    · simp only [encFeatureBody, List.length_append, List.length_cons, List.length_nil]
      omega
    · simp only [decodeFeatureBody, encFeatureBody]
      norm_num
      rw [readStr_append nm hnm []]
      rfl
  rw [if_neg q1] at h
  -- FM
  by_cases q2 : c1 = 0x46 ∧ c2 = 0x4D
  case pos =>
    rw [if_pos q2] at h
    rw [except_map_ok] at h
    obtain ⟨⟨v, l0⟩, hdec, hf⟩ := h
    simp only [Prod.mk.injEq] at hf
    obtain ⟨hf1, hf2⟩ := hf
    subst hf1
    have hinv := decodeFM_inv hdec
    refine ⟨?_, _, _, [], rfl, ?_⟩
    · norm_num [encFeatureBody, encodeFMBody, encodeOp]
    · simp only [decodeFeatureBody, encFeatureBody]
      norm_num
      rw [decodeFM_rt v hinv]
      rfl
  rw [if_neg q2] at h
  -- MA
  by_cases q3 : c1 = 0x4D ∧ c2 = 0x41
  case pos =>
    rw [if_pos q3] at h
    rw [except_map_ok] at h
    obtain ⟨⟨ms, l0⟩, hdec, hf⟩ := h
    simp only [Prod.mk.injEq] at hf
    obtain ⟨hf1, hf2⟩ := hf
    subst hf1
    obtain ⟨hgood, hlenb, hredec⟩ := decodeMABody_good hb hbl hdec
    refine ⟨hlenb, _, _, [], rfl, ?_⟩
    simp only [decodeFeatureBody, encFeatureBody]
    norm_num
    rw [hredec]
    rfl
  rw [if_neg q3] at h
  -- O1
  by_cases q4 : c1 = 0x4F ∧ c2 = 0x31
  case pos =>
    rw [if_pos q4] at h
    rw [except_map_ok] at h
    obtain ⟨⟨ms, l0⟩, hdec, hf⟩ := h
    exact absurd hdec (decodeMABody_true_no_ok block (ms, l0))
  rw [if_neg q4] at h
  -- O2
  by_cases q5 : c1 = 0x4F ∧ c2 = 0x32
  case pos =>
    rw [if_pos q5] at h
    rw [except_map_ok] at h
    obtain ⟨⟨ms, l0⟩, hdec, hf⟩ := h
    exact absurd hdec (decodeMABody_true_no_ok block (ms, l0))
  rw [if_neg q5] at h
  -- O3
  by_cases q6 : c1 = 0x4F ∧ c2 = 0x33
  case pos =>
    rw [if_pos q6] at h
    rw [except_map_ok] at h
    obtain ⟨⟨ms, l0⟩, hdec, hf⟩ := h
    exact absurd hdec (decodeMABody_true_no_ok block (ms, l0))
  rw [if_neg q6] at h
  -- O4
  by_cases q7 : c1 = 0x4F ∧ c2 = 0x34
  case pos =>
    rw [if_pos q7] at h
    rw [except_map_ok] at h
    obtain ⟨⟨ms, l0⟩, hdec, hf⟩ := h
    exact absurd hdec (decodeMABody_true_no_ok block (ms, l0))
  rw [if_neg q7] at h
  -- C64
  by_cases q8 : c1 = 0x36 ∧ c2 = 0x34
  case pos =>
    rw [if_pos q8] at h
    rw [except_map_ok] at h
    obtain ⟨⟨v, l0⟩, hdec, hf⟩ := h
    simp only [Prod.mk.injEq] at hf
    obtain ⟨hf1, hf2⟩ := hf
    subst hf1
    have hinv := decodeC64_inv hb hdec
    refine ⟨?_, _, _, [], rfl, ?_⟩
    · norm_num [encFeatureBody, encodeC64Body, u16le]
    · simp only [decodeFeatureBody, encFeatureBody]
      norm_num
      rw [decodeC64_rt v hinv]
      rfl
  rw [if_neg q8] at h
  -- GB
  by_cases q9 : c1 = 0x47 ∧ c2 = 0x42
  case pos =>
    rw [if_pos q9] at h
    rw [except_map_ok] at h
    obtain ⟨⟨v, l0⟩, hdec, hf⟩ := h
    simp only [Prod.mk.injEq] at hf
    obtain ⟨hf1, hf2⟩ := hf
    subst hf1
    have hinv := decodeGB_inv hb hdec
    refine ⟨?_, _, _, [], rfl, ?_⟩
    · have hfl := gb_flatten_length v.hw_seq (fun e he => (hinv.2.2.2.2 e he).2)
      have hl255 := hinv.2.2.2.1
      simp only [encFeatureBody, encodeGBBody, List.length_append, List.length_cons,
        List.length_nil]
      rw [hfl]
      omega
    · simp only [decodeFeatureBody, encFeatureBody]
      norm_num
      rw [decodeGB_rt v hinv]
      rfl
  rw [if_neg q9] at h
  -- SM
  by_cases q10 : c1 = 0x53 ∧ c2 = 0x4D
  case pos =>
    rw [if_pos q10] at h
    rw [except_map_ok] at h
    obtain ⟨⟨v, l0⟩, hdec, hf⟩ := h
    simp only [Prod.mk.injEq] at hf
    obtain ⟨hf1, hf2⟩ := hf
    subst hf1
    have hinv := decodeSM_inv hb hdec
    refine ⟨?_, _, _, [], rfl, ?_⟩
    · rcases Bool.eq_false_or_eq_true v.use_note_map with hm | hm
      · obtain ⟨hpairs, hlen120⟩ := hinv.2.1 hm
        simp only [encFeatureBody, encodeSMBody]
        rw [if_pos hm]
        simp only [List.length_append]
        rw [flatten_const_length _ 4 (fun x => by simp [u16le]) v.sample_map, hlen120]
        norm_num [u16le]
      · simp [encFeatureBody, encodeSMBody, hm, u16le]
    · simp only [decodeFeatureBody, encFeatureBody]
      norm_num
      rw [decodeSM_rt v hinv]
      rfl
  rw [if_neg q10] at h
  -- LD
  by_cases q11 : c1 = 0x4C ∧ c2 = 0x44
  case pos =>
    rw [if_pos q11] at h
    rw [except_map_ok] at h
    obtain ⟨⟨v, l0⟩, hdec, hf⟩ := h
    simp only [Prod.mk.injEq] at hf
    obtain ⟨hf1, hf2⟩ := hf
    subst hf1
    have hinv := decodeLD_inv hb hdec
    refine ⟨?_, _, _, [], rfl, ?_⟩
    · norm_num [encFeatureBody, encodeLDBody, u16le]
    · simp only [decodeFeatureBody, encFeatureBody]
      norm_num
      rw [decodeLD_rt v hinv]
      rfl
  rw [if_neg q11] at h
  -- SN
  by_cases q12 : c1 = 0x53 ∧ c2 = 0x4E
  case pos =>
    rw [if_pos q12] at h
    rw [except_map_ok] at h
    obtain ⟨⟨v, l0⟩, hdec, hf⟩ := h
    simp only [Prod.mk.injEq] at hf
    obtain ⟨hf1, hf2⟩ := hf
    subst hf1
    have hinv := decodeSN_inv hdec
    refine ⟨?_, _, _, [], rfl, ?_⟩
    · by_cases hver : 131 ≤ ver <;> norm_num [encFeatureBody, encodeSNBody, hver]
    · simp only [decodeFeatureBody, encFeatureBody]
      norm_num
      rw [decodeSN_rt ver v hinv]
      rfl
  rw [if_neg q12] at h
  -- N1
  by_cases q13 : c1 = 0x4E ∧ c2 = 0x31
  case pos =>
    rw [if_pos q13] at h
    rw [except_map_ok] at h
    obtain ⟨⟨v, l0⟩, hdec, hf⟩ := h
    simp only [Prod.mk.injEq] at hf
    obtain ⟨hf1, hf2⟩ := hf
    subst hf1
    have hinv := decodeN1_inv hb hdec
    refine ⟨?_, _, _, [], rfl, ?_⟩
    · norm_num [encFeatureBody, encodeN1Body, u32le]
    · simp only [decodeFeatureBody, encFeatureBody]
      norm_num
      rw [decodeN1_rt v hinv]
      rfl
  rw [if_neg q13] at h
  -- FD
  by_cases q14 : c1 = 0x46 ∧ c2 = 0x44
  case pos =>
    rw [if_pos q14] at h
    rw [except_map_ok] at h
    obtain ⟨⟨v, l0⟩, hdec, hf⟩ := h
    simp only [Prod.mk.injEq] at hf
    obtain ⟨hf1, hf2⟩ := hf
    subst hf1
    have hinv := decodeFD_inv hb hdec
    refine ⟨?_, _, _, [], rfl, ?_⟩
    · simp only [encFeatureBody, encodeFDBody, u32le, List.length_append,
        List.length_cons, List.length_nil]
      rw [hinv.2.2]
      norm_num
    · simp only [decodeFeatureBody, encFeatureBody]
      norm_num
      rw [decodeFD_rt v hinv]
      rfl
  rw [if_neg q14] at h
  -- WS
  by_cases q15 : c1 = 0x57 ∧ c2 = 0x53
  case pos =>
    rw [if_pos q15] at h
    rw [except_map_ok] at h
    obtain ⟨⟨v, l0⟩, hdec, hf⟩ := h
    simp only [Prod.mk.injEq] at hf
    obtain ⟨hf1, hf2⟩ := hf
    subst hf1
    have hinv := decodeWS_inv hb hdec
    refine ⟨?_, _, _, [], rfl, ?_⟩
    · obtain ⟨⟨i0, i1, hwi, _, _⟩, _, ⟨p0, p1, p2, p3, hp⟩, _⟩ := hinv
      simp [encFeatureBody, encodeWSBody, hwi, hp, u32le]
    · simp only [decodeFeatureBody, encFeatureBody]
      norm_num
      rw [decodeWS_rt v hinv]
      rfl
  rw [if_neg q15] at h
  -- SL
  by_cases q16 : c1 = 0x53 ∧ c2 = 0x4C
  case pos =>
    rw [if_pos q16] at h
    rw [except_map_ok] at h
    obtain ⟨⟨ps, l0⟩, hdec, hf⟩ := h
    simp only [Prod.mk.injEq] at hf
    obtain ⟨hf1, hf2⟩ := hf
    subst hf1
    have hinv := decodePointers_inv hb hdec
    refine ⟨?_, _, _, [], rfl, ?_⟩
    · simp only [encFeatureBody, encodePointersBody, List.length_cons,
        List.length_append, List.length_map]
      rw [flatten_const_length _ 4 (fun x => by simp [u32le]) ps]
      have := hinv.2.1
      omega
    · simp only [decodeFeatureBody, encFeatureBody]
      norm_num
      rw [decodePointers_rt ps hinv]
      rfl
  rw [if_neg q16] at h
  -- WL
  by_cases q17 : c1 = 0x57 ∧ c2 = 0x4C
  case pos =>
    rw [if_pos q17] at h
    rw [except_map_ok] at h
    obtain ⟨⟨ps, l0⟩, hdec, hf⟩ := h
    simp only [Prod.mk.injEq] at hf
    obtain ⟨hf1, hf2⟩ := hf
    subst hf1
    have hinv := decodePointers_inv hb hdec
    refine ⟨?_, _, _, [], rfl, ?_⟩
    · simp only [encFeatureBody, encodePointersBody, List.length_cons,
        List.length_append, List.length_map]
      rw [flatten_const_length _ 4 (fun x => by simp [u32le]) ps]
      have := hinv.2.1
      omega
    · simp only [decodeFeatureBody, encFeatureBody]
      norm_num
      rw [decodePointers_rt ps hinv]
      rfl
  rw [if_neg q17] at h
  -- MP
  by_cases q18 : c1 = 0x4D ∧ c2 = 0x50
  case pos =>
    rw [if_pos q18] at h
    rw [except_map_ok] at h
    obtain ⟨⟨v, l0⟩, hdec, hf⟩ := h
    simp only [Prod.mk.injEq] at hf
    obtain ⟨hf1, hf2⟩ := hf
    subst hf1
    refine ⟨?_, _, _, [], rfl, ?_⟩
    · norm_num [encFeatureBody, encodeMPBody]
    · simp only [decodeFeatureBody, encFeatureBody]
      norm_num
      rw [decodeMP_rt v]
      rfl
  rw [if_neg q18] at h
  -- SU
  by_cases q19 : c1 = 0x53 ∧ c2 = 0x55
  case pos =>
    rw [if_pos q19] at h
    rw [except_map_ok] at h
    obtain ⟨⟨b, l0⟩, hdec, hf⟩ := h
    simp only [Prod.mk.injEq] at hf
    obtain ⟨hf1, hf2⟩ := hf
    subst hf1
    refine ⟨?_, _, _, [], rfl, ?_⟩
    · norm_num [encFeatureBody]
    · simp only [decodeFeatureBody, encFeatureBody]
      norm_num [readByte, Except.map, btn_bne]
  rw [if_neg q19] at h
  -- ES
  by_cases q20 : c1 = 0x45 ∧ c2 = 0x53
  case pos =>
    rw [if_pos q20] at h
    rw [except_map_ok] at h
    obtain ⟨⟨v, l0⟩, hdec, hf⟩ := h
    simp only [Prod.mk.injEq] at hf
    obtain ⟨hf1, hf2⟩ := hf
    subst hf1
    have hinv := decodeES_inv hb hdec
    refine ⟨?_, _, _, [], rfl, ?_⟩
    · norm_num [encFeatureBody, encodeESBody, u16le]
    · simp only [decodeFeatureBody, encFeatureBody]
      norm_num
      rw [decodeES_rt v hinv]
      rfl
  rw [if_neg q20] at h
  -- X1
  by_cases q21 : c1 = 0x58 ∧ c2 = 0x31
  case pos =>
    rw [if_pos q21] at h
    rw [except_map_ok] at h
    obtain ⟨⟨v, l0⟩, hdec, hf⟩ := h
    simp only [Prod.mk.injEq] at hf
    obtain ⟨hf1, hf2⟩ := hf
    subst hf1
    have hv32 := (readInt_bd hb hdec).1
    refine ⟨?_, _, _, [], rfl, ?_⟩
    · norm_num [encFeatureBody, u32le]
    · simp only [decodeFeatureBody, encFeatureBody]
      norm_num
      rw [show u32le v = u32le v ++ ([] : List Nat) from (List.append_nil _).symm,
        readInt_u32le v hv32]
      rfl
  rw [if_neg q21] at h
  -- NE
  by_cases q22 : c1 = 0x4E ∧ c2 = 0x45
  case pos =>
    rw [if_pos q22] at h
    rw [except_map_ok] at h
    obtain ⟨⟨v, l0⟩, hdec, hf⟩ := h
    simp only [Prod.mk.injEq] at hf
    obtain ⟨hf1, hf2⟩ := hf
    subst hf1
    have hinv := decodeNE_inv hdec
    refine ⟨?_, _, _, [], rfl, ?_⟩
    · rcases Bool.eq_false_or_eq_true v.use_map with hm | hm
      · have hlen120 := hinv.1 hm
        simp only [encFeatureBody, encodeNEBody]
        rw [if_pos hm]
        simp only [List.length_append]
        rw [flatten_const_length (fun p => [p.1, p.2]) 2 (fun x => rfl)
          v.sample_map, hlen120]
        norm_num
      · simp [encFeatureBody, encodeNEBody, hm]
    · simp only [decodeFeatureBody, encFeatureBody]
      norm_num
      rw [decodeNE_rt v hinv]
      rfl
  rw [if_neg q22] at h
  -- PN
  by_cases q23 : c1 = 0x50 ∧ c2 = 0x4E
  case pos =>
    rw [if_pos q23] at h
    rw [except_map_ok] at h
    obtain ⟨⟨b, l0⟩, hdec, hf⟩ := h
    simp only [Prod.mk.injEq] at hf
    obtain ⟨hf1, hf2⟩ := hf
    subst hf1
    refine ⟨?_, _, _, [], rfl, ?_⟩
    · norm_num [encFeatureBody]
    · simp only [decodeFeatureBody, encFeatureBody]
      norm_num [readByte, Except.map]
  rw [if_neg q23] at h
  -- S2
  by_cases q24 : c1 = 0x53 ∧ c2 = 0x32
  case pos =>
    rw [if_pos q24] at h
    rw [except_map_ok] at h
    obtain ⟨⟨v, l0⟩, hdec, hf⟩ := h
    simp only [Prod.mk.injEq] at hf
    obtain ⟨hf1, hf2⟩ := hf
    subst hf1
    have hinv := decodeS2_inv hdec
    refine ⟨?_, _, _, [], rfl, ?_⟩
    · norm_num [encFeatureBody, encodeS2Body]
    · simp only [decodeFeatureBody, encFeatureBody]
      norm_num
      rw [decodeS2_rt v hinv]
      rfl
  rw [if_neg q24] at h
  -- unknown code
  simp at h

/-- Decode-side invariant of the feature loop: every feature it returns
re-frames correctly. -/
theorem readFeatures_inv (ver : Nat) : ∀ (fuel : Nat) (s : List Nat)
    (fs : List Feature), s.length ≤ fuel → Bounded s →
    readFeatures ver s = .ok fs → ∀ f ∈ fs, GoodFeature ver f := by
  intro fuel
  induction fuel with
  | zero =>
      intro s fs hf hb h
      have hs : s = [] := by
        cases s with
        | nil => rfl
        | cons b t => simp at hf
      subst hs
      rw [readFeatures_unfold] at h
      simp at h
      subst h
      intro f hf0
      cases hf0
  | succ fuel ih =>
      intro s fs hf hb h
      rw [readFeatures_unfold] at h
      match s with
      | [] =>
          simp at h
          subst h
          intro f hf0
          cases hf0
      | [b] => simp at h
      | c1 :: c2 :: rest =>
          dsimp only at h
          by_cases hen : c1 = 0x45 ∧ c2 = 0x4E
          · rw [if_pos hen] at h
            simp at h
            subst h
            intro f hf0
            cases hf0
          · rw [if_neg hen] at h
            match h1 : readShort rest with
            | .error e => rw [h1] at h; simp at h
            | .ok (len, s1) =>
            rw [h1] at h
            dsimp only at h
            have hbrest : Bounded rest := (bounded_cons (bounded_cons hb).2).2
            obtain ⟨hlen, hbs1⟩ := readShort_bd hbrest h1
            match h2 : decodeFeatureBody ver c1 c2 (s1.take len) with
            | .error e => rw [h2] at h; simp at h
            | .ok (f0, l0) =>
            rw [h2] at h
            dsimp only at h
            match h3 : readFeatures ver (s1.drop len) with
            | .error e => rw [h3] at h; simp at h
            | .ok fs0 =>
            rw [h3] at h
            simp at h
            subst h
            have hgood : GoodFeature ver f0 := by
              refine decodeFeatureBody_good (bounded_take hbs1 len) ?_ h2
              have htk : (s1.take len).length ≤ len := by simp
              omega
            have hrest : ∀ f ∈ fs0, GoodFeature ver f := by
              refine ih (s1.drop len) fs0 ?_ (bounded_drop hbs1 len) h3
              have e1 : rest.length = s1.length + 2 := readShort_length h1
              have e2 : (s1.drop len).length ≤ s1.length := by simp
              simp only [List.length_cons] at hf
              omega
            intro f hf0
            rcases List.mem_cons.mp hf0 with hf0 | hf0
            · subst hf0
              exact hgood
            · exact hrest f hf0

/-- **C1.** For every instrument decoded from a featural-generation
(format 2) source, re-encoding it to the featural layout and then decoding
the result yields a structurally equal instrument:
`decode(encode(i)) == i`, equality taken over the feature list (and the
version/type header). -/
theorem featural_instrument_roundtrip (s : List Nat) (i : Instrument)
    (hb : Bounded s) (h : decodeInstrumentFormat1 s = .ok i) :
    decodeInstrumentFormat1 (encodeInstrumentFormat1 i) = .ok i := by
  simp only [decodeInstrumentFormat1] at h
  match h0 : readShort s with
  | .error e => rw [h0] at h; simp at h
  | .ok (ver, s1) =>
  rw [h0] at h
  dsimp only at h
  match h1 : readShort s1 with
  | .error e => rw [h1] at h; simp at h
  | .ok (ity, s2) =>
  rw [h1] at h
  dsimp only at h
  by_cases hity : ity ≤ 49
  case neg => rw [if_neg hity] at h; simp at h
  rw [if_pos hity] at h
  match h2 : readFeatures ver s2 with
  | .error e => rw [h2] at h; simp at h
  | .ok fs =>
  rw [h2] at h
  simp at h
  subst h
  obtain ⟨hver, hbs1⟩ := readShort_bd hb h0
  obtain ⟨hity2, hbs2⟩ := readShort_bd hbs1 h1
  have hgoods := readFeatures_inv ver s2.length s2 fs le_rfl hbs2 h2
  simp only [decodeInstrumentFormat1, encodeInstrumentFormat1, List.append_assoc]
  rw [readShort_u16le ver (by omega)]
  dsimp only
  rw [readShort_u16le ity (by omega)]
  dsimp only
  rw [if_pos hity]
  rw [readFeatures_encode ver fs hgoods]

/-- Concrete check of `featural_instrument_roundtrip`: version 143, type 1,
one `PN` feature (octave 7). -/
theorem featural_instrument_roundtrip_witness :
    Bounded [143, 0, 1, 0, 0x50, 0x4E, 1, 0, 7, 0x45, 0x4E]
      ∧ decodeInstrumentFormat1 [143, 0, 1, 0, 0x50, 0x4E, 1, 0, 7, 0x45, 0x4E]
          = .ok { version := 143, itype := 1, features := [Feature.pn 7] }
      ∧ decodeInstrumentFormat1 (encodeInstrumentFormat1
            { version := 143, itype := 1, features := [Feature.pn 7] })
          = .ok { version := 143, itype := 1, features := [Feature.pn 7] } := by
  have hdec : decodeInstrumentFormat1 [143, 0, 1, 0, 0x50, 0x4E, 1, 0, 7, 0x45, 0x4E]
      = .ok { version := 143, itype := 1, features := [Feature.pn 7] } := by
    simp only [decodeInstrumentFormat1, readShort]
    norm_num
    rw [readFeatures_unfold]
    norm_num [readShort, decodeFeatureBody, readByte, Except.map]
    rw [readFeatures_unfold]
    norm_num
  exact ⟨by simp [Bounded], hdec,
    featural_instrument_roundtrip _ _ (by simp [Bounded]) hdec⟩

end Chipchune
